import Mathlib

/-!
# InsidePolyhedron: a shallow embedding of `FindInsideOfPolyhedron.cpp`

The C++ source decides, for every point of a rectilinear grid, whether it lies
inside a triangulated surface, by casting rays along the longest grid axis and
counting crossings.

Modelling conventions

* A `double` is modelled by the rational number it represents.  The result of
  every arithmetic operation of the source (`+`, `-`, `*`, `/`, and the literal
  `1e-14`) is the exact result passed through a rounding function, which is a
  parameter of the model (`Rounding`): a theorem stated for an arbitrary
  rounding holds whatever the precision of the arithmetic.  A statement that
  names no rounding is about exact arithmetic (`exactArithmetic`);
  `binary64` is round-to-nearest-even on 53 significant bits.  Every operation
  is rounded on its own, in the order in which the source writes it (no fused
  multiply-add, no extended precision).  Comparisons, `abs`, `min` and `max`
  are exact on `double`s and so unrounded.  Overflow is not modelled, and a
  division by zero, which yields `inf`/`NaN` in IEEE arithmetic, has the exact
  result `0`; theorems that depend on a quotient state the non-singularity
  they need.
* `size_t`/`int` counters and indices are natural numbers; the sizes are assumed
  to fit the machine word, so no wrap-around is modelled.
* C arrays of fixed length 3 are functions on `Fin 3`; `vector`s are lists.
* The output array `bool inside[]` is a function `ℕ → Bool` (the memory starting
  at the pointer), so that a store beyond `nx*ny*nz` remains visible.  Every
  store `inside[n] = v` is also recorded, in program order, as the pair `(n, v)`.
* The two function-local `static bool` latches and the text printed through
  `warning` are explicit state (`DiagState`) passed in and returned.
-/

namespace InsidePolyhedron

/-! ## Arithmetic -/

/-- How the machine stores the exact result of one `double` operation. -/
class Rounding where
  /-- The representable value an exact result is rounded to. -/
  rnd : ℚ → ℚ

/-- The sum `a + b` of two `double`s. -/
def fadd [Rounding] (a b : ℚ) : ℚ := Rounding.rnd (a + b)

/-- The difference `a - b` of two `double`s. -/
def fsub [Rounding] (a b : ℚ) : ℚ := Rounding.rnd (a - b)

/-- The product `a * b` of two `double`s. -/
def fmul [Rounding] (a b : ℚ) : ℚ := Rounding.rnd (a * b)

/-- The quotient `a / b` of two `double`s. -/
def fdiv [Rounding] (a b : ℚ) : ℚ := Rounding.rnd (a / b)

/-- The integer nearest to `q`; of two equally near integers the even one. -/
def roundHalfEven (q : ℚ) : ℤ :=
  if q - ⌊q⌋ < 1 / 2 then ⌊q⌋
  else if q - ⌊q⌋ > 1 / 2 then ⌊q⌋ + 1
  else if ⌊q⌋ % 2 = 0 then ⌊q⌋
  else ⌊q⌋ + 1

/-- The power `2^e` for an integer exponent. -/
def pow2 (e : ℤ) : ℚ := if e ≥ 0 then 2 ^ e.toNat else 1 / 2 ^ (-e).toNat

/-- The number of times `n` can be halved before it drops below `2`, found in
at most `fuel` steps; `log2Floor n n` is the integer part of the binary
logarithm of `n ≥ 1`. -/
def log2Floor : ℕ → ℕ → ℕ
  | 0, _ => 0
  | fuel + 1, n => if 2 ≤ n then log2Floor fuel (n / 2) + 1 else 0

/-- The binary exponent of `q ≠ 0`: the `e` with `2^e ≤ |q| < 2^(e+1)`. -/
def binade (q : ℚ) : ℤ :=
  if pow2 ((log2Floor q.num.natAbs q.num.natAbs : ℤ) - (log2Floor q.den q.den : ℤ)) ≤ |q| then
    (log2Floor q.num.natAbs q.num.natAbs : ℤ) - (log2Floor q.den q.den : ℤ)
  else (log2Floor q.num.natAbs q.num.natAbs : ℤ) - (log2Floor q.den q.den : ℤ) - 1

/-- The spacing of the binary64 numbers around `q`: 53 significant bits, and
the fixed spacing `2^-1074` of the subnormal range below `2^-1022`. -/
def ulp64 (q : ℚ) : ℚ := pow2 (max (binade q) (-1022) - 52)

/-- IEEE 754 binary64 arithmetic in the default rounding mode: the exact result
is rounded to the nearest binary64 number, ties to the even significand.
Results beyond the largest finite `double` are not turned into infinities. -/
def binary64 : Rounding := ⟨fun q => roundHalfEven (q / ulp64 q) * ulp64 q⟩

/-! ## Data model -/

/-- One row of an `nBy3Array`: `array<double, 3>`. -/
abbrev Vec3 := Fin 3 → ℚ

/-- One triangular face: `faces[i][j][k]` is coordinate `k` of vertex `j`. -/
abbrev Face := Fin 3 → Vec3

/-- The C++ `typedef vector<array<double, 3>> nBy3Array`. -/
abbrev nBy3Array := List Vec3

/-- The C++ `typedef vector<array<array<double, 3>, 3>> nBy3By3Array`. -/
abbrev nBy3By3Array := List Face

/-- Modelled from the spec: the index buffer `DynamicArray<int>` of
`DynamicArray.h`, which is not among the sources.  It has a capacity reserved
up front and exposes clear (capacity retained), append-assuming-capacity, size
and indexed read. -/
structure DynamicArray where
  /-- Number of slots reserved by the constructor. -/
  capacity : ℕ
  /-- The stored indices, oldest first. -/
  data : List ℕ

namespace DynamicArray

/-- Constructor `DynamicArray<int> a {n}`: empty, capacity `n`. -/
def create (n : ℕ) : DynamicArray := ⟨n, []⟩

/-- Method `clear()`: reset to empty, capacity retained. -/
def clear (a : DynamicArray) : DynamicArray := ⟨a.capacity, []⟩

/-- Method `insertLast_unsafe(v)`: append without a capacity check. -/
def insertLast_unsafe (a : DynamicArray) (v : ℕ) : DynamicArray := ⟨a.capacity, a.data ++ [v]⟩

/-- Method `size()`. -/
def size (a : DynamicArray) : ℕ := a.data.length

end DynamicArray

/-- The two diagnostics the source can print. -/
inductive Warning where
  /-- The text `singularWarning` of `checkSingular`. -/
  | singular
  /-- The text passed to `warnOnce` by `insidePolyhedron`. -/
  | oddCrossings
  deriving DecidableEq, Repr

/-- Process-wide diagnostic state: the `static bool hasAlreadyWarned` of
`checkSingular`, the `static bool hasWarned` of `warnOnce`, and the warnings
printed so far. -/
structure DiagState where
  /-- Latch of `checkSingular`. -/
  hasAlreadyWarned : Bool
  /-- Latch of `warnOnce`. -/
  hasWarned : Bool
  /-- Warnings printed so far, oldest first. -/
  emitted : List Warning
  deriving DecidableEq, Repr

/-- State of a freshly started process: both latches clear, nothing printed. -/
def DiagState.initial : DiagState := ⟨false, false, []⟩

/-! ## Bounding boxes -/

/-- Lines 30-34 of `findExtremeCoords`: the running minimum over the three vertices. -/
def faceMin (f : Face) : Vec3 := fun dim =>
  let m0 := f 0 dim
  let m1 := if f 1 dim < m0 then f 1 dim else m0
  if f 2 dim < m1 then f 2 dim else m1

/-- Lines 35-39 of `findExtremeCoords`: the running maximum over the three vertices. -/
def faceMax (f : Face) : Vec3 := fun dim =>
  let m0 := f 0 dim
  let m1 := if f 1 dim > m0 then f 1 dim else m0
  if f 2 dim > m1 then f 2 dim else m1

/-- The function `findExtremeCoords`: returns `(minCoords, maxCoords)`. -/
def findExtremeCoords (faces : nBy3By3Array) : nBy3Array × nBy3Array :=
  (faces.map faceMin, faces.map faceMax)

/-! ## Candidate filter -/

/-- Loop body of `findFacesInDim` for face number `i`. -/
def findFacesInDimStep (minCoords maxCoords : nBy3Array) (value : ℚ) (dim : Fin 3)
    (facesIndex : DynamicArray) (i : ℕ) : DynamicArray :=
  if minCoords.getD i 0 dim < value ∧ maxCoords.getD i 0 dim > value then
    facesIndex.insertLast_unsafe i
  else facesIndex

/-- The function `findFacesInDim`: clears the buffer, then appends every face
number whose interval strictly straddles `value` on axis `dim`. -/
def findFacesInDim (facesIndex : DynamicArray) (minCoords maxCoords : nBy3Array)
    (value : ℚ) (dim : Fin 3) : DynamicArray :=
  (List.range minCoords.length).foldl (findFacesInDimStep minCoords maxCoords value dim)
    facesIndex.clear

/-- The function `selectFaces`: `selectedFaces[i] = faces[facesIndex[i]]`. -/
def selectFaces (faces : nBy3By3Array) (facesIndex : DynamicArray) : nBy3By3Array :=
  facesIndex.data.map (fun idx => faces.getD idx 0)

/-- The function `selectCoords`: the selected rows of `minCoords` and `maxCoords`. -/
def selectCoords (minCoords maxCoords : nBy3Array) (facesIndex : DynamicArray) :
    nBy3Array × nBy3Array :=
  (facesIndex.data.map (fun idx => minCoords.getD idx 0),
   facesIndex.data.map (fun idx => maxCoords.getD idx 0))

/-! ## The 2x2 solver and the crossing computation -/

/-- The threshold `1e-14` of `checkSingular`. -/
def singularTol [Rounding] : ℚ := Rounding.rnd (1 / 10 ^ 14)

/-- The function `checkSingular`: prints the singular warning when a denominator
is below the threshold and the latch is still clear, and sets the latch. -/
def checkSingular [Rounding] (s : DiagState) (denominator1 denominator2 : ℚ) : DiagState :=
  if |denominator1| < singularTol ∨ |denominator2| < singularTol then
    if !s.hasAlreadyWarned then
      { s with emitted := s.emitted ++ [Warning.singular], hasAlreadyWarned := true }
    else s
  else s

/-- The function `solve2by2`: Gaussian elimination with partial pivoting; returns
the diagnostic state after `checkSingular` and the overwritten `b`. -/
def solve2by2 [Rounding] (s : DiagState) (A : Fin 2 → Fin 2 → ℚ) (b : Fin 2 → ℚ) :
    DiagState × (Fin 2 → ℚ) :=
  if |A 0 0| > |A 1 0| then
    let fac := fdiv (A 1 0) (A 0 0)
    let a22 := fsub (A 1 1) (fmul (A 0 1) fac)
    let b1 := fdiv (fsub (b 1) (fmul (b 0) fac)) a22
    let b0 := fdiv (fsub (b 0) (fmul (A 0 1) b1)) (A 0 0)
    (checkSingular s a22 (A 0 0), ![b0, b1])
  else
    let fac := fdiv (A 0 0) (A 1 0)
    let a12 := fsub (A 0 1) (fmul (A 1 1) fac)
    let b1 := fdiv (fsub (b 0) (fmul (b 1) fac)) a12
    let b0 := fdiv (fsub (b 1) (fmul (A 1 1) b1)) (A 1 0)
    (checkSingular s a12 (A 1 0), ![b0, b1])

/-- Lines 133-139 of `getCrossings`: the matrix of the projected system for one face. -/
def crossingMatrix [Rounding] (f : Face) (dimOrder : Fin 3 → Fin 3) : Fin 2 → Fin 2 → ℚ :=
  ![![fsub (f 1 (dimOrder 0)) (f 0 (dimOrder 0)), fsub (f 2 (dimOrder 0)) (f 0 (dimOrder 0))],
    ![fsub (f 1 (dimOrder 1)) (f 0 (dimOrder 1)), fsub (f 2 (dimOrder 1)) (f 0 (dimOrder 1))]]

/-- Lines 133-139 of `getCrossings`: the right-hand side for one face. -/
def crossingRhs [Rounding] (f : Face) (coords : Fin 2 → ℚ) (dimOrder : Fin 3 → Fin 3) :
    Fin 2 → ℚ :=
  ![fsub (coords 0) (f 0 (dimOrder 0)), fsub (coords 1) (f 0 (dimOrder 1))]

/-- Line 144 of `getCrossings`: the crossing coordinate on the ray axis. -/
def crossingValue [Rounding] (f : Face) (b : Fin 2 → ℚ) (dim2 : Fin 3) : ℚ :=
  fadd (fadd (f 0 dim2) (fmul (b 0) (fsub (f 1 dim2) (f 0 dim2))))
    (fmul (b 1) (fsub (f 2 dim2) (f 0 dim2)))

/-- Loop body of `getCrossings` for one face: solve, test, push the crossing. -/
def getCrossingsStep [Rounding] (coords : Fin 2 → ℚ) (dimOrder : Fin 3 → Fin 3)
    (acc : DiagState × List ℚ) (f : Face) : DiagState × List ℚ :=
  let r := solve2by2 acc.1 (crossingMatrix f dimOrder) (crossingRhs f coords dimOrder)
  if r.2 0 > 0 ∧ r.2 1 > 0 ∧ fadd (r.2 0) (r.2 1) < 1 then
    (r.1, acc.2 ++ [crossingValue f r.2 (dimOrder 2)])
  else (r.1, acc.2)

/-- The function `getCrossings`: the sorted crossings of the faces by the line
through `coords` along axis `dimOrder 2`, with the diagnostic state threaded. -/
def getCrossings [Rounding] (s : DiagState) (faces : nBy3By3Array) (coords : Fin 2 → ℚ)
    (dimOrder : Fin 3 → Fin 3) : DiagState × List ℚ :=
  let r := faces.foldl (getCrossingsStep coords dimOrder) (s, [])
  (r.1, r.2.insertionSort (· ≤ ·))

/-- The function `isOdd`. -/
def isOdd (n : ℕ) : Bool := n % 2 == 1

/-- The function `warnOnce`: prints `msg` unless its latch is set, and sets it. -/
def warnOnce (msg : Warning) (s : DiagState) : DiagState :=
  if !s.hasWarned then { s with emitted := s.emitted ++ [msg], hasWarned := true } else s

/-! ## Axis scheduler -/

/-- The three arrays `selectDimensionsForFastestProcessing` works on. -/
structure Dims where
  /-- For each loop level, the physical axis it runs over. -/
  dimOrder : Fin 3 → Fin 3
  /-- For each loop level, the number of grid coordinates. -/
  dimSize : Fin 3 → ℕ
  /-- The strides used to address the output array. -/
  dimStep : Fin 3 → ℕ

/-- Lines 187-195: compare positions `j` and `j1 = j + 1` and swap both arrays. -/
def bubbleStep (j j1 : Fin 3) (d : Dims) : Dims :=
  if d.dimSize j > d.dimSize j1 then
    { d with
      dimSize := Function.update (Function.update d.dimSize j (d.dimSize j1)) j1 (d.dimSize j)
      dimOrder := Function.update (Function.update d.dimOrder j (d.dimOrder j1)) j1 (d.dimOrder j) }
  else d

/-- The function `selectDimensionsForFastestProcessing`.  The bubble sort runs
its inner body for `(i, j) = (0, 0), (0, 1), (1, 0)`. -/
def selectDimensionsForFastestProcessing (d : Dims) : Dims :=
  let nx := d.dimSize 0
  let ny := d.dimSize 1
  let d1 := bubbleStep 0 1 (bubbleStep 1 2 (bubbleStep 0 1 d))
  { d1 with
    dimStep := Function.update (Function.update (Function.update d1.dimStep
      (d1.dimOrder 0) ny) (d1.dimOrder 1) 1) (d1.dimOrder 2) (ny * nx) }

/-- Lines 264-267 of `insidePolyhedron`: the scheduler run on the grid shape.
The array `dimSteps` is uninitialised in the source; it starts at zero here. -/
def gridDims (nx ny nz : ℕ) : Dims :=
  selectDimensionsForFastestProcessing ⟨![0, 1, 2], ![nx, ny, nz], fun _ => 0⟩

/-- Line 303: the output index written at loop position `(i, j, k)`. -/
def writeIndex (dimSteps : Fin 3 → ℕ) (i j k : ℕ) : ℕ :=
  i * dimSteps 0 + j * dimSteps 1 + k * dimSteps 2

/-! ## Parity scan and the main loops -/

/-- The `while` loop of lines 298-302, run for at most `fuel` iterations;
returns `(crossingsPassed, isInside)`. -/
def passCrossings (crossings : List ℚ) (coord : ℚ) : ℕ → ℕ → Bool → ℕ × Bool
  | 0, crossingsPassed, isInside => (crossingsPassed, isInside)
  | fuel + 1, crossingsPassed, isInside =>
    if crossingsPassed < crossings.length ∧ crossings.getD crossingsPassed 0 < coord then
      passCrossings crossings coord fuel (crossingsPassed + 1) (!isInside)
    else (crossingsPassed, isInside)

/-- State of the loop over `k`: the two locals and the stores made so far. -/
structure ScanState where
  /-- The local `isInside`. -/
  isInside : Bool
  /-- The local `crossingsPassed`. -/
  crossingsPassed : ℕ
  /-- The stores `inside[n] = v`, oldest first. -/
  writes : List (ℕ × Bool)

/-- Body of the loop over `k` (lines 296-304).  Each iteration of the `while`
loop increments `crossingsPassed`, so `crossings.length` iterations suffice. -/
def scanStep (crossings ray : List ℚ) (dimSteps : Fin 3 → ℕ) (i j : ℕ)
    (st : ScanState) (k : ℕ) : ScanState :=
  let r := passCrossings crossings (ray.getD k 0) crossings.length st.crossingsPassed st.isInside
  ⟨r.2, r.1, st.writes ++ [(writeIndex dimSteps i j k, r.2)]⟩

/-- Lines 294-304: the parity scan of one ray; returns the stores it makes. -/
def scanRay (crossings ray : List ℚ) (n2 : ℕ) (dimSteps : Fin 3 → ℕ) (i j : ℕ) :
    List (ℕ × Bool) :=
  ((List.range n2).foldl (scanStep crossings ray dimSteps i j) ⟨false, 0, []⟩).writes

/-- State of the two outer loops: diagnostics and the stores made so far. -/
structure RunState where
  /-- The diagnostic latches and output. -/
  diag : DiagState
  /-- The stores `inside[n] = v`, oldest first. -/
  writes : List (ℕ × Bool)

/-- Body of the loop over `j` (lines 283-304).  `facesIndex` is the buffer
created at line 262; `findFacesInDim` clears it before use. -/
def rayStep [Rounding] (d : Dims) (grid : Fin 3 → List ℚ) (facesIndex : DynamicArray)
    (facesD2 : nBy3By3Array) (minCoordsD2 maxCoordsD2 : nBy3Array) (i : ℕ)
    (st : RunState) (j : ℕ) : RunState :=
  let coords : Fin 2 → ℚ := ![(grid (d.dimOrder 0)).getD i 0, (grid (d.dimOrder 1)).getD j 0]
  let facesIndex1 := findFacesInDim facesIndex minCoordsD2 maxCoordsD2 (coords 1) (d.dimOrder 1)
  if facesIndex1.size = 0 then st
  else
    let facesD1 := selectFaces facesD2 facesIndex1
    let r := getCrossings st.diag facesD1 coords d.dimOrder
    let nCrossings := r.2.length
    if nCrossings = 0 then { st with diag := r.1 }
    else
      let diag := if isOdd nCrossings then warnOnce Warning.oddCrossings r.1 else r.1
      ⟨diag, st.writes ++ scanRay r.2 (grid (d.dimOrder 2)) (d.dimSize 2) d.dimStep i j⟩

/-- Body of the loop over `i` (lines 276-305). -/
def sliceStep [Rounding] (d : Dims) (grid : Fin 3 → List ℚ) (facesIndex : DynamicArray)
    (faces : nBy3By3Array) (minCoords maxCoords : nBy3Array)
    (st : RunState) (i : ℕ) : RunState :=
  let facesIndex0 := findFacesInDim facesIndex minCoords maxCoords
    ((grid (d.dimOrder 0)).getD i 0) (d.dimOrder 0)
  if facesIndex0.size = 0 then st
  else
    let facesD2 := selectFaces faces facesIndex0
    let sel := selectCoords minCoords maxCoords facesIndex0
    (List.range (d.dimSize 1)).foldl (rayStep d grid facesIndex0 facesD2 sel.1 sel.2 i) st

/-- The core `insidePolyhedron` (lines 251-307) as a producer of stores: the
diagnostic state on return and every store `inside[n] = v` in program order. -/
def insidePolyhedronRun [Rounding] (s : DiagState) (faces : nBy3By3Array) (x y z : List ℚ) : RunState :=
  let d := gridDims x.length y.length z.length
  let ext := findExtremeCoords faces
  (List.range (d.dimSize 0)).foldl
    (sliceStep d ![x, y, z] (DynamicArray.create faces.length) faces ext.1 ext.2) ⟨s, []⟩

/-- Performs the recorded stores on the memory `inside`, oldest first. -/
def applyWrites (inside : ℕ → Bool) (writes : List (ℕ × Bool)) : ℕ → Bool :=
  writes.foldl (fun m w => Function.update m w.1 w.2) inside

/-- The core `insidePolyhedron`: diagnostic state and output array on return. -/
def insidePolyhedron [Rounding] (s : DiagState) (inside : ℕ → Bool) (faces : nBy3By3Array)
    (x y z : List ℚ) : DiagState × (ℕ → Bool) :=
  let r := insidePolyhedronRun s faces x y z
  (r.diag, applyWrites inside r.writes)

/-! ## Notions used to state the properties -/

/-- The output index the source uses for grid point `(x[i], y[j], z[k])`: loop
level `l` runs over axis `dimOrder l` (lines 276, 283, 298), so its loop
variable is the position of the point on that axis. -/
def pointIndex (nx ny nz i j k : ℕ) : ℕ :=
  writeIndex (gridDims nx ny nz).dimStep (![i, j, k] ((gridDims nx ny nz).dimOrder 0))
    (![i, j, k] ((gridDims nx ny nz).dimOrder 1)) (![i, j, k] ((gridDims nx ny nz).dimOrder 2))

/-- The scheduler's axis order for a grid shape is its own inverse: the
identity or a swap of two axes. -/
def SelfInverseOrder (nx ny nz : ℕ) : Prop :=
  ∀ p : Fin 3, (gridDims nx ny nz).dimOrder ((gridDims nx ny nz).dimOrder p) = p

instance (nx ny nz : ℕ) : Decidable (SelfInverseOrder nx ny nz) :=
  by unfold SelfInverseOrder; infer_instance

/-- The test of line 49 for face number `i`: its interval on axis `dim` strictly
straddles `value`. -/
def straddles (minCoords maxCoords : nBy3Array) (value : ℚ) (dim : Fin 3) (i : ℕ) : Bool :=
  decide (minCoords.getD i 0 dim < value ∧ maxCoords.getD i 0 dim > value)

/-- Line 276: the first filter, run on the bounding boxes of all faces with the
buffer created at line 262. -/
def firstFilter (faces : nBy3By3Array) (c0 : ℚ) (dim0 : Fin 3) : DynamicArray :=
  findFacesInDim (DynamicArray.create faces.length) (findExtremeCoords faces).1
    (findExtremeCoords faces).2 c0 dim0

/-- Lines 280 and 284: the second filter, run on the bounding boxes selected by
the first one, reusing the same buffer. -/
def secondFilter (faces : nBy3By3Array) (c0 : ℚ) (dim0 : Fin 3) (c1 : ℚ) (dim1 : Fin 3) :
    DynamicArray :=
  findFacesInDim (firstFilter faces c0 dim0)
    (selectCoords (findExtremeCoords faces).1 (findExtremeCoords faces).2
      (firstFilter faces c0 dim0)).1
    (selectCoords (findExtremeCoords faces).1 (findExtremeCoords faces).2
      (firstFilter faces c0 dim0)).2 c1 dim1

/-- The buffer of `findFacesInDim` after the first `m` iterations of its loop. -/
def findFacesInDimAfter (m : ℕ) (facesIndex : DynamicArray) (minCoords maxCoords : nBy3Array)
    (value : ℚ) (dim : Fin 3) : DynamicArray :=
  ((List.range minCoords.length).take m).foldl
    (findFacesInDimStep minCoords maxCoords value dim) facesIndex.clear

/-- The number of crossings the scan has passed once it records a ray position
with coordinate `v`: the length of the longest prefix of `crossings` whose
entries are all below `v`. -/
def passedCount (v : ℚ) : List ℚ → ℕ
  | [] => 0
  | c :: cs => if c < v then passedCount v cs + 1 else 0

/-- The solved parameters `(b0, b1)` of lines 133-140 for one face. -/
def solveParams [Rounding] (f : Face) (coords : Fin 2 → ℚ) (dimOrder : Fin 3 → Fin 3) : Fin 2 → ℚ :=
  (solve2by2 DiagState.initial (crossingMatrix f dimOrder) (crossingRhs f coords dimOrder)).2

/-- The test of line 141 for one face. -/
def accepts [Rounding] (f : Face) (coords : Fin 2 → ℚ) (dimOrder : Fin 3 → Fin 3) : Bool :=
  decide (solveParams f coords dimOrder 0 > 0 ∧ solveParams f coords dimOrder 1 > 0 ∧
    fadd (solveParams f coords dimOrder 0) (solveParams f coords dimOrder 1) < 1)

/-- The crossing pushed at line 145 for one face, if the test of line 141 passes. -/
def acceptedCrossing [Rounding] (coords : Fin 2 → ℚ) (dimOrder : Fin 3 → Fin 3) (f : Face) : Option ℚ :=
  if accepts f coords dimOrder then
    some (crossingValue f (solveParams f coords dimOrder) (dimOrder 2))
  else none

/-- The two denominators `solve2by2` hands to `checkSingular` (lines 109, 118). -/
def solveDenominators [Rounding] (A : Fin 2 → Fin 2 → ℚ) : ℚ × ℚ :=
  if |A 0 0| > |A 1 0| then (fsub (A 1 1) (fmul (A 0 1) (fdiv (A 1 0) (A 0 0))), A 0 0)
  else (fsub (A 0 1) (fmul (A 1 1) (fdiv (A 0 0) (A 1 0))), A 1 0)

/-- The condition of line 91 on the denominators of the system of one face. -/
def nearSingular [Rounding] (dimOrder : Fin 3 → Fin 3) (f : Face) : Bool :=
  decide (|(solveDenominators (crossingMatrix f dimOrder)).1| < singularTol ∨
    |(solveDenominators (crossingMatrix f dimOrder)).2| < singularTol)

/-- The pair `coords` of line 283 at loop position `(i, j)`. -/
def rayCoords (x y z : List ℚ) (i j : ℕ) : Fin 2 → ℚ :=
  ![(![x, y, z] ((gridDims x.length y.length z.length).dimOrder 0)).getD i 0,
    (![x, y, z] ((gridDims x.length y.length z.length).dimOrder 1)).getD j 0]

/-- The face list `facesD1` of line 287 at loop position `(i, j)`; it is empty
when one of the two filters leaves no candidate. -/
def rayFaces (faces : nBy3By3Array) (x y z : List ℚ) (i j : ℕ) : nBy3By3Array :=
  selectFaces
    (selectFaces faces (firstFilter faces (rayCoords x y z i j 0)
      ((gridDims x.length y.length z.length).dimOrder 0)))
    (secondFilter faces (rayCoords x y z i j 0)
      ((gridDims x.length y.length z.length).dimOrder 0) (rayCoords x y z i j 1)
      ((gridDims x.length y.length z.length).dimOrder 1))

/-- The crossing list of the ray at loop position `(i, j)`; empty when a filter
leaves no candidate. -/
def rayCrossings [Rounding] (faces : nBy3By3Array) (x y z : List ℚ) (i j : ℕ) : List ℚ :=
  (getCrossings DiagState.initial (rayFaces faces x y z i j) (rayCoords x y z i j)
    (gridDims x.length y.length z.length).dimOrder).2

/-- The stores made for the ray at loop position `(i, j)`. -/
def rayWrites [Rounding] (faces : nBy3By3Array) (x y z : List ℚ) (i j : ℕ) : List (ℕ × Bool) :=
  if (rayCrossings faces x y z i j).length = 0 then []
  else scanRay (rayCrossings faces x y z i j)
    (![x, y, z] ((gridDims x.length y.length z.length).dimOrder 2))
    ((gridDims x.length y.length z.length).dimSize 2)
    (gridDims x.length y.length z.length).dimStep i j

/-- The diagnostic state after the ray at loop position `(i, j)`, entered in state `s`. -/
def rayDiag [Rounding] (faces : nBy3By3Array) (x y z : List ℚ) (i : ℕ) (s : DiagState) (j : ℕ) :
    DiagState :=
  if isOdd (rayCrossings faces x y z i j).length then
    warnOnce Warning.oddCrossings (getCrossings s (rayFaces faces x y z i j)
      (rayCoords x y z i j) (gridDims x.length y.length z.length).dimOrder).1
  else (getCrossings s (rayFaces faces x y z i j) (rayCoords x y z i j)
      (gridDims x.length y.length z.length).dimOrder).1

/-- Some ray of the call has an odd number of crossings (the condition of line 292). -/
def hasOddRay [Rounding] (faces : nBy3By3Array) (x y z : List ℚ) : Bool :=
  (List.range ((gridDims x.length y.length z.length).dimSize 0)).any (fun i =>
    (List.range ((gridDims x.length y.length z.length).dimSize 1)).any (fun j =>
      isOdd (rayCrossings faces x y z i j).length))

/-- Some 2x2 solve of the call has a denominator of magnitude below `1e-14`
(the condition of line 91). -/
def hasSingularSolve [Rounding] (faces : nBy3By3Array) (x y z : List ℚ) : Bool :=
  (List.range ((gridDims x.length y.length z.length).dimSize 0)).any (fun i =>
    (List.range ((gridDims x.length y.length z.length).dimSize 1)).any (fun j =>
      (rayFaces faces x y z i j).any
        (nearSingular (gridDims x.length y.length z.length).dimOrder)))

/-- The effect of a piece of code on the diagnostic state, when `sing` tells
whether it met a near-singular solve and `odd` whether it met an odd ray: each
latch is or-ed with its condition, and the warnings appended are one singular
warning if its latch was clear and the condition arose, and likewise one
odd-crossings warning. -/
def Emits (s s' : DiagState) (sing odd : Bool) : Prop :=
  s'.hasAlreadyWarned = (s.hasAlreadyWarned || sing) ∧
  s'.hasWarned = (s.hasWarned || odd) ∧
  ∃ new : List Warning, s'.emitted = s.emitted ++ new ∧
    new.count Warning.singular = (if (!s.hasAlreadyWarned && sing) = true then 1 else 0) ∧
    new.count Warning.oddCrossings = (if (!s.hasWarned && odd) = true then 1 else 0)

/-! ## Concrete meshes -/

/-- The unit cube with vertices `{0,1}^3` as 12 triangles, each square side
split along a diagonal (bottom, top, front, back, left, right). -/
def unitCube : nBy3By3Array :=
  [ ![![0, 0, 0], ![1, 0, 0], ![1, 1, 0]], ![![0, 0, 0], ![1, 1, 0], ![0, 1, 0]],
    ![![0, 0, 1], ![1, 0, 1], ![1, 1, 1]], ![![0, 0, 1], ![1, 1, 1], ![0, 1, 1]],
    ![![0, 0, 0], ![1, 0, 0], ![1, 0, 1]], ![![0, 0, 0], ![1, 0, 1], ![0, 0, 1]],
    ![![0, 1, 0], ![1, 1, 0], ![1, 1, 1]], ![![0, 1, 0], ![1, 1, 1], ![0, 1, 1]],
    ![![0, 0, 0], ![0, 1, 0], ![0, 1, 1]], ![![0, 0, 0], ![0, 1, 1], ![0, 0, 1]],
    ![![1, 0, 0], ![1, 1, 0], ![1, 1, 1]], ![![1, 0, 0], ![1, 1, 1], ![1, 0, 1]] ]

/-- A single triangle in the plane `y = 0`, crossed by rays along the y axis. -/
def triangleAcrossY : nBy3By3Array := [ ![![-1, 0, -1], ![3, 0, -1], ![-1, 0, 3]] ]

/-- A single triangle in the plane `x = 0`, crossed by rays along the x axis. -/
def triangleAcrossX : nBy3By3Array := [ ![![0, -1, -1], ![0, 3, -1], ![0, -1, 3]] ]

/-- A single triangle in the plane `z = 0`, crossed by rays along the z axis. -/
def triangleAcrossZ : nBy3By3Array := [ ![![-1, -1, 0], ![3, -1, 0], ![-1, 3, 0]] ]

/-- An open mesh: a triangle in the plane `z = 0` and a triangle whose plane
contains the z direction (its projection on the x-y plane is a segment). -/
def openMesh : nBy3By3Array :=
  [ ![![-1, -1, 0], ![3, -1, 0], ![-1, 3, 0]], ![![0, 0, 0], ![1, 1, 0], ![1, 1, 1]] ]

/-- A tetrahedron with a corner at the origin and its three other corners at
distance 4 on the axes; the fourth face lies in the plane `x + y + z = 4`. -/
def tetrahedron : nBy3By3Array :=
  [ ![![4, 0, 0], ![0, 4, 0], ![0, 0, 4]], ![![0, 0, 0], ![4, 0, 0], ![0, 4, 0]],
    ![![0, 0, 0], ![4, 0, 0], ![0, 0, 4]], ![![0, 0, 0], ![0, 4, 0], ![0, 0, 4]] ]

/-- A single triangle in the plane `z = 0` whose first edge runs along the
diagonal `x = y`, so that the two rows of its projected system start with
entries of equal magnitude. -/
def diagonalTriangle : nBy3By3Array := [ ![![0, 0, 0], ![1, 1, 0], ![0, 1, 0]] ]

/-- A single triangle that rises along x from height `0.1` to height `0.5`,
the heights being the binary64 numbers nearest to one tenth and to one half. -/
def slopedTriangle : nBy3By3Array :=
  [ ![![0, 0, 3602879701896397 / 36028797018963968], ![1, 0, 1 / 2],
      ![0, 1, 3602879701896397 / 36028797018963968]] ]

/-- A triangle whose vertices are corners of the unit cube: coordinate `k` of
vertex `v` is `1` if `c v k` holds and `0` otherwise. -/
def cornerFace (c : Fin 3 → Fin 3 → Bool) : Face := fun v k => if c v k then 1 else 0

/-- The test of line 49 read on a face: its bounding interval on axis `dim`
strictly straddles `value`. -/
def faceStraddles (value : ℚ) (dim : Fin 3) (f : Face) : Bool :=
  decide (faceMin f dim < value ∧ faceMax f dim > value)

/-- No candidate face of the ray through `(cx, cy)` along z has first-column
entries of equal magnitude in its projected system: the pivot choice of
`solve2by2` (line 103) is then the same row whichever of x and y comes first. -/
def pivotTieFree [Rounding] (faces : nBy3By3Array) (cx cy : ℚ) : Prop :=
  ∀ f ∈ faces, faceStraddles cx 0 f = true → faceStraddles cy 1 f = true →
    |fsub (f 1 0) (f 0 0)| ≠ |fsub (f 1 1) (f 0 1)|

/-- The determinant of a 2x2 matrix. -/
def det2 (A : Fin 2 → Fin 2 → ℚ) : ℚ := A 0 0 * A 1 1 - A 0 1 * A 1 0

/-- The face `f` with its three vertices listed in the order `σ 0, σ 1, σ 2`. -/
def permuteVertices (σ : Equiv.Perm (Fin 3)) (f : Face) : Face := fun v => f (σ v)

/-- The weights of the three vertices in the affine combination that
`getCrossings` solves for: `1 - b0 - b1` for `P0`, `b0` for `P1`, `b1` for `P2`. -/
def vertexWeight [Rounding] (f : Face) (coords : Fin 2 → ℚ) (dimOrder : Fin 3 → Fin 3) : Fin 3 → ℚ :=
  ![1 - solveParams f coords dimOrder 0 - solveParams f coords dimOrder 1,
    solveParams f coords dimOrder 0, solveParams f coords dimOrder 1]

/-- Cramer's numerators of the three vertex weights. -/
def weightNum [Rounding] (f : Face) (coords : Fin 2 → ℚ) (dimOrder : Fin 3 → Fin 3) : Fin 3 → ℚ :=
  ![det2 (crossingMatrix f dimOrder) -
      (crossingRhs f coords dimOrder 0 * crossingMatrix f dimOrder 1 1 -
        crossingMatrix f dimOrder 0 1 * crossingRhs f coords dimOrder 1) -
      (crossingMatrix f dimOrder 0 0 * crossingRhs f coords dimOrder 1 -
        crossingMatrix f dimOrder 1 0 * crossingRhs f coords dimOrder 0),
    crossingRhs f coords dimOrder 0 * crossingMatrix f dimOrder 1 1 -
      crossingMatrix f dimOrder 0 1 * crossingRhs f coords dimOrder 1,
    crossingMatrix f dimOrder 0 0 * crossingRhs f coords dimOrder 1 -
      crossingMatrix f dimOrder 1 0 * crossingRhs f coords dimOrder 0]

/-- The mesh in which every face `p.1` is replaced by its vertices in the order
given by the permutation `p.2`; the original mesh is `ps.map Prod.fst`. -/
def reorient (ps : List (Face × Equiv.Perm (Fin 3))) : nBy3By3Array :=
  ps.map (fun p => permuteVertices p.2 p.1)

/-- The unit cube with the first two vertices of every triangle exchanged (all
windings reversed), paired with the original faces. -/
def unitCubeReversed : List (Face × Equiv.Perm (Fin 3)) :=
  unitCube.map (fun f => (f, Equiv.swap 0 1))

/-! ## Exact arithmetic -/

/-- Exact arithmetic: every result is stored as it is.  It is the arithmetic of
every statement below that is not stated for an arbitrary `Rounding`. -/
instance exactArithmetic : Rounding := ⟨fun q => q⟩

theorem rnd_exact (q : ℚ) : Rounding.rnd q = q := rfl

theorem fadd_exact (a b : ℚ) : fadd a b = a + b := rfl

theorem fsub_exact (a b : ℚ) : fsub a b = a - b := rfl

theorem fmul_exact (a b : ℚ) : fmul a b = a * b := rfl

theorem fdiv_exact (a b : ℚ) : fdiv a b = a / b := rfl

/-! ## Binary64 arithmetic -/

/-- Values of the binary64 rounding: representable numbers are kept, one tenth
becomes `0x1.999999999999ap-4`, the sum of the binary64 numbers nearest to `0.1`
and `0.2` becomes `0.30000000000000004`, a tie goes to the even significand, and
below `2^-1022` the spacing is `2^-1074`. -/
theorem binary64_examples :
    binary64.rnd 0 = 0 ∧ binary64.rnd 1 = 1 ∧ binary64.rnd (-3 / 4) = -3 / 4 ∧
    binary64.rnd (1 / 10) = 3602879701896397 / 2 ^ 55 ∧
    binary64.rnd (3602879701896397 / 2 ^ 55 + 3602879701896397 / 2 ^ 54) =
      5404319552844596 / 2 ^ 54 ∧
    binary64.rnd (1 + 1 / 2 ^ 53) = 1 ∧
    binary64.rnd (1 + 3 / 2 ^ 53) = 1 + 1 / 2 ^ 51 ∧
    binary64.rnd (2 ^ 53 + 1) = 2 ^ 53 ∧
    binary64.rnd (1 / 2 ^ 70 - 1 / 2) = -1 / 2 ∧
    binary64.rnd (3 / 2 ^ 1075) = 1 / 2 ^ 1073 ∧
    binary64.rnd (1 / 2 ^ 1075) = 0 := by
  decide!

theorem roundHalfEven_near (q : ℚ) : |(roundHalfEven q : ℚ) - q| ≤ 1 / 2 := by
  have h0 := Int.floor_le q
  have h1 := Int.lt_floor_add_one q
  unfold roundHalfEven
  rw [abs_le]
  split_ifs <;> push_cast <;> constructor <;> linarith

theorem pow2_eq_zpow (e : ℤ) : pow2 e = (2 : ℚ) ^ e := by
  unfold pow2
  split_ifs with h
  · conv_rhs => rw [← Int.toNat_of_nonneg h]
    rw [zpow_natCast]
  · have h' : 0 ≤ -e := by omega
    have he : e = -((-e).toNat : ℤ) := by rw [Int.toNat_of_nonneg h']; ring
    conv_rhs => rw [he]
    rw [zpow_neg, zpow_natCast, one_div]

theorem pow2_pos (e : ℤ) : 0 < pow2 e := by
  rw [pow2_eq_zpow]
  positivity

theorem log2Floor_spec (fuel n : ℕ) (h1 : 1 ≤ n) (hf : n ≤ fuel) :
    2 ^ log2Floor fuel n ≤ n ∧ n < 2 ^ (log2Floor fuel n + 1) := by
  induction fuel generalizing n with
  | zero => omega
  | succ fuel ih =>
    unfold log2Floor
    split_ifs with h2
    · obtain ⟨a, b⟩ := ih (n / 2) (by omega) (by omega)
      constructor
      · rw [pow_succ]
        omega
      · rw [pow_succ]
        omega
    · have : n = 1 := by omega
      subst this
      simp

/-- The exponent found by `binade` brackets the magnitude of `q`. -/
theorem binade_spec (q : ℚ) (hq : q ≠ 0) :
    pow2 (binade q) ≤ |q| ∧ |q| < pow2 (binade q + 1) := by
  unfold binade
  have hn : 1 ≤ q.num.natAbs := by
    have : q.num ≠ 0 := Rat.num_ne_zero.mpr hq
    omega
  have hd : 1 ≤ q.den := q.den_pos
  obtain ⟨a1, a2⟩ := log2Floor_spec q.num.natAbs q.num.natAbs hn (le_refl _)
  obtain ⟨b1, b2⟩ := log2Floor_spec q.den q.den hd (le_refl _)
  have habs : |q| = (q.num.natAbs : ℚ) / (q.den : ℚ) := by
    rw [Nat.cast_natAbs, Int.cast_abs]
    conv_lhs => rw [← Rat.num_div_den q]
    rw [abs_div, Nat.abs_cast]
  have hdq : (0 : ℚ) < q.den := by exact_mod_cast q.den_pos
  have a1' : (2 : ℚ) ^ log2Floor q.num.natAbs q.num.natAbs ≤ q.num.natAbs := by exact_mod_cast a1
  have a2' : (q.num.natAbs : ℚ) < 2 ^ (log2Floor q.num.natAbs q.num.natAbs + 1) := by
    exact_mod_cast a2
  have b1' : (2 : ℚ) ^ log2Floor q.den q.den ≤ q.den := by exact_mod_cast b1
  have b2' : (q.den : ℚ) < 2 ^ (log2Floor q.den q.den + 1) := by exact_mod_cast b2
  generalize log2Floor q.num.natAbs q.num.natAbs = a at *
  generalize log2Floor q.den q.den = b at *
  have two : (2 : ℚ) ≠ 0 := by norm_num
  have hA : (2 : ℚ) ^ ((a : ℤ) - (b : ℤ)) = 2 ^ a / 2 ^ b := by
    rw [zpow_sub₀ two, zpow_natCast, zpow_natCast]
  have hpa : (0 : ℚ) < 2 ^ a := by positivity
  have hpb : (0 : ℚ) < 2 ^ b := by positivity
  split_ifs with h
  · refine ⟨h, ?_⟩
    rw [pow2_eq_zpow, habs, zpow_add_one₀ two, hA, div_mul_eq_mul_div,
      div_lt_div_iff₀ hdq hpb]
    rw [pow_succ] at a2'
    have hN : (0 : ℚ) ≤ q.num.natAbs := Nat.cast_nonneg _
    nlinarith [mul_le_mul_of_nonneg_left b1' hN, mul_lt_mul_of_pos_right a2' hdq]
  · constructor
    · rw [pow2_eq_zpow, habs, zpow_sub_one₀ two, hA, ← div_eq_mul_inv, div_div,
        div_le_div_iff₀ (by positivity) hdq]
      rw [pow_succ] at b2'
      nlinarith [mul_le_mul_of_nonneg_right a1' hdq.le, mul_lt_mul_of_pos_left b2' hpa]
    · rw [sub_add_cancel]
      exact not_le.mp h

theorem ulp64_pos (q : ℚ) : 0 < ulp64 q := pow2_pos _

/-- The binary64 rounding of `q` is within half a unit in the last place of `q`. -/
theorem binary64_near (q : ℚ) : |binary64.rnd q - q| ≤ ulp64 q / 2 := by
  have hu := ulp64_pos q
  have h := roundHalfEven_near (q / ulp64 q)
  show |(roundHalfEven (q / ulp64 q) : ℚ) * ulp64 q - q| ≤ ulp64 q / 2
  have e : (roundHalfEven (q / ulp64 q) : ℚ) * ulp64 q - q =
      ((roundHalfEven (q / ulp64 q) : ℚ) - q / ulp64 q) * ulp64 q := by
    field_simp
  rw [e, abs_mul, abs_of_pos hu]
  calc |(roundHalfEven (q / ulp64 q) : ℚ) - q / ulp64 q| * ulp64 q
      ≤ 1 / 2 * ulp64 q := mul_le_mul_of_nonneg_right h hu.le
    _ = ulp64 q / 2 := by ring

/-- The binary64 rounding of `q` is an integer multiple of the unit in the
last place whose magnitude fits 53 bits (or is `2^53`, the first number of the
next binade). -/
theorem binary64_significand (q : ℚ) :
    ∃ m : ℤ, binary64.rnd q = m * ulp64 q ∧ |m| ≤ 2 ^ 53 := by
  refine ⟨roundHalfEven (q / ulp64 q), rfl, ?_⟩
  have hu := ulp64_pos q
  have hnear := roundHalfEven_near (q / ulp64 q)
  have hlt : |q / ulp64 q| < 2 ^ 53 := by
    rw [abs_div, abs_of_pos hu, div_lt_iff₀ hu]
    by_cases hq : q = 0
    · subst hq
      simp only [abs_zero]
      positivity
    · obtain ⟨-, h2⟩ := binade_spec q hq
      refine lt_of_lt_of_le h2 ?_
      unfold ulp64
      rw [pow2_eq_zpow, pow2_eq_zpow]
      have h53 : (2 : ℚ) ^ 53 = (2 : ℚ) ^ (53 : ℤ) := by norm_cast
      rw [h53, ← zpow_add₀ (by norm_num : (2 : ℚ) ≠ 0)]
      apply zpow_le_zpow_right₀ (by norm_num)
      have := le_max_left (binade q) (-1022)
      omega
  have hm : |(roundHalfEven (q / ulp64 q) : ℚ)| < 2 ^ 53 + 1 := by
    have := abs_sub_abs_le_abs_sub (roundHalfEven (q / ulp64 q) : ℚ) (q / ulp64 q)
    linarith
  have hm' : |roundHalfEven (q / ulp64 q)| < 2 ^ 53 + 1 := by
    have h2 : ((|roundHalfEven (q / ulp64 q)| : ℤ) : ℚ) < ((2 ^ 53 + 1 : ℤ) : ℚ) := by
      rw [Int.cast_abs]
      norm_num
      norm_num at hm
      exact hm
    exact Int.cast_lt.mp h2
  omega

theorem roundHalfEven_intCast (n : ℤ) : roundHalfEven (n : ℚ) = n := by
  unfold roundHalfEven
  simp

/-- The binary64 rounding keeps every binary64 number: a significand of at most
53 bits times a power of two not below `2^-1074`. -/
theorem binary64_representable (m e : ℤ) (hm : |m| < 2 ^ 53) (he : -1074 ≤ e) :
    binary64.rnd (m * pow2 e) = m * pow2 e := by
  show (roundHalfEven (m * pow2 e / ulp64 (m * pow2 e)) : ℚ) * ulp64 (m * pow2 e) = m * pow2 e
  by_cases h0 : m = 0
  · subst h0
    simp [roundHalfEven]
  have two : (2 : ℚ) ≠ 0 := by norm_num
  have hq : (m : ℚ) * pow2 e ≠ 0 :=
    mul_ne_zero (by exact_mod_cast h0) (ne_of_gt (pow2_pos e))
  obtain ⟨hb, -⟩ := binade_spec _ hq
  have hlt : |(m : ℚ) * pow2 e| < pow2 (e + 53) := by
    rw [abs_mul, abs_of_pos (pow2_pos e), pow2_eq_zpow, pow2_eq_zpow, zpow_add₀ two, mul_comm]
    have hm' : |(m : ℚ)| < 2 ^ 53 := by
      have : ((|m| : ℤ) : ℚ) < ((2 ^ 53 : ℤ) : ℚ) := Int.cast_lt.mpr hm
      rw [Int.cast_abs] at this
      norm_num at this ⊢
      exact this
    have h53 : (2 : ℚ) ^ (53 : ℤ) = 2 ^ 53 := by norm_cast
    rw [h53]
    exact mul_lt_mul_of_pos_left hm' (by positivity)
  have hbin : binade ((m : ℚ) * pow2 e) < e + 53 := by
    have := lt_of_le_of_lt hb hlt
    rw [pow2_eq_zpow (binade _), pow2_eq_zpow (e + 53)] at this
    exact (zpow_lt_zpow_iff_right₀ (by norm_num : (1 : ℚ) < 2)).mp this
  have hu : max (binade ((m : ℚ) * pow2 e)) (-1022) - 52 ≤ e := by
    rcases max_cases (binade ((m : ℚ) * pow2 e)) (-1022) with ⟨h, -⟩ | ⟨h, -⟩ <;> omega
  unfold ulp64
  generalize max (binade ((m : ℚ) * pow2 e)) (-1022) - 52 = u at hu
  have hdiv : (m : ℚ) * pow2 e / pow2 u = ((m * 2 ^ (e - u).toNat : ℤ) : ℚ) := by
    rw [pow2_eq_zpow, pow2_eq_zpow, mul_div_assoc, ← zpow_sub₀ two]
    have : e - u = ((e - u).toNat : ℤ) := (Int.toNat_of_nonneg (by omega)).symm
    conv_lhs => rw [this]
    rw [zpow_natCast]
    push_cast
    ring
  rw [hdiv, roundHalfEven_intCast, ← hdiv]
  exact div_mul_cancel₀ _ (ne_of_gt (pow2_pos u))

/-! ## Properties of the axis scheduler -/

theorem fin3_funext {α : Type} (f g : Fin 3 → α) (h0 : f 0 = g 0) (h1 : f 1 = g 1)
    (h2 : f 2 = g 2) : f = g := by
  funext i
  fin_cases i <;> assumption

/-- The six outcomes of the three compare-and-swap steps on `[nx, ny, nz]`. -/
theorem bubble_cases (nx ny nz : ℕ) (st : Fin 3 → ℕ) :
    let d := bubbleStep 0 1 (bubbleStep 1 2 (bubbleStep 0 1 ⟨![0, 1, 2], ![nx, ny, nz], st⟩))
    (nx ≤ ny ∧ ny ≤ nz ∧ d.dimOrder = ![0, 1, 2] ∧ d.dimSize = ![nx, ny, nz]) ∨
    (ny < nx ∧ nx ≤ nz ∧ d.dimOrder = ![1, 0, 2] ∧ d.dimSize = ![ny, nx, nz]) ∨
    (nx ≤ nz ∧ nz < ny ∧ d.dimOrder = ![0, 2, 1] ∧ d.dimSize = ![nx, nz, ny]) ∨
    (nz < ny ∧ ny < nx ∧ d.dimOrder = ![2, 1, 0] ∧ d.dimSize = ![nz, ny, nx]) ∨
    (ny ≤ nz ∧ nz < nx ∧ d.dimOrder = ![1, 2, 0] ∧ d.dimSize = ![ny, nz, nx]) ∨
    (nz < nx ∧ nx ≤ ny ∧ d.dimOrder = ![2, 0, 1] ∧ d.dimSize = ![nz, nx, ny]) := by
  intro d
  by_cases h1 : nx > ny <;> by_cases h2 : nx > nz <;> by_cases h3 : ny > nz <;>
    by_cases h4 : ny > nx
  all_goals first
    | (exfalso; omega)
    | (refine Or.inl ⟨by omega, by omega, ?_, ?_⟩ <;> apply fin3_funext <;>
        simp [d, bubbleStep, h1, h2, h3, h4, Function.update])
    | (refine Or.inr (Or.inl ⟨by omega, by omega, ?_, ?_⟩) <;> apply fin3_funext <;>
        simp [d, bubbleStep, h1, h2, h3, h4, Function.update])
    | (refine Or.inr (Or.inr (Or.inl ⟨by omega, by omega, ?_, ?_⟩)) <;> apply fin3_funext <;>
        simp [d, bubbleStep, h1, h2, h3, h4, Function.update])
    | (refine Or.inr (Or.inr (Or.inr (Or.inl ⟨by omega, by omega, ?_, ?_⟩))) <;>
        apply fin3_funext <;> simp [d, bubbleStep, h1, h2, h3, h4, Function.update])
    | (refine Or.inr (Or.inr (Or.inr (Or.inr (Or.inl ⟨by omega, by omega, ?_, ?_⟩)))) <;>
        apply fin3_funext <;> simp [d, bubbleStep, h1, h2, h3, h4, Function.update])
    | (refine Or.inr (Or.inr (Or.inr (Or.inr (Or.inr ⟨by omega, by omega, ?_, ?_⟩)))) <;>
        apply fin3_funext <;> simp [d, bubbleStep, h1, h2, h3, h4, Function.update])

/-- The scheduler's three output arrays, for each of the six orderings of the lengths. -/
theorem select_cases (nx ny nz : ℕ) (st : Fin 3 → ℕ) :
    let d := selectDimensionsForFastestProcessing ⟨![0, 1, 2], ![nx, ny, nz], st⟩
    (nx ≤ ny ∧ ny ≤ nz ∧ d.dimOrder = ![0, 1, 2] ∧ d.dimSize = ![nx, ny, nz] ∧
      d.dimStep = ![ny, 1, ny * nx]) ∨
    (ny < nx ∧ nx ≤ nz ∧ d.dimOrder = ![1, 0, 2] ∧ d.dimSize = ![ny, nx, nz] ∧
      d.dimStep = ![1, ny, ny * nx]) ∨
    (nx ≤ nz ∧ nz < ny ∧ d.dimOrder = ![0, 2, 1] ∧ d.dimSize = ![nx, nz, ny] ∧
      d.dimStep = ![ny, ny * nx, 1]) ∨
    (nz < ny ∧ ny < nx ∧ d.dimOrder = ![2, 1, 0] ∧ d.dimSize = ![nz, ny, nx] ∧
      d.dimStep = ![ny * nx, 1, ny]) ∨
    (ny ≤ nz ∧ nz < nx ∧ d.dimOrder = ![1, 2, 0] ∧ d.dimSize = ![ny, nz, nx] ∧
      d.dimStep = ![ny * nx, ny, 1]) ∨
    (nz < nx ∧ nx ≤ ny ∧ d.dimOrder = ![2, 0, 1] ∧ d.dimSize = ![nz, nx, ny] ∧
      d.dimStep = ![1, ny * nx, ny]) := by
  intro d
  have hO : d.dimOrder = (bubbleStep 0 1 (bubbleStep 1 2 (bubbleStep 0 1
      ⟨![0, 1, 2], ![nx, ny, nz], st⟩))).dimOrder := rfl
  have hS : d.dimSize = (bubbleStep 0 1 (bubbleStep 1 2 (bubbleStep 0 1
      ⟨![0, 1, 2], ![nx, ny, nz], st⟩))).dimSize := rfl
  have hT : d.dimStep = Function.update (Function.update (Function.update
      (bubbleStep 0 1 (bubbleStep 1 2 (bubbleStep 0 1 ⟨![0, 1, 2], ![nx, ny, nz], st⟩))).dimStep
      (d.dimOrder 0) ny) (d.dimOrder 1) 1) (d.dimOrder 2) (ny * nx) := rfl
  rcases bubble_cases nx ny nz st with ⟨a, b, c, e⟩ | ⟨a, b, c, e⟩ | ⟨a, b, c, e⟩ |
    ⟨a, b, c, e⟩ | ⟨a, b, c, e⟩ | ⟨a, b, c, e⟩
  · refine Or.inl ⟨a, b, hO.trans c, hS.trans e, ?_⟩
    rw [hT, hO, c]; apply fin3_funext <;> simp [Function.update]
  · refine Or.inr (Or.inl ⟨a, b, hO.trans c, hS.trans e, ?_⟩)
    rw [hT, hO, c]; apply fin3_funext <;> simp [Function.update]
  · refine Or.inr (Or.inr (Or.inl ⟨a, b, hO.trans c, hS.trans e, ?_⟩))
    rw [hT, hO, c]; apply fin3_funext <;> simp [Function.update]
  · refine Or.inr (Or.inr (Or.inr (Or.inl ⟨a, b, hO.trans c, hS.trans e, ?_⟩)))
    rw [hT, hO, c]; apply fin3_funext <;> simp [Function.update]
  · refine Or.inr (Or.inr (Or.inr (Or.inr (Or.inl ⟨a, b, hO.trans c, hS.trans e, ?_⟩))))
    rw [hT, hO, c]; apply fin3_funext <;> simp [Function.update]
  · refine Or.inr (Or.inr (Or.inr (Or.inr (Or.inr ⟨a, b, hO.trans c, hS.trans e, ?_⟩))))
    rw [hT, hO, c]; apply fin3_funext <;> simp [Function.update]

/-- The scheduler run by `insidePolyhedron`, by cases on the ordering of the lengths. -/
theorem gridDims_cases (nx ny nz : ℕ) :
    (nx ≤ ny ∧ ny ≤ nz ∧ (gridDims nx ny nz).dimOrder = ![0, 1, 2] ∧
      (gridDims nx ny nz).dimSize = ![nx, ny, nz] ∧
      (gridDims nx ny nz).dimStep = ![ny, 1, ny * nx]) ∨
    (ny < nx ∧ nx ≤ nz ∧ (gridDims nx ny nz).dimOrder = ![1, 0, 2] ∧
      (gridDims nx ny nz).dimSize = ![ny, nx, nz] ∧
      (gridDims nx ny nz).dimStep = ![1, ny, ny * nx]) ∨
    (nx ≤ nz ∧ nz < ny ∧ (gridDims nx ny nz).dimOrder = ![0, 2, 1] ∧
      (gridDims nx ny nz).dimSize = ![nx, nz, ny] ∧
      (gridDims nx ny nz).dimStep = ![ny, ny * nx, 1]) ∨
    (nz < ny ∧ ny < nx ∧ (gridDims nx ny nz).dimOrder = ![2, 1, 0] ∧
      (gridDims nx ny nz).dimSize = ![nz, ny, nx] ∧
      (gridDims nx ny nz).dimStep = ![ny * nx, 1, ny]) ∨
    (ny ≤ nz ∧ nz < nx ∧ (gridDims nx ny nz).dimOrder = ![1, 2, 0] ∧
      (gridDims nx ny nz).dimSize = ![ny, nz, nx] ∧
      (gridDims nx ny nz).dimStep = ![ny * nx, ny, 1]) ∨
    (nz < nx ∧ nx ≤ ny ∧ (gridDims nx ny nz).dimOrder = ![2, 0, 1] ∧
      (gridDims nx ny nz).dimSize = ![nz, nx, ny] ∧
      (gridDims nx ny nz).dimStep = ![1, ny * nx, ny]) :=
  select_cases nx ny nz (fun _ => 0)

/-- C7: started with `dimOrder = [0,1,2]` on the lengths `(nx, ny, nz)`,
`selectDimensionsForFastestProcessing` leaves `dimOrder` a permutation of the
three axes and `dimSize` ascending, with `dimSize[p]` the original length of axis
`dimOrder[p]`; hence the ray axis `dimOrder[2]` is a longest axis, and among
positions holding equal lengths the lower-numbered axis comes first (stable
ascending sort). -/
theorem selectDimensions_stable_sort (nx ny nz : ℕ) :
    Function.Bijective (gridDims nx ny nz).dimOrder ∧
    ((gridDims nx ny nz).dimSize 0 ≤ (gridDims nx ny nz).dimSize 1 ∧
      (gridDims nx ny nz).dimSize 1 ≤ (gridDims nx ny nz).dimSize 2) ∧
    (∀ p, (gridDims nx ny nz).dimSize p = ![nx, ny, nz] ((gridDims nx ny nz).dimOrder p)) ∧
    (∀ a, ![nx, ny, nz] a ≤ ![nx, ny, nz] ((gridDims nx ny nz).dimOrder 2)) ∧
    (∀ p q, p < q → (gridDims nx ny nz).dimSize p = (gridDims nx ny nz).dimSize q →
      (gridDims nx ny nz).dimOrder p < (gridDims nx ny nz).dimOrder q) := by
  rcases gridDims_cases nx ny nz with ⟨a, b, c, e, -⟩ | ⟨a, b, c, e, -⟩ | ⟨a, b, c, e, -⟩ |
    ⟨a, b, c, e, -⟩ | ⟨a, b, c, e, -⟩ | ⟨a, b, c, e, -⟩
  all_goals
    rw [c, e]
    refine ⟨by decide, by simp; omega, ?_, ?_, ?_⟩
    · intro p; fin_cases p <;> simp
    · intro p; fin_cases p <;> simp <;> omega
    · intro p q; fin_cases p <;> fin_cases q <;> simp <;> omega

/-! ## Properties of the candidate filter -/

theorem findFacesInDimStep_foldl (minCoords maxCoords : nBy3Array) (value : ℚ) (dim : Fin 3)
    (l : List ℕ) (buf : DynamicArray) :
    (l.foldl (findFacesInDimStep minCoords maxCoords value dim) buf).capacity = buf.capacity ∧
    (l.foldl (findFacesInDimStep minCoords maxCoords value dim) buf).data =
      buf.data ++ l.filter (straddles minCoords maxCoords value dim) := by
  induction l generalizing buf with
  | nil => simp
  | cons a l ih =>
    rw [List.foldl_cons]
    obtain ⟨h1, h2⟩ := ih (findFacesInDimStep minCoords maxCoords value dim buf a)
    rw [h1, h2]
    unfold findFacesInDimStep
    by_cases h : minCoords.getD a 0 dim < value ∧ maxCoords.getD a 0 dim > value
    · have hp : straddles minCoords maxCoords value dim a = true := decide_eq_true h
      rw [if_pos h, List.filter_cons_of_pos hp]
      simp [DynamicArray.insertLast_unsafe]
    · have hp : ¬ straddles minCoords maxCoords value dim a = true := by
        unfold straddles
        rw [decide_eq_true_eq]
        exact h
      rw [if_neg h, List.filter_cons_of_neg hp]
      exact ⟨rfl, rfl⟩

theorem findFacesInDim_data (facesIndex : DynamicArray) (minCoords maxCoords : nBy3Array)
    (value : ℚ) (dim : Fin 3) :
    (findFacesInDim facesIndex minCoords maxCoords value dim).data =
      (List.range minCoords.length).filter (straddles minCoords maxCoords value dim) := by
  unfold findFacesInDim
  rw [(findFacesInDimStep_foldl minCoords maxCoords value dim _ _).2]
  simp [DynamicArray.clear]

theorem findFacesInDim_capacity (facesIndex : DynamicArray) (minCoords maxCoords : nBy3Array)
    (value : ℚ) (dim : Fin 3) :
    (findFacesInDim facesIndex minCoords maxCoords value dim).capacity = facesIndex.capacity := by
  unfold findFacesInDim
  rw [(findFacesInDimStep_foldl minCoords maxCoords value dim _ _).1]
  rfl

/-- The result of `findFacesInDim` depends on the buffer passed in only through
its capacity: the previous content is cleared. -/
theorem findFacesInDim_congr (b1 b2 : DynamicArray) (minCoords maxCoords : nBy3Array)
    (value : ℚ) (dim : Fin 3) (h : b1.capacity = b2.capacity) :
    findFacesInDim b1 minCoords maxCoords value dim =
      findFacesInDim b2 minCoords maxCoords value dim := by
  have hc1 := findFacesInDim_capacity b1 minCoords maxCoords value dim
  have hc2 := findFacesInDim_capacity b2 minCoords maxCoords value dim
  have hd1 := findFacesInDim_data b1 minCoords maxCoords value dim
  have hd2 := findFacesInDim_data b2 minCoords maxCoords value dim
  cases e1 : findFacesInDim b1 minCoords maxCoords value dim
  cases e2 : findFacesInDim b2 minCoords maxCoords value dim
  rw [e1] at hc1 hd1
  rw [e2] at hc2 hd2
  simp only [DynamicArray.mk.injEq]
  exact ⟨by simpa using hc1.trans (h.trans hc2.symm), by simpa using hd1.trans hd2.symm⟩

/-- C8: `findFacesInDim` replaces the buffer content by exactly the face numbers
`i` with `minCoords[i][dim] < value` and `maxCoords[i][dim] > value`, in
strictly ascending order (so without repetition); a face whose minimum or
maximum on that axis equals the value is not a candidate. -/
theorem findFacesInDim_strict_straddle (facesIndex : DynamicArray)
    (minCoords maxCoords : nBy3Array) (value : ℚ) (dim : Fin 3) :
    (findFacesInDim facesIndex minCoords maxCoords value dim).data =
      (List.range minCoords.length).filter (straddles minCoords maxCoords value dim) ∧
    (findFacesInDim facesIndex minCoords maxCoords value dim).data.Sorted (· < ·) ∧
    (∀ i, i ∈ (findFacesInDim facesIndex minCoords maxCoords value dim).data ↔
      i < minCoords.length ∧ minCoords.getD i 0 dim < value ∧ maxCoords.getD i 0 dim > value) ∧
    (∀ i, minCoords.getD i 0 dim = value ∨ maxCoords.getD i 0 dim = value →
      i ∉ (findFacesInDim facesIndex minCoords maxCoords value dim).data) := by
  rw [findFacesInDim_data]
  refine ⟨rfl, (List.sorted_lt_range _).filter _, ?_, ?_⟩
  · intro i
    simp [List.mem_filter, straddles]
  · intro i h hmem
    simp only [List.mem_filter, straddles, decide_eq_true_eq] at hmem
    rcases h with h | h
    · exact absurd h (ne_of_lt hmem.2.1)
    · exact absurd h (ne_of_gt hmem.2.2)

theorem findFacesInDimAfter_size_le (m : ℕ) (facesIndex : DynamicArray)
    (minCoords maxCoords : nBy3Array) (value : ℚ) (dim : Fin 3) :
    (findFacesInDimAfter m facesIndex minCoords maxCoords value dim).size ≤ minCoords.length := by
  unfold findFacesInDimAfter DynamicArray.size
  rw [(findFacesInDimStep_foldl minCoords maxCoords value dim _ _).2]
  simp only [DynamicArray.clear, List.nil_append]
  calc (List.filter (straddles minCoords maxCoords value dim)
          (List.take m (List.range minCoords.length))).length
      ≤ (List.take m (List.range minCoords.length)).length := List.length_filter_le _ _
    _ ≤ (List.range minCoords.length).length := by
        rw [List.length_take]; exact Nat.min_le_right _ _
    _ = minCoords.length := List.length_range _

theorem findFacesInDim_mem_lt (facesIndex : DynamicArray) (minCoords maxCoords : nBy3Array)
    (value : ℚ) (dim : Fin 3) (n : ℕ)
    (h : n ∈ (findFacesInDim facesIndex minCoords maxCoords value dim).data) :
    n < minCoords.length := by
  rw [findFacesInDim_data, List.mem_filter, List.mem_range] at h
  exact h.1

theorem firstFilter_size_le (faces : nBy3By3Array) (c0 : ℚ) (dim0 : Fin 3) :
    (firstFilter faces c0 dim0).data.length ≤ faces.length := by
  unfold firstFilter
  rw [findFacesInDim_data]
  calc _ ≤ (List.range (findExtremeCoords faces).1.length).length := List.length_filter_le _ _
    _ = faces.length := by simp [findExtremeCoords]

/-- C10: with `N` the number of faces, the buffer created with capacity `N`
keeps that capacity, and after any number `m` of loop iterations of either run of
`findFacesInDim` inside `insidePolyhedron` it holds at most `N` indices, so the
unchecked append stays within the capacity; every index stored by the first
filter is a valid row of `faces`, `minCoords` and `maxCoords`, and every index
stored by the second filter is a valid row of the first-level selection that
`selectFaces` reads. -/
theorem candidate_buffer_within_capacity (faces : nBy3By3Array) (c0 c1 : ℚ)
    (dim0 dim1 : Fin 3) (m : ℕ) :
    (firstFilter faces c0 dim0).capacity = faces.length ∧
    (findFacesInDimAfter m (DynamicArray.create faces.length) (findExtremeCoords faces).1
      (findExtremeCoords faces).2 c0 dim0).size ≤ faces.length ∧
    (firstFilter faces c0 dim0).size ≤ (firstFilter faces c0 dim0).capacity ∧
    (∀ n ∈ (firstFilter faces c0 dim0).data, n < faces.length ∧
      n < (findExtremeCoords faces).1.length ∧ n < (findExtremeCoords faces).2.length) ∧
    (secondFilter faces c0 dim0 c1 dim1).capacity = faces.length ∧
    (findFacesInDimAfter m (firstFilter faces c0 dim0)
      (selectCoords (findExtremeCoords faces).1 (findExtremeCoords faces).2
        (firstFilter faces c0 dim0)).1
      (selectCoords (findExtremeCoords faces).1 (findExtremeCoords faces).2
        (firstFilter faces c0 dim0)).2 c1 dim1).size ≤ faces.length ∧
    (secondFilter faces c0 dim0 c1 dim1).size ≤ (secondFilter faces c0 dim0 c1 dim1).capacity ∧
    (∀ n ∈ (secondFilter faces c0 dim0 c1 dim1).data,
      n < (selectFaces faces (firstFilter faces c0 dim0)).length ∧
      n < (selectCoords (findExtremeCoords faces).1 (findExtremeCoords faces).2
        (firstFilter faces c0 dim0)).1.length) := by
  have hext : (findExtremeCoords faces).1.length = faces.length := by simp [findExtremeCoords]
  have hext2 : (findExtremeCoords faces).2.length = faces.length := by simp [findExtremeCoords]
  have hcap1 : (firstFilter faces c0 dim0).capacity = faces.length := by
    unfold firstFilter
    rw [findFacesInDim_capacity]
    rfl
  have hcap2 : (secondFilter faces c0 dim0 c1 dim1).capacity = faces.length := by
    unfold secondFilter
    rw [findFacesInDim_capacity, hcap1]
  have hsel : (selectCoords (findExtremeCoords faces).1 (findExtremeCoords faces).2
      (firstFilter faces c0 dim0)).1.length = (firstFilter faces c0 dim0).data.length := by
    simp [selectCoords]
  have hsz1 := firstFilter_size_le faces c0 dim0
  refine ⟨hcap1, ?_, ?_, ?_, hcap2, ?_, ?_, ?_⟩
  · exact (findFacesInDimAfter_size_le m _ _ _ c0 dim0).trans (le_of_eq hext)
  · rw [hcap1]; exact hsz1
  · intro n hn
    have := findFacesInDim_mem_lt _ _ _ _ _ n hn
    rw [hext] at this
    exact ⟨this, by rw [hext]; exact this, by rw [hext2]; exact this⟩
  · refine (findFacesInDimAfter_size_le m _ _ _ c1 dim1).trans ?_
    rw [hsel]; exact hsz1
  · rw [hcap2]
    unfold secondFilter DynamicArray.size
    rw [findFacesInDim_data]
    refine (List.length_filter_le _ _).trans ?_
    rw [List.length_range, hsel]; exact hsz1
  · intro n hn
    have := findFacesInDim_mem_lt _ _ _ _ _ n hn
    rw [hsel] at this
    exact ⟨by simpa [selectFaces] using this, by rw [hsel]; exact this⟩

/-! ## The output layout -/

/-- C1 (as stated) fails: on the unit cube with `x = [1/3, 2]`, `y = [1/2, 2]`,
`z = [-1, 1/2]` the only stores are `inside[0] = false` and `inside[4] = true`;
the result of grid point `(x[0], y[0], z[1])` is addressed at index `4`, not at
the documented `j*nx*ny + i*ny + k = 1`, which is never stored to. -/
theorem documented_layout_counterexample :
    (insidePolyhedronRun DiagState.initial unitCube [1/3, 2] [1/2, 2] [-1, 1/2]).writes
      = [(0, false), (4, true)] ∧
    pointIndex 2 2 2 0 0 1 = 4 ∧
    pointIndex 2 2 2 0 0 1 ≠ 0 * 2 * 2 + 0 * 2 + 1 ∧
    (insidePolyhedron DiagState.initial (fun _ => false) unitCube
      [1/3, 2] [1/2, 2] [-1, 1/2]).2 (0 * 2 * 2 + 0 * 2 + 1) = false := by
  decide!

/-- C1 (amended): whenever the axis order chosen by the scheduler is its own
inverse (the identity or a swap of two axes), the result for grid point
`(x[i], y[j], z[k])` is addressed at flat index `i*ny + j + k*nx*ny`. -/
theorem pointIndex_of_selfInverse (nx ny nz i j k : ℕ) (h : SelfInverseOrder nx ny nz) :
    pointIndex nx ny nz i j k = i * ny + j + k * nx * ny := by
  unfold pointIndex writeIndex
  unfold SelfInverseOrder at h
  rcases gridDims_cases nx ny nz with ⟨-, -, c, -, e⟩ | ⟨-, -, c, -, e⟩ | ⟨-, -, c, -, e⟩ |
    ⟨-, -, c, -, e⟩ | ⟨-, -, c, -, e⟩ | ⟨-, -, c, -, e⟩
  · rw [c, e]; simp; ring
  · rw [c, e]; simp; ring
  · rw [c, e]; simp; ring
  · rw [c, e]; simp; ring
  · have := h 0
    rw [c] at this
    simp at this
  · have := h 0
    rw [c] at this
    simp at this

/-- Instance of `pointIndex_of_selfInverse` on the shape `(3, 2, 4)`, whose order
swaps the x and y axes. -/
theorem pointIndex_of_selfInverse_witness :
    SelfInverseOrder 3 2 4 ∧ pointIndex 3 2 4 2 1 3 = 2 * 2 + 1 + 3 * 3 * 2 :=
  ⟨by decide, pointIndex_of_selfInverse 3 2 4 2 1 3 (by decide)⟩

/-- C2 fails on the code: for the grid `x = [0, 1]`, `y = [-1, 1]`, `z = [0]`
(`nx*ny*nz = 4`) and one triangle in the plane `y = 0`, the call stores to
indices `4` and `6`, beyond the last element of the output array. -/
theorem store_beyond_output_array :
    (insidePolyhedronRun DiagState.initial triangleAcrossY [0, 1] [-1, 1] [0]).writes =
      [(0, false), (2, true), (4, false), (6, true)] ∧
    ¬ 6 < [(0 : ℚ), 1].length * [(-1 : ℚ), 1].length * [(0 : ℚ)].length ∧
    (insidePolyhedron DiagState.initial (fun _ => false) triangleAcrossY
      [0, 1] [-1, 1] [0]).2 6 = true ∧
    (gridDims 2 2 1).dimOrder = ![2, 0, 1] ∧ (gridDims 2 2 1).dimSize = ![1, 2, 2] ∧
    (gridDims 2 2 1).dimStep = ![1, 4, 2] ∧
    writeIndex (gridDims 2 2 1).dimStep 0 1 1 = 6 := by
  decide!

/-- C5 fails on the code: for the grid shape `(3, 1, 2)` the loop positions
`(0, 0, 1)` and `(0, 1, 0)` are written to the same index, and with one triangle
in the plane `x = 0` the call stores to index `1` twice (first `true`, then
`false`) and to index `2` twice, while indices `4` and `5` are never written. -/
theorem store_index_collision :
    (gridDims 3 1 2).dimOrder = ![1, 2, 0] ∧ (gridDims 3 1 2).dimSize = ![1, 2, 3] ∧
    (gridDims 3 1 2).dimStep = ![3, 1, 1] ∧
    writeIndex (gridDims 3 1 2).dimStep 0 0 1 = writeIndex (gridDims 3 1 2).dimStep 0 1 0 ∧
    (insidePolyhedronRun DiagState.initial triangleAcrossX [-1, 1, 2] [0] [0, 1]).writes =
      [(0, false), (1, true), (2, true), (1, false), (2, true), (3, true)] := by
  decide!

/-! ## The cube test -/

/-- C6 fails on the code: for the unit cube the ray through `(1/2, 1/2)` along z
meets the top and bottom sides on the diagonal shared by their two triangles,
which both reject it, so the call on the single point `(1/2, 1/2, 1/2)` makes no
store and the centre of the cube is left `false` (outside); `(2, 2, 2)` is
`false` as the claim says, and in the grid `[0, 1/2, 1, 2]^3` the centre is
`false` as well. -/
theorem cube_centre_reported_outside :
    (insidePolyhedronRun DiagState.initial unitCube [1/2] [1/2] [1/2]).writes = [] ∧
    (insidePolyhedron DiagState.initial (fun _ => false) unitCube [1/2] [1/2] [1/2]).2 0
      = false ∧
    (insidePolyhedron DiagState.initial (fun _ => false) unitCube [2] [2] [2]).2 0 = false ∧
    (insidePolyhedronRun DiagState.initial unitCube
      [0, 1/2, 1, 2] [0, 1/2, 1, 2] [0, 1/2, 1, 2]).writes = [] ∧
    (insidePolyhedron DiagState.initial (fun _ => false) unitCube
      [0, 1/2, 1, 2] [0, 1/2, 1, 2] [0, 1/2, 1, 2]).2 (pointIndex 4 4 4 1 1 1) = false := by
  decide!

/-! ## The parity scan -/

theorem isOdd_succ (n : ℕ) : isOdd (n + 1) = !isOdd n := by
  unfold isOdd
  rcases Nat.mod_two_eq_zero_or_one n with h | h <;> simp [Nat.add_mod, h]

theorem passedCount_le_length (v : ℚ) (C : List ℚ) : passedCount v C ≤ C.length := by
  induction C with
  | nil => simp [passedCount]
  | cons c cs ih =>
    unfold passedCount
    split_ifs
    · simp; omega
    · simp

theorem passedCount_getD_lt (v : ℚ) (C : List ℚ) (idx : ℕ) (h : idx < passedCount v C) :
    C.getD idx 0 < v := by
  induction C generalizing idx with
  | nil => simp [passedCount] at h
  | cons c cs ih =>
    unfold passedCount at h
    split_ifs at h with hc
    · cases idx with
      | zero => simpa using hc
      | succ n =>
        have := ih n (by omega)
        simpa using this
    · omega

theorem passedCount_stop (v : ℚ) (C : List ℚ) (h : passedCount v C < C.length) :
    ¬ C.getD (passedCount v C) 0 < v := by
  induction C with
  | nil => simp at h
  | cons c cs ih =>
    unfold passedCount at h ⊢
    split_ifs at h ⊢ with hc
    · have := ih (by simpa using h)
      simpa using this
    · simpa using hc

theorem passedCount_mono (C : List ℚ) {v w : ℚ} (h : v ≤ w) :
    passedCount v C ≤ passedCount w C := by
  induction C with
  | nil => simp [passedCount]
  | cons c cs ih =>
    unfold passedCount
    by_cases hc : c < v
    · have hw : c < w := lt_of_lt_of_le hc h
      simp [hc, hw, ih]
    · simp [hc]

theorem passCrossings_eq (C : List ℚ) (v : ℚ) (fuel cp : ℕ) (h1 : cp ≤ passedCount v C)
    (h2 : passedCount v C - cp ≤ fuel) :
    passCrossings C v fuel cp (isOdd cp) = (passedCount v C, isOdd (passedCount v C)) := by
  induction fuel generalizing cp with
  | zero =>
    have : cp = passedCount v C := by omega
    simp [passCrossings, this]
  | succ n ih =>
    unfold passCrossings
    by_cases hlt : cp < passedCount v C
    · have hlen := passedCount_le_length v C
      have hc := passedCount_getD_lt v C cp hlt
      rw [if_pos ⟨by omega, hc⟩, ← isOdd_succ]
      exact ih (cp + 1) (by omega) (by omega)
    · have he : cp = passedCount v C := by omega
      have : ¬ (cp < C.length ∧ C.getD cp 0 < v) := by
        rintro ⟨a, b⟩
        rw [he] at a b
        exact passedCount_stop v C a b
      rw [if_neg this, he]

theorem sorted_getD_le (ray : List ℚ) (hs : ray.Sorted (· ≤ ·)) (n m : ℕ) (hnm : n ≤ m)
    (hm : m < ray.length) : ray.getD n 0 ≤ ray.getD m 0 := by
  rw [List.getD_eq_getElem ray 0 hm, List.getD_eq_getElem ray 0 (lt_of_le_of_lt hnm hm)]
  rcases Nat.eq_or_lt_of_le hnm with h | h
  · subst h; exact le_refl _
  · exact (List.pairwise_iff_getElem.mp hs) n m _ hm h

theorem scanRay_fold (C ray : List ℚ) (steps : Fin 3 → ℕ) (i j : ℕ)
    (hs : ray.Sorted (· ≤ ·)) (n : ℕ) (hn : n ≤ ray.length) :
    ((List.range n).foldl (scanStep C ray steps i j) ⟨false, 0, []⟩).isInside =
      isOdd ((List.range n).foldl (scanStep C ray steps i j) ⟨false, 0, []⟩).crossingsPassed ∧
    (∀ m, n ≤ m → m < ray.length →
      ((List.range n).foldl (scanStep C ray steps i j) ⟨false, 0, []⟩).crossingsPassed ≤
        passedCount (ray.getD m 0) C) ∧
    ((List.range n).foldl (scanStep C ray steps i j) ⟨false, 0, []⟩).writes =
      (List.range n).map (fun k =>
        (writeIndex steps i j k, isOdd (passedCount (ray.getD k 0) C))) := by
  induction n with
  | zero => exact ⟨rfl, fun m _ _ => Nat.zero_le _, rfl⟩
  | succ n ih =>
    obtain ⟨h1, h2, h3⟩ := ih (by omega)
    rw [List.range_succ, List.foldl_append, List.foldl_cons, List.foldl_nil]
    generalize List.foldl (scanStep C ray steps i j) ⟨false, 0, []⟩ (List.range n) = st
      at h1 h2 h3 ⊢
    have hp := passCrossings_eq C (ray.getD n 0) C.length _ (h2 n (le_refl _) (by omega))
      ((Nat.sub_le _ _).trans (passedCount_le_length _ _))
    simp only [scanStep]
    rw [h1, hp, h3]
    refine ⟨rfl, ?_, ?_⟩
    · intro m hnm hm
      exact passedCount_mono C (sorted_getD_le ray hs n m (by omega) hm)
    · simp [List.map_append]

theorem scanRay_eq (C ray : List ℚ) (steps : Fin 3 → ℕ) (i j : ℕ)
    (hs : ray.Sorted (· ≤ ·)) (n : ℕ) (hn : n ≤ ray.length) :
    scanRay C ray n steps i j = (List.range n).map (fun k =>
        (writeIndex steps i j k, isOdd (passedCount (ray.getD k 0) C))) :=
  (scanRay_fold C ray steps i j hs n hn).2.2

/-! ## The crossing computation without the diagnostics -/

theorem solve2by2_snd [Rounding] (s : DiagState) (A : Fin 2 → Fin 2 → ℚ) (b : Fin 2 → ℚ) :
    (solve2by2 s A b).2 = (solve2by2 DiagState.initial A b).2 := by
  unfold solve2by2
  split_ifs <;> rfl

theorem solve2by2_fst [Rounding] (s : DiagState) (A : Fin 2 → Fin 2 → ℚ) (b : Fin 2 → ℚ) :
    (solve2by2 s A b).1 = checkSingular s (solveDenominators A).1 (solveDenominators A).2 := by
  unfold solve2by2 solveDenominators
  split_ifs <;> rfl

theorem getCrossingsStep_eq [Rounding] (coords : Fin 2 → ℚ) (dimOrder : Fin 3 → Fin 3)
    (acc : DiagState × List ℚ) (f : Face) :
    getCrossingsStep coords dimOrder acc f =
      (checkSingular acc.1 (solveDenominators (crossingMatrix f dimOrder)).1
        (solveDenominators (crossingMatrix f dimOrder)).2,
       acc.2 ++ (acceptedCrossing coords dimOrder f).toList) := by
  unfold getCrossingsStep acceptedCrossing accepts solveParams
  simp only [solve2by2_fst]
  rw [solve2by2_snd]
  by_cases h : (solve2by2 DiagState.initial (crossingMatrix f dimOrder)
      (crossingRhs f coords dimOrder)).2 0 > 0 ∧
    (solve2by2 DiagState.initial (crossingMatrix f dimOrder)
      (crossingRhs f coords dimOrder)).2 1 > 0 ∧
    fadd ((solve2by2 DiagState.initial (crossingMatrix f dimOrder)
      (crossingRhs f coords dimOrder)).2 0)
    ((solve2by2 DiagState.initial (crossingMatrix f dimOrder)
      (crossingRhs f coords dimOrder)).2 1) < 1
  · rw [if_pos h, if_pos (decide_eq_true h)]
    rfl
  · rw [if_neg h, if_neg (by rw [decide_eq_true_eq]; exact h)]
    simp

theorem getCrossings_foldl [Rounding] (coords : Fin 2 → ℚ) (dimOrder : Fin 3 → Fin 3)
    (faces : nBy3By3Array) (acc : DiagState × List ℚ) :
    faces.foldl (getCrossingsStep coords dimOrder) acc =
      (faces.foldl (fun s f => checkSingular s (solveDenominators (crossingMatrix f dimOrder)).1
        (solveDenominators (crossingMatrix f dimOrder)).2) acc.1,
       acc.2 ++ faces.filterMap (acceptedCrossing coords dimOrder)) := by
  induction faces generalizing acc with
  | nil => simp
  | cons f fs ih =>
    rw [List.foldl_cons, ih, getCrossingsStep_eq, List.foldl_cons]
    cases h : acceptedCrossing coords dimOrder f <;> simp [List.filterMap_cons, h]

theorem getCrossings_snd [Rounding] (s : DiagState) (faces : nBy3By3Array) (coords : Fin 2 → ℚ)
    (dimOrder : Fin 3 → Fin 3) :
    (getCrossings s faces coords dimOrder).2 =
      (faces.filterMap (acceptedCrossing coords dimOrder)).insertionSort (· ≤ ·) := by
  unfold getCrossings
  simp only [getCrossings_foldl, List.nil_append]

theorem getCrossings_fst [Rounding] (s : DiagState) (faces : nBy3By3Array) (coords : Fin 2 → ℚ)
    (dimOrder : Fin 3 → Fin 3) :
    (getCrossings s faces coords dimOrder).1 =
      faces.foldl (fun s f => checkSingular s (solveDenominators (crossingMatrix f dimOrder)).1
        (solveDenominators (crossingMatrix f dimOrder)).2) s := by
  unfold getCrossings
  simp only [getCrossings_foldl]

theorem getCrossings_snd_indep [Rounding] (s s' : DiagState) (faces : nBy3By3Array) (coords : Fin 2 → ℚ)
    (dimOrder : Fin 3 → Fin 3) :
    (getCrossings s faces coords dimOrder).2 = (getCrossings s' faces coords dimOrder).2 := by
  rw [getCrossings_snd, getCrossings_snd]

/-! ## The main loops as a fold over rays -/

theorem getCrossings_nil [Rounding] (s : DiagState) (coords : Fin 2 → ℚ) (dimOrder : Fin 3 → Fin 3) :
    getCrossings s [] coords dimOrder = (s, []) := rfl

theorem rayFaces_eq_nil [Rounding] (faces : nBy3By3Array) (x y z : List ℚ) (i j : ℕ)
    (h : (secondFilter faces (rayCoords x y z i j 0)
      ((gridDims x.length y.length z.length).dimOrder 0) (rayCoords x y z i j 1)
      ((gridDims x.length y.length z.length).dimOrder 1)).size = 0) :
    rayFaces faces x y z i j = [] := by
  unfold rayFaces selectFaces
  unfold DynamicArray.size at h
  rw [List.length_eq_zero] at h
  rw [h]
  rfl

theorem rayCrossings_eq [Rounding] (s : DiagState) (faces : nBy3By3Array) (x y z : List ℚ) (i j : ℕ) :
    (getCrossings s (rayFaces faces x y z i j) (rayCoords x y z i j)
      (gridDims x.length y.length z.length).dimOrder).2 = rayCrossings faces x y z i j :=
  getCrossings_snd_indep _ _ _ _ _

theorem isOdd_zero : isOdd 0 = false := rfl

theorem rayStep_run [Rounding] (faces : nBy3By3Array) (x y z : List ℚ) (i j : ℕ) (st : RunState) :
    rayStep (gridDims x.length y.length z.length) ![x, y, z]
      (firstFilter faces (rayCoords x y z i j 0) ((gridDims x.length y.length z.length).dimOrder 0))
      (selectFaces faces (firstFilter faces (rayCoords x y z i j 0)
        ((gridDims x.length y.length z.length).dimOrder 0)))
      (selectCoords (findExtremeCoords faces).1 (findExtremeCoords faces).2
        (firstFilter faces (rayCoords x y z i j 0)
          ((gridDims x.length y.length z.length).dimOrder 0))).1
      (selectCoords (findExtremeCoords faces).1 (findExtremeCoords faces).2
        (firstFilter faces (rayCoords x y z i j 0)
          ((gridDims x.length y.length z.length).dimOrder 0))).2 i st j =
      ⟨rayDiag faces x y z i st.diag j, st.writes ++ rayWrites faces x y z i j⟩ := by
  show (if (secondFilter faces (rayCoords x y z i j 0)
      ((gridDims x.length y.length z.length).dimOrder 0) (rayCoords x y z i j 1)
      ((gridDims x.length y.length z.length).dimOrder 1)).size = 0 then st
    else if (getCrossings st.diag (rayFaces faces x y z i j) (rayCoords x y z i j)
        (gridDims x.length y.length z.length).dimOrder).2.length = 0 then
      { st with diag := (getCrossings st.diag (rayFaces faces x y z i j) (rayCoords x y z i j)
        (gridDims x.length y.length z.length).dimOrder).1 }
    else
      ⟨if isOdd (getCrossings st.diag (rayFaces faces x y z i j) (rayCoords x y z i j)
          (gridDims x.length y.length z.length).dimOrder).2.length then
        warnOnce Warning.oddCrossings (getCrossings st.diag (rayFaces faces x y z i j)
          (rayCoords x y z i j) (gridDims x.length y.length z.length).dimOrder).1
       else (getCrossings st.diag (rayFaces faces x y z i j)
          (rayCoords x y z i j) (gridDims x.length y.length z.length).dimOrder).1,
       st.writes ++ scanRay (getCrossings st.diag (rayFaces faces x y z i j)
          (rayCoords x y z i j) (gridDims x.length y.length z.length).dimOrder).2
        (![x, y, z] ((gridDims x.length y.length z.length).dimOrder 2))
        ((gridDims x.length y.length z.length).dimSize 2)
        (gridDims x.length y.length z.length).dimStep i j⟩) = _
  rw [rayCrossings_eq]
  unfold rayDiag rayWrites
  by_cases h0 : (secondFilter faces (rayCoords x y z i j 0)
      ((gridDims x.length y.length z.length).dimOrder 0) (rayCoords x y z i j 1)
      ((gridDims x.length y.length z.length).dimOrder 1)).size = 0
  · have hF := rayFaces_eq_nil faces x y z i j h0
    have hC : rayCrossings faces x y z i j = [] := by
      unfold rayCrossings; rw [hF]; rfl
    rw [if_pos h0, hC, hF]
    simp [isOdd_zero, getCrossings_nil]
  · rw [if_neg h0]
    by_cases h1 : (rayCrossings faces x y z i j).length = 0
    · rw [if_pos h1, if_pos h1, h1]
      simp [isOdd_zero]
    · rw [if_neg h1, if_neg h1]

theorem secondFilter_size_zero (faces : nBy3By3Array) (c0 : ℚ) (dim0 : Fin 3) (c1 : ℚ)
    (dim1 : Fin 3) (h : (firstFilter faces c0 dim0).size = 0) :
    (secondFilter faces c0 dim0 c1 dim1).size = 0 := by
  unfold DynamicArray.size at h ⊢
  rw [List.length_eq_zero] at h
  unfold secondFilter
  rw [findFacesInDim_data]
  simp [selectCoords, h]

theorem foldl_const_step {α : Type} (f : RunState → α → RunState) (l : List α) (st : RunState)
    (h : ∀ a, f st a = st) : l.foldl f st = st := by
  induction l with
  | nil => rfl
  | cons a l ih => rw [List.foldl_cons, h a, ih]

theorem rayCoords_zero (x y z : List ℚ) (i j : ℕ) :
    rayCoords x y z i j 0 =
      (![x, y, z] ((gridDims x.length y.length z.length).dimOrder 0)).getD i 0 := rfl

theorem sliceStep_def [Rounding] (d : Dims) (grid : Fin 3 → List ℚ) (facesIndex : DynamicArray)
    (faces : nBy3By3Array) (minCoords maxCoords : nBy3Array) (st : RunState) (i : ℕ) :
    sliceStep d grid facesIndex faces minCoords maxCoords st i =
      if (findFacesInDim facesIndex minCoords maxCoords
        ((grid (d.dimOrder 0)).getD i 0) (d.dimOrder 0)).size = 0 then st
      else (List.range (d.dimSize 1)).foldl (rayStep d grid
        (findFacesInDim facesIndex minCoords maxCoords
          ((grid (d.dimOrder 0)).getD i 0) (d.dimOrder 0))
        (selectFaces faces (findFacesInDim facesIndex minCoords maxCoords
          ((grid (d.dimOrder 0)).getD i 0) (d.dimOrder 0)))
        (selectCoords minCoords maxCoords (findFacesInDim facesIndex minCoords maxCoords
          ((grid (d.dimOrder 0)).getD i 0) (d.dimOrder 0))).1
        (selectCoords minCoords maxCoords (findFacesInDim facesIndex minCoords maxCoords
          ((grid (d.dimOrder 0)).getD i 0) (d.dimOrder 0))).2 i) st := rfl

theorem sliceStep_run [Rounding] (faces : nBy3By3Array) (x y z : List ℚ) (i : ℕ) (st : RunState) :
    sliceStep (gridDims x.length y.length z.length) ![x, y, z]
      (DynamicArray.create faces.length) faces (findExtremeCoords faces).1
      (findExtremeCoords faces).2 st i =
    (List.range ((gridDims x.length y.length z.length).dimSize 1)).foldl
      (fun st j => ⟨rayDiag faces x y z i st.diag j, st.writes ++ rayWrites faces x y z i j⟩)
      st := by
  rw [sliceStep_def]
  have hfun : (rayStep (gridDims x.length y.length z.length) ![x, y, z]
        (findFacesInDim (DynamicArray.create faces.length) (findExtremeCoords faces).1
          (findExtremeCoords faces).2
          ((![x, y, z] ((gridDims x.length y.length z.length).dimOrder 0)).getD i 0)
          ((gridDims x.length y.length z.length).dimOrder 0))
        (selectFaces faces (findFacesInDim (DynamicArray.create faces.length)
          (findExtremeCoords faces).1 (findExtremeCoords faces).2
          ((![x, y, z] ((gridDims x.length y.length z.length).dimOrder 0)).getD i 0)
          ((gridDims x.length y.length z.length).dimOrder 0)))
        (selectCoords (findExtremeCoords faces).1 (findExtremeCoords faces).2
          (findFacesInDim (DynamicArray.create faces.length)
          (findExtremeCoords faces).1 (findExtremeCoords faces).2
          ((![x, y, z] ((gridDims x.length y.length z.length).dimOrder 0)).getD i 0)
          ((gridDims x.length y.length z.length).dimOrder 0))).1
        (selectCoords (findExtremeCoords faces).1 (findExtremeCoords faces).2
          (findFacesInDim (DynamicArray.create faces.length)
          (findExtremeCoords faces).1 (findExtremeCoords faces).2
          ((![x, y, z] ((gridDims x.length y.length z.length).dimOrder 0)).getD i 0)
          ((gridDims x.length y.length z.length).dimOrder 0))).2 i) =
      (fun st j => ⟨rayDiag faces x y z i st.diag j, st.writes ++ rayWrites faces x y z i j⟩) := by
    funext st' j
    have := rayStep_run faces x y z i j st'
    rw [rayCoords_zero] at this
    exact this
  rw [hfun]
  by_cases h0 : (findFacesInDim (DynamicArray.create faces.length)
          (findExtremeCoords faces).1 (findExtremeCoords faces).2
          ((![x, y, z] ((gridDims x.length y.length z.length).dimOrder 0)).getD i 0)
          ((gridDims x.length y.length z.length).dimOrder 0)).size = 0
  · rw [if_pos h0]
    symm
    apply foldl_const_step
    intro j
    have h0' : (firstFilter faces (rayCoords x y z i j 0)
        ((gridDims x.length y.length z.length).dimOrder 0)).size = 0 := by
      rw [rayCoords_zero]
      exact h0
    have h1 := secondFilter_size_zero faces (rayCoords x y z i j 0)
      ((gridDims x.length y.length z.length).dimOrder 0) (rayCoords x y z i j 1)
      ((gridDims x.length y.length z.length).dimOrder 1) h0'
    have hF := rayFaces_eq_nil faces x y z i j h1
    have hC : rayCrossings faces x y z i j = [] := by
      unfold rayCrossings; rw [hF]; rfl
    simp [rayDiag, rayWrites, hC, hF, isOdd_zero, getCrossings_nil]
  · rw [if_neg h0]

theorem run_foldl_writes {α : Type} (g : DiagState → α → DiagState) (w : α → List (ℕ × Bool))
    (l : List α) (st : RunState) :
    l.foldl (fun st a => (⟨g st.diag a, st.writes ++ w a⟩ : RunState)) st =
      ⟨l.foldl g st.diag, st.writes ++ l.flatMap w⟩ := by
  induction l generalizing st with
  | nil => simp
  | cons a l ih => rw [List.foldl_cons, ih]; simp [List.flatMap_cons]

theorem insidePolyhedronRun_eq [Rounding] (s : DiagState) (faces : nBy3By3Array) (x y z : List ℚ) :
    insidePolyhedronRun s faces x y z =
      ⟨(List.range ((gridDims x.length y.length z.length).dimSize 0)).foldl
        (fun s i => (List.range ((gridDims x.length y.length z.length).dimSize 1)).foldl
          (rayDiag faces x y z i) s) s,
       (List.range ((gridDims x.length y.length z.length).dimSize 0)).flatMap
        (fun i => (List.range ((gridDims x.length y.length z.length).dimSize 1)).flatMap
          (rayWrites faces x y z i))⟩ := by
  unfold insidePolyhedronRun
  simp only []
  have hfun : sliceStep (gridDims x.length y.length z.length) ![x, y, z]
      (DynamicArray.create faces.length) faces (findExtremeCoords faces).1
      (findExtremeCoords faces).2 =
    (fun st i => (⟨(fun s i => (List.range ((gridDims x.length y.length z.length).dimSize 1)).foldl
          (rayDiag faces x y z i) s) st.diag i,
        st.writes ++ (fun i => (List.range ((gridDims x.length y.length z.length).dimSize 1)).flatMap
          (rayWrites faces x y z i)) i⟩ : RunState)) := by
    funext st i
    rw [sliceStep_run]
    exact run_foldl_writes (rayDiag faces x y z i) (rayWrites faces x y z i) _ st
  rw [hfun]
  exact run_foldl_writes
    (fun s i => (List.range ((gridDims x.length y.length z.length).dimSize 1)).foldl
      (rayDiag faces x y z i) s)
    (fun i => (List.range ((gridDims x.length y.length z.length).dimSize 1)).flatMap
      (rayWrites faces x y z i)) _ ⟨s, []⟩

/-! ## Index arithmetic and the output memory -/

theorem divmod_unique (n q r q' r' : ℕ) (hr : r < n) (hr' : r' < n)
    (h : q * n + r = q' * n + r') : q = q' ∧ r = r' := by
  have hn : 0 < n := by omega
  have h1 : (q * n + r) / n = q := by
    rw [Nat.add_comm, Nat.add_mul_div_right _ _ hn, Nat.div_eq_of_lt hr, Nat.zero_add]
  have h2 : (q' * n + r') / n = q' := by
    rw [Nat.add_comm, Nat.add_mul_div_right _ _ hn, Nat.div_eq_of_lt hr', Nat.zero_add]
  have hq : q = q' := by rw [← h1, ← h2, h]
  subst hq
  exact ⟨rfl, by omega⟩

/-- The layout `a*ny + b + c*(ny*nx)` with `a < nx`, `b < ny` determines `(a, b, c)`. -/
theorem mixedRadix_inj (nx ny a b c a' b' c' : ℕ) (ha : a < nx) (hb : b < ny)
    (ha' : a' < nx) (hb' : b' < ny)
    (h : a * ny + b + c * (ny * nx) = a' * ny + b' + c' * (ny * nx)) :
    a = a' ∧ b = b' ∧ c = c' := by
  have e1 : a * ny + b + c * (ny * nx) = (c * nx + a) * ny + b := by ring
  have e2 : a' * ny + b' + c' * (ny * nx) = (c' * nx + a') * ny + b' := by ring
  rw [e1, e2] at h
  obtain ⟨h1, h2⟩ := divmod_unique ny _ _ _ _ hb hb' h
  obtain ⟨h3, h4⟩ := divmod_unique nx _ _ _ _ ha ha' h1
  exact ⟨h4, h2, h3⟩

/-- For a self-inverse axis order the written index determines the loop position. -/
theorem writeIndex_inj (nx ny nz : ℕ) (h : SelfInverseOrder nx ny nz) (i j k i' j' k' : ℕ)
    (hi : i < (gridDims nx ny nz).dimSize 0) (hj : j < (gridDims nx ny nz).dimSize 1)
    (hk : k < (gridDims nx ny nz).dimSize 2)
    (hi' : i' < (gridDims nx ny nz).dimSize 0) (hj' : j' < (gridDims nx ny nz).dimSize 1)
    (hk' : k' < (gridDims nx ny nz).dimSize 2)
    (he : writeIndex (gridDims nx ny nz).dimStep i j k =
      writeIndex (gridDims nx ny nz).dimStep i' j' k') : i = i' ∧ j = j' ∧ k = k' := by
  unfold SelfInverseOrder at h
  unfold writeIndex at he
  rcases gridDims_cases nx ny nz with ⟨-, -, c, e, f⟩ | ⟨-, -, c, e, f⟩ | ⟨-, -, c, e, f⟩ |
    ⟨-, -, c, e, f⟩ | ⟨-, -, c, e, f⟩ | ⟨-, -, c, e, f⟩
  · rw [e] at hi hj hk hi' hj' hk'
    rw [f] at he
    simp at hi hj hk hi' hj' hk' he
    obtain ⟨a1, a2, a3⟩ := mixedRadix_inj nx ny i j k i' j' k' hi hj hi' hj' (by linarith)
    exact ⟨a1, a2, a3⟩
  · rw [e] at hi hj hk hi' hj' hk'
    rw [f] at he
    simp at hi hj hk hi' hj' hk' he
    obtain ⟨a1, a2, a3⟩ := mixedRadix_inj nx ny j i k j' i' k' hj hi hj' hi' (by linarith)
    exact ⟨a2, a1, a3⟩
  · rw [e] at hi hj hk hi' hj' hk'
    rw [f] at he
    simp at hi hj hk hi' hj' hk' he
    obtain ⟨a1, a2, a3⟩ := mixedRadix_inj nx ny i k j i' k' j' hi hk hi' hk' (by linarith)
    exact ⟨a1, a3, a2⟩
  · rw [e] at hi hj hk hi' hj' hk'
    rw [f] at he
    simp at hi hj hk hi' hj' hk' he
    obtain ⟨a1, a2, a3⟩ := mixedRadix_inj nx ny k j i k' j' i' hk hj hk' hj' (by linarith)
    exact ⟨a3, a2, a1⟩
  · have := h 0
    rw [c] at this
    simp at this
  · have := h 0
    rw [c] at this
    simp at this

theorem applyWrites_cons (m : ℕ → Bool) (w : ℕ × Bool) (ws : List (ℕ × Bool)) :
    applyWrites m (w :: ws) = applyWrites (Function.update m w.1 w.2) ws := rfl

theorem applyWrites_of_not_mem (ws : List (ℕ × Bool)) (m : ℕ → Bool) (n : ℕ)
    (h : ∀ w ∈ ws, w.1 ≠ n) : applyWrites m ws n = m n := by
  induction ws generalizing m with
  | nil => rfl
  | cons w ws ih =>
    rw [applyWrites_cons, ih _ (fun w' hw' => h w' (List.mem_cons_of_mem _ hw'))]
    exact Function.update_noteq (Ne.symm (h w (List.mem_cons_self _ _))) _ _

theorem applyWrites_of_forall (ws : List (ℕ × Bool)) (m : ℕ → Bool) (n : ℕ) (v : Bool)
    (h1 : ∃ w ∈ ws, w.1 = n) (h2 : ∀ w ∈ ws, w.1 = n → w.2 = v) :
    applyWrites m ws n = v := by
  induction ws generalizing m with
  | nil => obtain ⟨w, hw, -⟩ := h1; cases hw
  | cons w ws ih =>
    rw [applyWrites_cons]
    by_cases hex : ∃ w' ∈ ws, w'.1 = n
    · exact ih _ hex (fun w' hw' => h2 w' (List.mem_cons_of_mem _ hw'))
    · rw [applyWrites_of_not_mem ws _ n (fun w' hw' hn => hex ⟨w', hw', hn⟩)]
      obtain ⟨w0, hw0, hn0⟩ := h1
      rcases List.mem_cons.mp hw0 with rfl | hin
      · rw [← hn0, Function.update_same]
        exact h2 w0 (List.mem_cons_self _ _) hn0
      · exact absurd ⟨w0, hin, hn0⟩ hex

theorem scanRay_map_fst (C ray : List ℚ) (n : ℕ) (steps : Fin 3 → ℕ) (i j : ℕ) :
    (scanRay C ray n steps i j).map Prod.fst = (List.range n).map (writeIndex steps i j) := by
  unfold scanRay
  induction n with
  | zero => rfl
  | succ n ih =>
    rw [List.range_succ, List.foldl_append, List.foldl_cons, List.foldl_nil]
    generalize List.foldl (scanStep C ray steps i j) ⟨false, 0, []⟩ (List.range n) = st at ih ⊢
    simp only [scanStep, List.map_append, ih, List.map_cons, List.map_nil]

theorem mem_run_writes [Rounding] (s : DiagState) (faces : nBy3By3Array) (x y z : List ℚ) (w : ℕ × Bool) :
    w ∈ (insidePolyhedronRun s faces x y z).writes ↔
      ∃ i, i < (gridDims x.length y.length z.length).dimSize 0 ∧
      ∃ j, j < (gridDims x.length y.length z.length).dimSize 1 ∧
        w ∈ rayWrites faces x y z i j := by
  rw [insidePolyhedronRun_eq]
  simp only [List.mem_flatMap, List.mem_range]

theorem mem_rayWrites_index [Rounding] (faces : nBy3By3Array) (x y z : List ℚ) (i j : ℕ) (w : ℕ × Bool)
    (h : w ∈ rayWrites faces x y z i j) :
    rayCrossings faces x y z i j ≠ [] ∧
    ∃ k, k < (gridDims x.length y.length z.length).dimSize 2 ∧
      w.1 = writeIndex (gridDims x.length y.length z.length).dimStep i j k := by
  unfold rayWrites at h
  by_cases h0 : (rayCrossings faces x y z i j).length = 0
  · rw [if_pos h0] at h
    cases h
  · rw [if_neg h0] at h
    refine ⟨fun hnil => h0 (by rw [hnil]; rfl), ?_⟩
    have hm : w.1 ∈ (scanRay (rayCrossings faces x y z i j)
        (![x, y, z] ((gridDims x.length y.length z.length).dimOrder 2))
        ((gridDims x.length y.length z.length).dimSize 2)
        (gridDims x.length y.length z.length).dimStep i j).map Prod.fst :=
      List.mem_map_of_mem _ h
    rw [scanRay_map_fst, List.mem_map] at hm
    obtain ⟨k, hk, hk2⟩ := hm
    exact ⟨k, List.mem_range.mp hk, hk2.symm⟩

/-- An element belonging to a ray without crossings keeps its prior content,
provided no other loop position is written to the same index. -/
theorem run_value_no_crossings [Rounding] (s : DiagState) (inside : ℕ → Bool) (faces : nBy3By3Array)
    (x y z : List ℚ) (i j k : ℕ)
    (hinj : ∀ i' j' k', i' < (gridDims x.length y.length z.length).dimSize 0 →
      j' < (gridDims x.length y.length z.length).dimSize 1 →
      k' < (gridDims x.length y.length z.length).dimSize 2 →
      writeIndex (gridDims x.length y.length z.length).dimStep i' j' k' =
        writeIndex (gridDims x.length y.length z.length).dimStep i j k →
      i' = i ∧ j' = j ∧ k' = k)
    (hC : rayCrossings faces x y z i j = []) :
    (insidePolyhedron s inside faces x y z).2
        (writeIndex (gridDims x.length y.length z.length).dimStep i j k) =
      inside (writeIndex (gridDims x.length y.length z.length).dimStep i j k) := by
  unfold insidePolyhedron
  apply applyWrites_of_not_mem
  intro w hw hidx
  obtain ⟨i', hi', j', hj', hmem⟩ := (mem_run_writes s faces x y z w).mp hw
  obtain ⟨hne, k', hk', hw1⟩ := mem_rayWrites_index faces x y z i' j' w hmem
  obtain ⟨rfl, rfl, -⟩ := hinj i' j' k' hi' hj' hk' (hw1.symm.trans hidx)
  exact hne hC

/-- An element belonging to a ray with crossings holds the parity of the number
of crossings passed, provided no other loop position is written to the same
index and the ray coordinates ascend. -/
theorem run_value_crossings [Rounding] (s : DiagState) (inside : ℕ → Bool) (faces : nBy3By3Array)
    (x y z : List ℚ) (i j k : ℕ)
    (hs : (![x, y, z] ((gridDims x.length y.length z.length).dimOrder 2)).Sorted (· ≤ ·))
    (hlen : (gridDims x.length y.length z.length).dimSize 2 ≤
      (![x, y, z] ((gridDims x.length y.length z.length).dimOrder 2)).length)
    (hi : i < (gridDims x.length y.length z.length).dimSize 0)
    (hj : j < (gridDims x.length y.length z.length).dimSize 1)
    (hk : k < (gridDims x.length y.length z.length).dimSize 2)
    (hinj : ∀ i' j' k', i' < (gridDims x.length y.length z.length).dimSize 0 →
      j' < (gridDims x.length y.length z.length).dimSize 1 →
      k' < (gridDims x.length y.length z.length).dimSize 2 →
      writeIndex (gridDims x.length y.length z.length).dimStep i' j' k' =
        writeIndex (gridDims x.length y.length z.length).dimStep i j k →
      i' = i ∧ j' = j ∧ k' = k)
    (hC : rayCrossings faces x y z i j ≠ []) :
    (insidePolyhedron s inside faces x y z).2
        (writeIndex (gridDims x.length y.length z.length).dimStep i j k) =
      isOdd (passedCount ((![x, y, z]
        ((gridDims x.length y.length z.length).dimOrder 2)).getD k 0)
        (rayCrossings faces x y z i j)) := by
  have hray : ∀ i' j', rayCrossings faces x y z i' j' ≠ [] →
      rayWrites faces x y z i' j' =
        (List.range ((gridDims x.length y.length z.length).dimSize 2)).map (fun k' =>
          (writeIndex (gridDims x.length y.length z.length).dimStep i' j' k',
           isOdd (passedCount ((![x, y, z]
            ((gridDims x.length y.length z.length).dimOrder 2)).getD k' 0)
            (rayCrossings faces x y z i' j')))) := by
    intro i' j' hne
    unfold rayWrites
    rw [if_neg (fun h0 => hne (List.length_eq_zero.mp h0)), scanRay_eq _ _ _ _ _ hs _ hlen]
  unfold insidePolyhedron
  apply applyWrites_of_forall
  · refine ⟨(writeIndex (gridDims x.length y.length z.length).dimStep i j k,
      isOdd (passedCount ((![x, y, z]
        ((gridDims x.length y.length z.length).dimOrder 2)).getD k 0)
        (rayCrossings faces x y z i j))), ?_, rfl⟩
    rw [mem_run_writes]
    refine ⟨i, hi, j, hj, ?_⟩
    rw [hray i j hC, List.mem_map]
    exact ⟨k, List.mem_range.mpr hk, rfl⟩
  · intro w hw hidx
    obtain ⟨i', hi', j', hj', hmem⟩ := (mem_run_writes s faces x y z w).mp hw
    obtain ⟨hne, -⟩ := mem_rayWrites_index faces x y z i' j' w hmem
    rw [hray i' j' hne, List.mem_map] at hmem
    obtain ⟨k', hk', rfl⟩ := hmem
    obtain ⟨rfl, rfl, rfl⟩ := hinj i' j' k' hi' hj' (List.mem_range.mp hk') hidx
    rfl

theorem applyWrites_indep (ws : List (ℕ × Bool)) (n : ℕ) (h : ∃ w ∈ ws, w.1 = n)
    (m m' : ℕ → Bool) : applyWrites m ws n = applyWrites m' ws n := by
  induction ws generalizing m m' with
  | nil => obtain ⟨w, hw, -⟩ := h; cases hw
  | cons a ws ih =>
    rw [applyWrites_cons, applyWrites_cons]
    by_cases hex : ∃ w' ∈ ws, w'.1 = n
    · exact ih hex _ _
    · rw [applyWrites_of_not_mem ws _ n (fun w' hw' hn' => hex ⟨w', hw', hn'⟩),
        applyWrites_of_not_mem ws _ n (fun w' hw' hn' => hex ⟨w', hw', hn'⟩)]
      obtain ⟨w, hw, hn⟩ := h
      rcases List.mem_cons.mp hw with rfl | hin
      · rw [← hn, Function.update_same, Function.update_same]
      · exact absurd ⟨w, hin, hn⟩ hex

theorem exists_write_of_crossings [Rounding] (s : DiagState) (faces : nBy3By3Array) (x y z : List ℚ)
    (i j k : ℕ) (hi : i < (gridDims x.length y.length z.length).dimSize 0)
    (hj : j < (gridDims x.length y.length z.length).dimSize 1)
    (hk : k < (gridDims x.length y.length z.length).dimSize 2)
    (hC : rayCrossings faces x y z i j ≠ []) :
    ∃ w ∈ (insidePolyhedronRun s faces x y z).writes,
      w.1 = writeIndex (gridDims x.length y.length z.length).dimStep i j k := by
  have hm : writeIndex (gridDims x.length y.length z.length).dimStep i j k ∈
      (rayWrites faces x y z i j).map Prod.fst := by
    unfold rayWrites
    rw [if_neg (fun h0 => hC (List.length_eq_zero.mp h0)), scanRay_map_fst]
    exact List.mem_map_of_mem _ (List.mem_range.mpr hk)
  obtain ⟨w, hw, hw1⟩ := List.mem_map.mp hm
  exact ⟨w, (mem_run_writes s faces x y z w).mpr ⟨i, hi, j, hj, hw⟩, hw1⟩

theorem rayCrossings_of_filter_empty [Rounding] (faces : nBy3By3Array) (x y z : List ℚ) (i j : ℕ)
    (h : (firstFilter faces (rayCoords x y z i j 0)
        ((gridDims x.length y.length z.length).dimOrder 0)).size = 0 ∨
      (secondFilter faces (rayCoords x y z i j 0)
        ((gridDims x.length y.length z.length).dimOrder 0) (rayCoords x y z i j 1)
        ((gridDims x.length y.length z.length).dimOrder 1)).size = 0) :
    rayCrossings faces x y z i j = [] := by
  have h2 : (secondFilter faces (rayCoords x y z i j 0)
        ((gridDims x.length y.length z.length).dimOrder 0) (rayCoords x y z i j 1)
        ((gridDims x.length y.length z.length).dimOrder 1)).size = 0 := by
    rcases h with h | h
    · exact secondFilter_size_zero _ _ _ _ _ h
    · exact h
  unfold rayCrossings
  rw [rayFaces_eq_nil faces x y z i j h2]
  rfl

/-! ## Which elements are written -/

/-- C4 fails on the code: on the unit cube with the single grid point
`(2, 2, 2)` no face straddles `x = 2`, the `continue` of line 278 skips the
store of line 303 and the call makes no store at all, so the element of this
outside point, which held `true` before the call, still holds `true` on return;
the final array is not a function of mesh and grid only.  A point outside the
cube whose ray does have crossings, `(1/3, 1/2, -1)`, is stored as `false`
whatever the array held. -/
theorem skipped_ray_not_written :
    (insidePolyhedronRun DiagState.initial unitCube [2] [2] [2]).writes = [] ∧
    (insidePolyhedron DiagState.initial (fun _ => true) unitCube [2] [2] [2]).2 0 = true ∧
    (insidePolyhedron DiagState.initial (fun _ => false) unitCube [2] [2] [2]).2 0 = false ∧
    (insidePolyhedron DiagState.initial (fun _ => true) unitCube [1/3] [1/2] [-1]).2 0 =
      false := by
  decide!

/-- The extent of the missing stores, for every rounding of the arithmetic:
every store made by the core `insidePolyhedron` belongs to a ray with at least
one crossing, and an element of such a ray is overwritten, its final value not
depending on the prior content of the array.  The three `continue` statements
(lines 278, 286, 291) leave every other ray without a store: when the axis
order is its own inverse, the element of a point on a ray for which a
bounding-box filter leaves no candidate face, or which has no crossings, is
returned as the caller passed it in. -/
theorem stores_only_for_crossed_rays [Rounding] (s : DiagState) (inside : ℕ → Bool)
    (faces : nBy3By3Array) (x y z : List ℚ) (i j k : ℕ)
    (hi : i < (gridDims x.length y.length z.length).dimSize 0)
    (hj : j < (gridDims x.length y.length z.length).dimSize 1)
    (hk : k < (gridDims x.length y.length z.length).dimSize 2) :
    (∀ w ∈ (insidePolyhedronRun s faces x y z).writes, ∃ i' j' k',
      i' < (gridDims x.length y.length z.length).dimSize 0 ∧
      j' < (gridDims x.length y.length z.length).dimSize 1 ∧
      k' < (gridDims x.length y.length z.length).dimSize 2 ∧
      rayCrossings faces x y z i' j' ≠ [] ∧
      w.1 = writeIndex (gridDims x.length y.length z.length).dimStep i' j' k') ∧
    (rayCrossings faces x y z i j ≠ [] → ∀ inside' : ℕ → Bool,
      (insidePolyhedron s inside' faces x y z).2
          (writeIndex (gridDims x.length y.length z.length).dimStep i j k) =
        (insidePolyhedron s inside faces x y z).2
          (writeIndex (gridDims x.length y.length z.length).dimStep i j k)) ∧
    (SelfInverseOrder x.length y.length z.length →
      ((firstFilter faces (rayCoords x y z i j 0)
          ((gridDims x.length y.length z.length).dimOrder 0)).size = 0 ∨
        (secondFilter faces (rayCoords x y z i j 0)
          ((gridDims x.length y.length z.length).dimOrder 0) (rayCoords x y z i j 1)
          ((gridDims x.length y.length z.length).dimOrder 1)).size = 0 ∨
        rayCrossings faces x y z i j = []) →
      (insidePolyhedron s inside faces x y z).2
          (writeIndex (gridDims x.length y.length z.length).dimStep i j k) =
        inside (writeIndex (gridDims x.length y.length z.length).dimStep i j k)) := by
  refine ⟨?_, ?_, ?_⟩
  · intro w hw
    obtain ⟨i', hi', j', hj', hmem⟩ := (mem_run_writes s faces x y z w).mp hw
    obtain ⟨hne, k', hk', hw1⟩ := mem_rayWrites_index faces x y z i' j' w hmem
    exact ⟨i', j', k', hi', hj', hk', hne, hw1⟩
  · intro hC inside'
    exact applyWrites_indep _ _ (exists_write_of_crossings s faces x y z i j k hi hj hk hC) _ _
  · intro hord hray
    have hC : rayCrossings faces x y z i j = [] := by
      rcases hray with h | h | h
      · exact rayCrossings_of_filter_empty faces x y z i j (Or.inl h)
      · exact rayCrossings_of_filter_empty faces x y z i j (Or.inr h)
      · exact h
    exact run_value_no_crossings s inside faces x y z i j k
      (fun i' j' k' hi' hj' hk' he =>
        writeIndex_inj _ _ _ hord i' j' k' i j k hi' hj' hk' hi hj hk he) hC

/-- Instance of `stores_only_for_crossed_rays`: on the unit cube with
`x = [1/3, 2]`, `y = [1/2, 2]`, `z = [-1, 1/2]` the ray at loop position `(0, 1)`
has no candidate face, and its element at index `1` is returned as the `true`
that was passed in. -/
theorem stores_only_for_crossed_rays_witness :
    0 < (gridDims 2 2 2).dimSize 0 ∧ 1 < (gridDims 2 2 2).dimSize 1 ∧
    0 < (gridDims 2 2 2).dimSize 2 ∧
    (insidePolyhedron DiagState.initial (fun _ => true) unitCube
      [1/3, 2] [1/2, 2] [-1, 1/2]).2 (writeIndex (gridDims 2 2 2).dimStep 0 1 0) = true :=
  ⟨by decide, by decide, by decide,
    (stores_only_for_crossed_rays DiagState.initial (fun _ => true) unitCube
      [1/3, 2] [1/2, 2] [-1, 1/2] 0 1 0 (by decide) (by decide) (by decide)).2.2
      (by decide) (Or.inr (Or.inr (by decide!)))⟩

/-! ## The natural order -/

theorem gridDims_natural (nx ny nz : ℕ) (h1 : nx ≤ ny) (h2 : ny ≤ nz) :
    (gridDims nx ny nz).dimOrder = ![0, 1, 2] ∧ (gridDims nx ny nz).dimSize = ![nx, ny, nz] ∧
    (gridDims nx ny nz).dimStep = ![ny, 1, ny * nx] := by
  rcases gridDims_cases nx ny nz with ⟨-, -, c, e, f⟩ | ⟨a, b, -⟩ | ⟨a, b, -⟩ |
    ⟨a, b, -⟩ | ⟨a, b, -⟩ | ⟨a, b, -⟩
  · exact ⟨c, e, f⟩
  all_goals exfalso; omega

theorem selfInverse_of_natural (nx ny nz : ℕ) (h1 : nx ≤ ny) (h2 : ny ≤ nz) :
    SelfInverseOrder nx ny nz := by
  intro p
  rw [(gridDims_natural nx ny nz h1 h2).1]
  fin_cases p <;> rfl

theorem rayCrossings_single [Rounding] (faces : nBy3By3Array) (x y z : List ℚ) (i j k : ℕ)
    (h1 : x.length ≤ y.length) (h2 : y.length ≤ z.length) :
    rayCrossings faces [x.getD i 0] [y.getD j 0] [z.getD k 0] 0 0 =
      rayCrossings faces x y z i j := by
  have hg := (gridDims_natural x.length y.length z.length h1 h2).1
  have hs := (gridDims_natural 1 1 1 (le_refl _) (le_refl _)).1
  have hc : rayCoords [x.getD i 0] [y.getD j 0] [z.getD k 0] 0 0 = rayCoords x y z i j := by
    unfold rayCoords
    simp only [List.length_singleton, hg, hs]
    simp
  unfold rayCrossings rayFaces
  rw [hc]
  simp only [List.length_singleton, hg, hs]

/-! ## The diagnostics -/

theorem Emits.refl (s : DiagState) : Emits s s false false := by
  refine ⟨by simp, by simp, [], by simp, by simp, by simp⟩

theorem Emits.trans {s s' s'' : DiagState} {a b a' b' : Bool} (h1 : Emits s s' a b)
    (h2 : Emits s' s'' a' b') : Emits s s'' (a || a') (b || b') := by
  obtain ⟨e1, e2, n1, e3, e4, e5⟩ := h1
  obtain ⟨f1, f2, n2, f3, f4, f5⟩ := h2
  refine ⟨by rw [f1, e1, Bool.or_assoc], by rw [f2, e2, Bool.or_assoc], n1 ++ n2,
    by rw [f3, e3, List.append_assoc], ?_, ?_⟩
  · rw [List.count_append, e4, f4, e1]
    cases s.hasAlreadyWarned <;> cases a <;> cases a' <;> rfl
  · rw [List.count_append, e5, f5, e2]
    cases s.hasWarned <;> cases b <;> cases b' <;> rfl

theorem Emits.checkSingular [Rounding] (s : DiagState) (d1 d2 : ℚ) :
    Emits s (checkSingular s d1 d2) (decide (|d1| < singularTol ∨ |d2| < singularTol))
      false := by
  unfold InsidePolyhedron.checkSingular
  by_cases h : |d1| < singularTol ∨ |d2| < singularTol
  · rw [if_pos h, decide_eq_true h]
    cases hw : s.hasAlreadyWarned
    · refine ⟨by simp [hw], by simp [hw], [Warning.singular], by simp [hw], by simp [hw], ?_⟩
      simp
    · refine ⟨by simp [hw], by simp [hw], [], by simp [hw], by simp [hw], by simp⟩
  · rw [if_neg h, decide_eq_false h]
    exact Emits.refl s

theorem Emits.warnOnce (s : DiagState) :
    Emits s (warnOnce Warning.oddCrossings s) false true := by
  unfold InsidePolyhedron.warnOnce
  cases hw : s.hasWarned
  · refine ⟨by simp [hw], by simp [hw], [Warning.oddCrossings], by simp [hw], ?_, by simp [hw]⟩
    simp
  · refine ⟨by simp [hw], by simp [hw], [], by simp [hw], by simp, by simp [hw]⟩

theorem Emits.foldl {α : Type} (f : DiagState → α → DiagState) (p q : α → Bool)
    (h : ∀ s a, Emits s (f s a) (p a) (q a)) (l : List α) (s : DiagState) :
    Emits s (l.foldl f s) (l.any p) (l.any q) := by
  induction l generalizing s with
  | nil => exact Emits.refl s
  | cons a l ih =>
    rw [List.foldl_cons, List.any_cons, List.any_cons]
    exact (h s a).trans (ih (f s a))

theorem rayDiag_emits [Rounding] (faces : nBy3By3Array) (x y z : List ℚ) (i j : ℕ) (s : DiagState) :
    Emits s (rayDiag faces x y z i s j)
      ((rayFaces faces x y z i j).any (nearSingular (gridDims x.length y.length z.length).dimOrder))
      (isOdd (rayCrossings faces x y z i j).length) := by
  have hg : Emits s (getCrossings s (rayFaces faces x y z i j) (rayCoords x y z i j)
      (gridDims x.length y.length z.length).dimOrder).1
      ((rayFaces faces x y z i j).any
        (nearSingular (gridDims x.length y.length z.length).dimOrder)) false := by
    rw [getCrossings_fst]
    have := Emits.foldl
      (fun s f => checkSingular s
        (solveDenominators (crossingMatrix f (gridDims x.length y.length z.length).dimOrder)).1
        (solveDenominators (crossingMatrix f (gridDims x.length y.length z.length).dimOrder)).2)
      (nearSingular (gridDims x.length y.length z.length).dimOrder) (fun _ => false)
      (fun s f => Emits.checkSingular s _ _) (rayFaces faces x y z i j) s
    have hf : (rayFaces faces x y z i j).any (fun _ => false) = false := by simp
    rw [hf] at this
    exact this
  unfold rayDiag
  cases hodd : isOdd (rayCrossings faces x y z i j).length
  · simpa using hg
  · have := hg.trans (Emits.warnOnce _)
    simpa using this

theorem insidePolyhedron_emits [Rounding] (s : DiagState) (inside : ℕ → Bool) (faces : nBy3By3Array)
    (x y z : List ℚ) :
    Emits s (insidePolyhedron s inside faces x y z).1 (hasSingularSolve faces x y z)
      (hasOddRay faces x y z) := by
  unfold insidePolyhedron hasSingularSolve hasOddRay
  simp only [insidePolyhedronRun_eq]
  exact Emits.foldl _ _ _ (fun s i => Emits.foldl _ _ _
    (fun s j => rayDiag_emits faces x y z i j s) _ s) _ s

/-- C9 (as stated) fails: on an open mesh whose single ray has one crossing and
meets a singular system, a first invocation from a fresh process prints both
diagnostics; a second invocation on the same input, entered with the latches
left by the first, prints nothing, although both conditions arise again. -/
theorem latch_persists_counterexample :
    hasOddRay openMesh [1/2] [1/3] [1] = true ∧
    hasSingularSolve openMesh [1/2] [1/3] [1] = true ∧
    (insidePolyhedron DiagState.initial (fun _ => false) openMesh [1/2] [1/3] [1]).1 =
      ⟨true, true, [Warning.singular, Warning.oddCrossings]⟩ ∧
    (insidePolyhedron ⟨true, true, [Warning.singular, Warning.oddCrossings]⟩
      (fun _ => false) openMesh [1/2] [1/3] [1]).1 =
      ⟨true, true, [Warning.singular, Warning.oddCrossings]⟩ := by
  decide!

/-- C9 (amended): with the two latches as explicit state that persists between
calls, an invocation of the core `insidePolyhedron` prints the odd-crossing
diagnostic exactly once if its latch is clear on entry and some ray has an odd
number of crossings, and not at all otherwise; it prints the near-singular
diagnostic exactly once if its latch is clear on entry and some 2x2 solve has a
denominator of magnitude below `1e-14`, and not at all otherwise.  Each latch on
return is its value on entry or-ed with its condition; nothing resets it. -/
theorem diagnostics_once_per_process (s : DiagState) (inside : ℕ → Bool)
    (faces : nBy3By3Array) (x y z : List ℚ) :
    ∃ new : List Warning,
      (insidePolyhedron s inside faces x y z).1.emitted = s.emitted ++ new ∧
      new.count Warning.oddCrossings =
        (if s.hasWarned = false ∧ hasOddRay faces x y z = true then 1 else 0) ∧
      new.count Warning.singular =
        (if s.hasAlreadyWarned = false ∧ hasSingularSolve faces x y z = true then 1 else 0) ∧
      (insidePolyhedron s inside faces x y z).1.hasWarned =
        (s.hasWarned || hasOddRay faces x y z) ∧
      (insidePolyhedron s inside faces x y z).1.hasAlreadyWarned =
        (s.hasAlreadyWarned || hasSingularSolve faces x y z) := by
  obtain ⟨e1, e2, new, e3, e4, e5⟩ := insidePolyhedron_emits s inside faces x y z
  refine ⟨new, e3, ?_, ?_, e2, e1⟩
  · rw [e5]
    cases s.hasWarned <;> cases hasOddRay faces x y z <;> rfl
  · rw [e4]
    cases s.hasAlreadyWarned <;> cases hasSingularSolve faces x y z <;> rfl

/-! ## The cube test for every triangulation -/

theorem cornerFace_rejected_aux (a b d e g h l m n : Bool) :
    acceptedCrossing ![1/2, 1/2] ![0, 1, 2]
      (cornerFace ![![a, b, d], ![e, g, h], ![l, m, n]]) = none := by
  revert a b d e g h l m n
  decide!

theorem cornerFace_rejected (c : Fin 3 → Fin 3 → Bool) :
    acceptedCrossing ![1/2, 1/2] ![0, 1, 2] (cornerFace c) = none := by
  have hc : c = ![![c 0 0, c 0 1, c 0 2], ![c 1 0, c 1 1, c 1 2], ![c 2 0, c 2 1, c 2 2]] := by
    funext v k
    fin_cases v <;> fin_cases k <;> rfl
  rw [hc]
  exact cornerFace_rejected_aux _ _ _ _ _ _ _ _ _


theorem getD_mem_or_default {α : Type} (l : List α) (n : ℕ) (d : α) :
    l.getD n d ∈ l ∨ l.getD n d = d := by
  by_cases h : n < l.length
  · left
    rw [List.getD_eq_getElem l d h]
    exact List.getElem_mem _
  · right
    exact List.getD_eq_default l d (not_lt.mp h)

theorem selectFaces_mem (faces : nBy3By3Array) (idx : DynamicArray) (f : Face)
    (h : f ∈ selectFaces faces idx) : f ∈ faces ∨ f = 0 := by
  unfold selectFaces at h
  obtain ⟨n, -, rfl⟩ := List.mem_map.mp h
  exact getD_mem_or_default faces n 0

/-- For every mesh whose triangles have their vertices at corners of the unit
cube (in particular every triangulation of the cube's surface into 12 triangles),
the call on the single grid point `(1/2, 1/2, 1/2)` makes no store: the element
of the centre keeps its prior content. -/
theorem corner_mesh_centre_not_written (s : DiagState) (inside : ℕ → Bool)
    (cs : List (Fin 3 → Fin 3 → Bool)) :
    (insidePolyhedronRun s (cs.map cornerFace) [1/2] [1/2] [1/2]).writes = [] ∧
    (insidePolyhedron s inside (cs.map cornerFace) [1/2] [1/2] [1/2]).2 0 = inside 0 := by
  obtain ⟨hO, hS, -⟩ := gridDims_natural 1 1 1 (le_refl _) (le_refl _)
  have hcoords : rayCoords [1/2] [1/2] [1/2] 0 0 = ![1/2, 1/2] := by
    unfold rayCoords
    simp only [List.length_singleton, hO]
    simp
  have hzero : (0 : Face) = cornerFace (fun _ _ => false) := by
    funext v k
    simp [cornerFace]
  have hC : rayCrossings (cs.map cornerFace) [1/2] [1/2] [1/2] 0 0 = [] := by
    unfold rayCrossings
    rw [getCrossings_snd, hcoords]
    simp only [List.length_singleton, hO]
    have : List.filterMap (acceptedCrossing ![1/2, 1/2] ![0, 1, 2])
        (rayFaces (cs.map cornerFace) [1/2] [1/2] [1/2] 0 0) = [] := by
      rw [List.filterMap_eq_nil_iff]
      intro f hf
      unfold rayFaces at hf
      rcases selectFaces_mem _ _ f hf with h1 | h1
      · rcases selectFaces_mem _ _ f h1 with h2 | h2
        · obtain ⟨c, -, rfl⟩ := List.mem_map.mp h2
          exact cornerFace_rejected c
        · rw [h2, hzero]; exact cornerFace_rejected _
      · rw [h1, hzero]; exact cornerFace_rejected _
    rw [this]
    rfl
  have hR : rayWrites (cs.map cornerFace) [1/2] [1/2] [1/2] 0 0 = [] := by
    unfold rayWrites
    rw [hC]
    rfl
  have h0 : (gridDims [(1/2 : ℚ)].length [(1/2 : ℚ)].length [(1/2 : ℚ)].length).dimSize 0
      = 1 := by
    simp only [List.length_singleton, hS]; rfl
  have h1 : (gridDims [(1/2 : ℚ)].length [(1/2 : ℚ)].length [(1/2 : ℚ)].length).dimSize 1
      = 1 := by
    simp only [List.length_singleton, hS]; rfl
  have hW : (insidePolyhedronRun s (cs.map cornerFace) [1/2] [1/2] [1/2]).writes = [] := by
    rw [insidePolyhedronRun_eq, h0, h1]
    have hr : List.range 1 = [0] := rfl
    simp only [hr, List.flatMap_cons, List.flatMap_nil, List.append_nil, hR]
  refine ⟨hW, ?_⟩
  show applyWrites inside (insidePolyhedronRun s (cs.map cornerFace) [1/2] [1/2] [1/2]).writes 0
    = inside 0
  rw [hW]
  rfl

/-! ## The self-inverse orders in terms of the lengths -/

/-- The scheduler's order is its own inverse except when `ny ≤ nz < nx` or
`nz < nx ≤ ny`, where it is a cyclic shift of the three axes. -/
theorem selfInverseOrder_iff (nx ny nz : ℕ) :
    SelfInverseOrder nx ny nz ↔ ¬ (ny ≤ nz ∧ nz < nx) ∧ ¬ (nz < nx ∧ nx ≤ ny) := by
  unfold SelfInverseOrder
  rcases gridDims_cases nx ny nz with ⟨a, b, c, -⟩ | ⟨a, b, c, -⟩ | ⟨a, b, c, -⟩ |
    ⟨a, b, c, -⟩ | ⟨a, b, c, -⟩ | ⟨a, b, c, -⟩
  · rw [c]; exact ⟨fun _ => ⟨by omega, by omega⟩, fun _ p => by fin_cases p <;> rfl⟩
  · rw [c]; exact ⟨fun _ => ⟨by omega, by omega⟩, fun _ p => by fin_cases p <;> rfl⟩
  · rw [c]; exact ⟨fun _ => ⟨by omega, by omega⟩, fun _ p => by fin_cases p <;> rfl⟩
  · rw [c]; exact ⟨fun _ => ⟨by omega, by omega⟩, fun _ p => by fin_cases p <;> rfl⟩
  · rw [c]
    refine ⟨fun h => ?_, fun h => absurd ⟨a, b⟩ h.1⟩
    have := h 0
    simp at this
  · rw [c]
    refine ⟨fun h => ?_, fun h => absurd ⟨a, b⟩ h.2⟩
    have := h 0
    simp at this

/-! ## The bounding boxes -/

theorem faceMin_eq_min (f : Face) (dim : Fin 3) :
    faceMin f dim = min (min (f 0 dim) (f 1 dim)) (f 2 dim) := by
  unfold faceMin
  simp only []
  by_cases h1 : f 1 dim < f 0 dim
  · rw [if_pos h1, min_eq_right (le_of_lt h1)]
    by_cases h2 : f 2 dim < f 1 dim
    · rw [if_pos h2, min_eq_right (le_of_lt h2)]
    · rw [if_neg h2, min_eq_left (not_lt.mp h2)]
  · rw [if_neg h1, min_eq_left (not_lt.mp h1)]
    by_cases h2 : f 2 dim < f 0 dim
    · rw [if_pos h2, min_eq_right (le_of_lt h2)]
    · rw [if_neg h2, min_eq_left (not_lt.mp h2)]

theorem faceMax_eq_max (f : Face) (dim : Fin 3) :
    faceMax f dim = max (max (f 0 dim) (f 1 dim)) (f 2 dim) := by
  unfold faceMax
  simp only []
  by_cases h1 : f 1 dim > f 0 dim
  · rw [if_pos h1, max_eq_right (le_of_lt h1)]
    by_cases h2 : f 2 dim > f 1 dim
    · rw [if_pos h2, max_eq_right (le_of_lt h2)]
    · rw [if_neg h2, max_eq_left (not_lt.mp h2)]
  · rw [if_neg h1, max_eq_left (not_lt.mp h1)]
    by_cases h2 : f 2 dim > f 0 dim
    · rw [if_pos h2, max_eq_right (le_of_lt h2)]
    · rw [if_neg h2, max_eq_left (not_lt.mp h2)]

theorem faceMin_zero : faceMin 0 = 0 := by
  funext dim
  simp [faceMin]

theorem faceMax_zero : faceMax 0 = 0 := by
  funext dim
  simp [faceMax]

theorem minCoords_getD (faces : nBy3By3Array) (i : ℕ) :
    (findExtremeCoords faces).1.getD i 0 = faceMin (faces.getD i 0) := by
  unfold findExtremeCoords
  conv_lhs => rw [← faceMin_zero]
  exact List.getD_map faces 0 faceMin

theorem maxCoords_getD (faces : nBy3By3Array) (i : ℕ) :
    (findExtremeCoords faces).2.getD i 0 = faceMax (faces.getD i 0) := by
  unfold findExtremeCoords
  conv_lhs => rw [← faceMax_zero]
  exact List.getD_map faces 0 faceMax

/-- C16: `findExtremeCoords` returns two arrays with one row per face, and for
every face `i` and axis `dim`, `minCoords[i][dim]` is the minimum and
`maxCoords[i][dim]` the maximum of the three vertex coordinates
`faces[i][0..2][dim]`; hence `minCoords[i][dim] ≤ faces[i][v][dim] ≤
maxCoords[i][dim]` for every vertex `v`. -/
theorem findExtremeCoords_min_max (faces : nBy3By3Array) (i : ℕ) (dim : Fin 3) :
    (findExtremeCoords faces).1.length = faces.length ∧
    (findExtremeCoords faces).2.length = faces.length ∧
    (findExtremeCoords faces).1.getD i 0 dim =
      min (min ((faces.getD i 0) 0 dim) ((faces.getD i 0) 1 dim)) ((faces.getD i 0) 2 dim) ∧
    (findExtremeCoords faces).2.getD i 0 dim =
      max (max ((faces.getD i 0) 0 dim) ((faces.getD i 0) 1 dim)) ((faces.getD i 0) 2 dim) ∧
    (∀ v : Fin 3, (findExtremeCoords faces).1.getD i 0 dim ≤ (faces.getD i 0) v dim ∧
      (faces.getD i 0) v dim ≤ (findExtremeCoords faces).2.getD i 0 dim) := by
  rw [minCoords_getD, maxCoords_getD, faceMin_eq_min, faceMax_eq_max]
  refine ⟨by simp [findExtremeCoords], by simp [findExtremeCoords], rfl, rfl, ?_⟩
  intro v
  fin_cases v <;> simp

/-! ## The two-level candidate selection -/

theorem map_getD_filter_range {α : Type} (l : List α) (d : α) (p : α → Bool) :
    ((List.range l.length).filter (fun i => p (l.getD i d))).map (fun i => l.getD i d) =
      l.filter p := by
  induction l with
  | nil => rfl
  | cons a l ih =>
    rw [List.length_cons, List.range_succ_eq_map, List.filter_cons, List.filter_cons]
    have h0 : (a :: l).getD 0 d = a := rfl
    have hs : ∀ n, (a :: l).getD (n + 1) d = l.getD n d := fun n => rfl
    have hrest : (List.filter (fun i => p ((a :: l).getD i d))
        (List.map Nat.succ (List.range l.length))).map (fun i => (a :: l).getD i d) =
        l.filter p := by
      rw [List.filter_map, List.map_map, ← ih]
      rfl
    rw [h0]
    cases hp : p a
    · simp only [Bool.false_eq_true, if_false]
      exact hrest
    · simp only [if_true, List.map_cons, h0]
      rw [hrest]

theorem selectFaces_firstFilter (faces : nBy3By3Array) (c0 : ℚ) (dim0 : Fin 3) :
    selectFaces faces (firstFilter faces c0 dim0) = faces.filter (faceStraddles c0 dim0) := by
  unfold selectFaces firstFilter
  rw [findFacesInDim_data]
  have hp : straddles (findExtremeCoords faces).1 (findExtremeCoords faces).2 c0 dim0 =
      fun i => faceStraddles c0 dim0 (faces.getD i 0) := by
    funext i
    unfold straddles faceStraddles
    rw [minCoords_getD, maxCoords_getD]
  have hl : (findExtremeCoords faces).1.length = faces.length := by simp [findExtremeCoords]
  rw [hp, hl]
  exact map_getD_filter_range faces 0 (faceStraddles c0 dim0)

theorem selectCoords_firstFilter (faces : nBy3By3Array) (c0 : ℚ) (dim0 : Fin 3) :
    selectCoords (findExtremeCoords faces).1 (findExtremeCoords faces).2
        (firstFilter faces c0 dim0) =
      findExtremeCoords (selectFaces faces (firstFilter faces c0 dim0)) := by
  unfold selectCoords selectFaces
  simp only [minCoords_getD, maxCoords_getD]
  simp [findExtremeCoords, List.map_map, Function.comp]

theorem selectFaces_secondFilter (faces : nBy3By3Array) (c0 : ℚ) (dim0 : Fin 3) (c1 : ℚ)
    (dim1 : Fin 3) :
    selectFaces (selectFaces faces (firstFilter faces c0 dim0))
        (secondFilter faces c0 dim0 c1 dim1) =
      (selectFaces faces (firstFilter faces c0 dim0)).filter (faceStraddles c1 dim1) := by
  unfold secondFilter
  rw [selectCoords_firstFilter]
  generalize selectFaces faces (firstFilter faces c0 dim0) = facesD2
  generalize firstFilter faces c0 dim0 = buf
  unfold selectFaces
  rw [findFacesInDim_data]
  have hp : straddles (findExtremeCoords facesD2).1 (findExtremeCoords facesD2).2 c1 dim1 =
      fun i => faceStraddles c1 dim1 (facesD2.getD i 0) := by
    funext i
    unfold straddles faceStraddles
    rw [minCoords_getD, maxCoords_getD]
  have hl : (findExtremeCoords facesD2).1.length = facesD2.length := by
    simp [findExtremeCoords]
  rw [hp, hl]
  exact map_getD_filter_range facesD2 0 (faceStraddles c1 dim1)

/-- C15: the face list `facesD1` handed to `getCrossings` for the coordinate `c0`
on the major filter axis and `c1` on the minor filter axis consists of exactly
the input faces, in their original order, whose bounding interval strictly
straddles `c0` on `dim0` and `c1` on `dim1`; the candidates after the second
filter are a sublist of the candidates after the first, which are a sublist of
the input faces, although the second filter's indices refer to the re-indexed
first-level selection. -/
theorem candidates_straddle_both_axes (faces : nBy3By3Array) (c0 : ℚ) (dim0 : Fin 3) (c1 : ℚ)
    (dim1 : Fin 3) :
    selectFaces (selectFaces faces (firstFilter faces c0 dim0))
        (secondFilter faces c0 dim0 c1 dim1) =
      faces.filter (fun f => decide (faceMin f dim0 < c0 ∧ faceMax f dim0 > c0 ∧
        faceMin f dim1 < c1 ∧ faceMax f dim1 > c1)) ∧
    selectFaces faces (firstFilter faces c0 dim0) =
      faces.filter (fun f => decide (faceMin f dim0 < c0 ∧ faceMax f dim0 > c0)) ∧
    (selectFaces (selectFaces faces (firstFilter faces c0 dim0))
        (secondFilter faces c0 dim0 c1 dim1)).Sublist
      (selectFaces faces (firstFilter faces c0 dim0)) ∧
    (selectFaces faces (firstFilter faces c0 dim0)).Sublist faces := by
  rw [selectFaces_secondFilter, selectFaces_firstFilter]
  refine ⟨?_, rfl, List.filter_sublist _, List.filter_sublist _⟩
  rw [List.filter_filter]
  congr 1
  funext f
  simp only [faceStraddles, Bool.and_eq_decide, decide_eq_true_eq]
  by_cases h1 : faceMin f dim0 < c0 ∧ faceMax f dim0 > c0 <;>
    by_cases h2 : faceMin f dim1 < c1 ∧ faceMax f dim1 > c1 <;>
    simp [h1, h2]

/-! ## Sortedness and content of the crossing list -/

theorem pivot_ne_zero_of_gt (A : Fin 2 → Fin 2 → ℚ) (h : |A 0 0| > |A 1 0|) : A 0 0 ≠ 0 := by
  intro h0
  rw [h0, abs_zero] at h
  exact absurd h (not_lt.mpr (abs_nonneg _))

theorem pivot_ne_zero_of_le (A : Fin 2 → Fin 2 → ℚ) (h : ¬ |A 0 0| > |A 1 0|)
    (hdet : det2 A ≠ 0) : A 1 0 ≠ 0 := by
  intro h0
  rw [h0, abs_zero, not_lt] at h
  have h00 : A 0 0 = 0 := abs_eq_zero.mp (le_antisymm h (abs_nonneg _))
  apply hdet
  unfold det2
  rw [h0, h00]
  ring

/-- One elimination step with pivot `a`: the reduced denominator is `D / a`, and
back-substitution gives Cramer's quotients. -/
theorem eliminate_with_pivot (a b c d r0 r1 : ℚ) (ha : a ≠ 0) (hD : a * d - b * c ≠ 0) :
    d - b * (c / a) = (a * d - b * c) / a ∧
    (r1 - r0 * (c / a)) / (d - b * (c / a)) = (a * r1 - c * r0) / (a * d - b * c) ∧
    (r0 - b * ((r1 - r0 * (c / a)) / (d - b * (c / a)))) / a =
      (r0 * d - b * r1) / (a * d - b * c) := by
  have e1 : d - b * (c / a) = (a * d - b * c) / a := by
    field_simp
    ring
  have hne : d - b * (c / a) ≠ 0 := by
    rw [e1]
    exact div_ne_zero hD ha
  have e2 : (r1 - r0 * (c / a)) / (d - b * (c / a)) = (a * r1 - c * r0) / (a * d - b * c) := by
    rw [e1]
    field_simp
    ring
  refine ⟨e1, e2, ?_⟩
  rw [e2]
  field_simp
  ring

/-- In exact arithmetic `solve2by2` returns Cramer's solution when the
determinant is not zero. -/
theorem solve2by2_cramer (s : DiagState) (A : Fin 2 → Fin 2 → ℚ) (b : Fin 2 → ℚ)
    (hdet : det2 A ≠ 0) :
    (solve2by2 s A b).2 0 = (b 0 * A 1 1 - A 0 1 * b 1) / det2 A ∧
    (solve2by2 s A b).2 1 = (A 0 0 * b 1 - A 1 0 * b 0) / det2 A := by
  unfold solve2by2
  simp only [fdiv_exact, fsub_exact, fmul_exact]
  unfold det2 at hdet ⊢
  by_cases h : |A 0 0| > |A 1 0|
  · have h00 := pivot_ne_zero_of_gt A h
    obtain ⟨-, e2, e3⟩ := eliminate_with_pivot (A 0 0) (A 0 1) (A 1 0) (A 1 1) (b 0) (b 1)
      h00 hdet
    rw [if_pos h]
    simp only [Matrix.cons_val_zero, Matrix.cons_val_one, Matrix.head_cons]
    exact ⟨e3, e2⟩
  · have h10 := pivot_ne_zero_of_le A h hdet
    have hD : A 1 0 * A 0 1 - A 1 1 * A 0 0 ≠ 0 := by
      intro hz
      apply hdet
      linarith
    obtain ⟨-, e2, e3⟩ := eliminate_with_pivot (A 1 0) (A 1 1) (A 0 0) (A 0 1) (b 1) (b 0)
      h10 hD
    rw [if_neg h]
    simp only [Matrix.cons_val_zero, Matrix.cons_val_one, Matrix.head_cons]
    rw [e3, e2]
    constructor
    · rw [div_eq_div_iff hD hdet]; ring
    · rw [div_eq_div_iff hD hdet]; ring

theorem solveDenominators_ne_zero (A : Fin 2 → Fin 2 → ℚ) (hdet : det2 A ≠ 0) :
    (solveDenominators A).1 ≠ 0 ∧ (solveDenominators A).2 ≠ 0 := by
  unfold solveDenominators
  unfold det2 at hdet
  by_cases h : |A 0 0| > |A 1 0|
  · have h00 := pivot_ne_zero_of_gt A h
    rw [if_pos h]
    refine ⟨?_, h00⟩
    show A 1 1 - A 0 1 * (A 1 0 / A 0 0) ≠ 0
    rw [(eliminate_with_pivot (A 0 0) (A 0 1) (A 1 0) (A 1 1) 0 0 h00 hdet).1]
    exact div_ne_zero hdet h00
  · have h10 := pivot_ne_zero_of_le A h hdet
    have hD : A 1 0 * A 0 1 - A 1 1 * A 0 0 ≠ 0 := by
      intro hz
      apply hdet
      linarith
    rw [if_neg h]
    refine ⟨?_, h10⟩
    show A 0 1 - A 1 1 * (A 0 0 / A 1 0) ≠ 0
    rw [(eliminate_with_pivot (A 1 0) (A 1 1) (A 0 0) (A 0 1) 0 0 h10 hD).1]
    exact div_ne_zero hD h10

/-- C14: over exact rational arithmetic, for every 2x2 matrix `A` with non-zero
determinant and every right-hand side `b`, the vector `x` that `solve2by2` leaves
in `b` satisfies `A*x = b` and is the only such vector; this covers both pivoting
branches, and the divisors of either branch (the pivot, and the reduced diagonal
entry `a22` or `a12`) are not zero. -/
theorem solve2by2_exact (s : DiagState) (A : Fin 2 → Fin 2 → ℚ) (b : Fin 2 → ℚ)
    (hdet : det2 A ≠ 0) :
    A 0 0 * (solve2by2 s A b).2 0 + A 0 1 * (solve2by2 s A b).2 1 = b 0 ∧
    A 1 0 * (solve2by2 s A b).2 0 + A 1 1 * (solve2by2 s A b).2 1 = b 1 ∧
    (∀ y : Fin 2 → ℚ, A 0 0 * y 0 + A 0 1 * y 1 = b 0 → A 1 0 * y 0 + A 1 1 * y 1 = b 1 →
      y 0 = (solve2by2 s A b).2 0 ∧ y 1 = (solve2by2 s A b).2 1) ∧
    (|A 0 0| > |A 1 0| → A 0 0 ≠ 0 ∧ A 1 1 - A 0 1 * (A 1 0 / A 0 0) ≠ 0) ∧
    (¬ |A 0 0| > |A 1 0| → A 1 0 ≠ 0 ∧ A 0 1 - A 1 1 * (A 0 0 / A 1 0) ≠ 0) := by
  obtain ⟨e0, e1⟩ := solve2by2_cramer s A b hdet
  have hden := solveDenominators_ne_zero A hdet
  rw [e0, e1]
  have hD : A 0 0 * A 1 1 - A 0 1 * A 1 0 ≠ 0 := hdet
  unfold det2
  refine ⟨?_, ?_, ?_, ?_, ?_⟩
  · field_simp
    ring
  · field_simp
    ring
  · intro y h0 h1
    constructor
    · rw [eq_div_iff hD, ← h0, ← h1]
      ring
    · rw [eq_div_iff hD, ← h0, ← h1]
      ring
  · intro h
    unfold solveDenominators at hden
    rw [if_pos h] at hden
    exact ⟨hden.2, hden.1⟩
  · intro h
    unfold solveDenominators at hden
    rw [if_neg h] at hden
    exact ⟨hden.2, hden.1⟩

/-- Instance of `solve2by2_exact` that takes the second pivoting branch:
`A = [[1, 2], [3, 4]]`, `b = [5, 6]`, solution `[-4, 9/2]`. -/
theorem solve2by2_exact_witness :
    det2 ![![1, 2], ![3, 4]] ≠ 0 ∧
    (1 : ℚ) * (solve2by2 DiagState.initial ![![1, 2], ![3, 4]] ![5, 6]).2 0 +
      2 * (solve2by2 DiagState.initial ![![1, 2], ![3, 4]] ![5, 6]).2 1 = 5 :=
  ⟨by decide!, (solve2by2_exact DiagState.initial ![![1, 2], ![3, 4]] ![5, 6] (by decide!)).1⟩

theorem solveDenominators_singular (A : Fin 2 → Fin 2 → ℚ) (hdet : det2 A = 0) :
    (solveDenominators A).1 = 0 ∨ (solveDenominators A).2 = 0 := by
  unfold solveDenominators
  unfold det2 at hdet
  by_cases h : |A 0 0| > |A 1 0|
  · have h00 := pivot_ne_zero_of_gt A h
    rw [if_pos h]
    left
    show A 1 1 - A 0 1 * (A 1 0 / A 0 0) = 0
    field_simp
    linarith
  · rw [if_neg h]
    by_cases h10 : A 1 0 = 0
    · right
      exact h10
    · left
      show A 0 1 - A 1 1 * (A 0 0 / A 1 0) = 0
      field_simp
      linarith

theorem singularTol_pos : 0 < singularTol := by
  unfold singularTol
  rw [rnd_exact]
  positivity

/-- C19: over exact rational arithmetic, for every 2x2 matrix `A` with
determinant exactly zero and every right-hand side, one of the two denominators
that `solve2by2` passes to `checkSingular` is zero, in either pivoting branch, so
the warning condition of `checkSingular` holds: the latch is set on return, and
the warning is printed if the latch was clear. -/
theorem singular_system_flagged (s : DiagState) (A : Fin 2 → Fin 2 → ℚ) (b : Fin 2 → ℚ)
    (hdet : det2 A = 0) :
    ((solveDenominators A).1 = 0 ∨ (solveDenominators A).2 = 0) ∧
    (|(solveDenominators A).1| < singularTol ∨ |(solveDenominators A).2| < singularTol) ∧
    (|A 0 0| > |A 1 0| → A 1 1 - A 0 1 * (A 1 0 / A 0 0) = 0) ∧
    (¬ |A 0 0| > |A 1 0| → A 0 1 - A 1 1 * (A 0 0 / A 1 0) = 0 ∨ A 1 0 = 0) ∧
    (solve2by2 s A b).1.hasAlreadyWarned = true ∧
    (s.hasAlreadyWarned = false →
      (solve2by2 s A b).1.emitted = s.emitted ++ [Warning.singular]) := by
  have hz := solveDenominators_singular A hdet
  have htol : |(solveDenominators A).1| < singularTol ∨
      |(solveDenominators A).2| < singularTol := by
    rcases hz with h | h
    · left; rw [h, abs_zero]; exact singularTol_pos
    · right; rw [h, abs_zero]; exact singularTol_pos
  refine ⟨hz, htol, ?_, ?_, ?_, ?_⟩
  · intro h
    have h00 := pivot_ne_zero_of_gt A h
    unfold solveDenominators at hz
    rw [if_pos h] at hz
    rcases hz with h1 | h1
    · exact h1
    · exact absurd h1 h00
  · intro h
    unfold solveDenominators at hz
    rw [if_neg h] at hz
    exact hz
  · rw [solve2by2_fst]
    unfold checkSingular
    rw [if_pos htol]
    cases hw : s.hasAlreadyWarned <;> simp [hw]
  · intro hw
    rw [solve2by2_fst]
    unfold checkSingular
    rw [if_pos htol]
    simp [hw]

/-- Instance of `singular_system_flagged`: `A = [[1, 1], [1, 1]]`, the projected
system of a triangle whose plane contains the ray direction. -/
theorem singular_system_flagged_witness :
    det2 ![![1, 1], ![1, 1]] = 0 ∧
    (solve2by2 DiagState.initial ![![1, 1], ![1, 1]] ![1/2, 1/3]).1.hasAlreadyWarned = true :=
  ⟨by decide!,
    (singular_system_flagged DiagState.initial ![![1, 1], ![1, 1]] ![1/2, 1/3]
      (by decide!)).2.2.2.2.1⟩

/-! ## The parity scan against the count of crossings below -/

theorem passedCount_eq_filter (v : ℚ) (C : List ℚ) (hC : C.Sorted (· ≤ ·)) :
    passedCount v C = (C.filter (fun c => decide (c < v))).length := by
  induction C with
  | nil => rfl
  | cons c cs ih =>
    have hcs : cs.Sorted (· ≤ ·) := hC.of_cons
    unfold passedCount
    by_cases h : c < v
    · rw [if_pos h, List.filter_cons_of_pos (by simpa using h), List.length_cons, ih hcs]
    · rw [if_neg h, List.filter_cons_of_neg (by simpa using h)]
      have hall : ∀ a ∈ cs, ¬ (decide (a < v) = true) := by
        intro a ha
        have hca : c ≤ a := List.rel_of_sorted_cons hC a ha
        rw [decide_eq_true_eq]
        exact not_lt.mpr ((not_lt.mp h).trans hca)
      rw [List.filter_eq_nil_iff.mpr hall]
      rfl

theorem passCrossings_le (C : List ℚ) (v : ℚ) (fuel cp : ℕ) (b : Bool) (h : cp ≤ C.length) :
    (passCrossings C v fuel cp b).1 ≤ C.length := by
  induction fuel generalizing cp b with
  | zero => exact h
  | succ n ih =>
    unfold passCrossings
    by_cases hc : cp < C.length ∧ C.getD cp 0 < v
    · rw [if_pos hc]
      exact ih (cp + 1) (!b) hc.1
    · rw [if_neg hc]
      exact h

theorem scan_counter_le (C ray : List ℚ) (steps : Fin 3 → ℕ) (i j m : ℕ) :
    ((List.range m).foldl (scanStep C ray steps i j) ⟨false, 0, []⟩).crossingsPassed ≤
      C.length := by
  induction m with
  | zero => exact Nat.zero_le _
  | succ n ih =>
    rw [List.range_succ, List.foldl_append, List.foldl_cons, List.foldl_nil]
    generalize List.foldl (scanStep C ray steps i j) ⟨false, 0, []⟩ (List.range n) = st at ih ⊢
    exact passCrossings_le C _ _ _ _ ih

theorem isOdd_iff (n : ℕ) : isOdd n = true ↔ Odd n := by
  unfold isOdd
  rw [Nat.odd_iff]
  simp

/-- C12: for a crossing list sorted ascending and ray coordinates sorted
ascending, the scan loop of `insidePolyhedron` records every ray position `k`
exactly once, in order, and the value recorded for `k` is `true` exactly when the
number of crossings strictly less than the `k`-th ray coordinate is odd; after
any number of ray positions the consumed-crossings counter is at most the number
of crossings. -/
theorem parity_scan_counts_crossings_below (crossings ray : List ℚ) (dimSteps : Fin 3 → ℕ)
    (i j : ℕ) (hC : crossings.Sorted (· ≤ ·)) (hR : ray.Sorted (· ≤ ·)) :
    scanRay crossings ray ray.length dimSteps i j =
      (List.range ray.length).map (fun k => (writeIndex dimSteps i j k,
        decide (Odd (crossings.filter (fun c => decide (c < ray.getD k 0))).length))) ∧
    (∀ m, ((List.range m).foldl (scanStep crossings ray dimSteps i j)
      ⟨false, 0, []⟩).crossingsPassed ≤ crossings.length) := by
  refine ⟨?_, fun m => scan_counter_le crossings ray dimSteps i j m⟩
  rw [scanRay_eq crossings ray dimSteps i j hR ray.length (le_refl _)]
  apply List.map_congr_left
  intro k _
  rw [passedCount_eq_filter _ _ hC]
  congr 1
  rw [Bool.eq_iff_iff, isOdd_iff, decide_eq_true_eq]

/-- Instance of `parity_scan_counts_crossings_below`: crossings `[0, 1]`, ray
coordinates `[-1, 1/2, 2]`; the recorded values are `false, true, false`. -/
theorem parity_scan_counts_crossings_below_witness :
    [(0 : ℚ), 1].Sorted (· ≤ ·) ∧ [(-1 : ℚ), 1/2, 2].Sorted (· ≤ ·) ∧
    (scanRay [0, 1] [-1, 1/2, 2] 3 ![1, 1, 1] 0 0).map Prod.snd = [false, true, false] := by
  refine ⟨by decide!, by decide!, ?_⟩
  have h := (parity_scan_counts_crossings_below [0, 1] [-1, 1/2, 2] ![1, 1, 1] 0 0
    (by decide!) (by decide!)).1
  rw [show ([(-1 : ℚ), 1/2, 2]).length = 3 from rfl] at h
  rw [h]
  decide!

/-! ## The layout for self-inverse orders is a bijection -/

theorem pointIndex_eq_of_selfInverse (nx ny nz i j k : ℕ) (h : SelfInverseOrder nx ny nz) :
    pointIndex nx ny nz i j k = i * ny + j + k * nx * ny := by
  unfold pointIndex writeIndex
  unfold SelfInverseOrder at h
  rcases gridDims_cases nx ny nz with ⟨-, -, c, -, e⟩ | ⟨-, -, c, -, e⟩ | ⟨-, -, c, -, e⟩ |
    ⟨-, -, c, -, e⟩ | ⟨-, -, c, -, e⟩ | ⟨-, -, c, -, e⟩
  · rw [c, e]; simp; ring
  · rw [c, e]; simp; ring
  · rw [c, e]; simp; ring
  · rw [c, e]; simp; ring
  · have := h 0
    rw [c] at this
    simp at this
  · have := h 0
    rw [c] at this
    simp at this

theorem meshgrid_index_lt (nx ny nz i j k : ℕ) (hi : i < nx) (hj : j < ny) (hk : k < nz) :
    i * ny + j + k * nx * ny < nx * ny * nz := by
  have h1 : i * ny + j < nx * ny := by
    calc i * ny + j < i * ny + ny := by omega
      _ = (i + 1) * ny := by ring
      _ ≤ nx * ny := Nat.mul_le_mul_right _ hi
  have h2 : (k + 1) * (nx * ny) ≤ nz * (nx * ny) := Nat.mul_le_mul_right _ hk
  calc i * ny + j + k * nx * ny < nx * ny + k * nx * ny := by omega
    _ = (k + 1) * (nx * ny) := by ring
    _ ≤ nz * (nx * ny) := h2
    _ = nx * ny * nz := by ring

theorem meshgrid_index_surj (nx ny nz n : ℕ) (hn : n < nx * ny * nz) :
    ∃ i j k, i < nx ∧ j < ny ∧ k < nz ∧ i * ny + j + k * nx * ny = n := by
  have hny : 0 < ny := by
    rcases Nat.eq_zero_or_pos ny with h | h
    · rw [h] at hn; simp at hn
    · exact h
  have hnx : 0 < nx := by
    rcases Nat.eq_zero_or_pos nx with h | h
    · rw [h] at hn; simp at hn
    · exact h
  have hq : n / ny < nx * nz := by
    apply Nat.div_lt_of_lt_mul
    calc n < nx * ny * nz := hn
      _ = ny * (nx * nz) := by ring
  refine ⟨(n / ny) % nx, n % ny, (n / ny) / nx, Nat.mod_lt _ hnx, Nat.mod_lt _ hny,
    Nat.div_lt_of_lt_mul hq, ?_⟩
  have e1 : n / ny = nx * ((n / ny) / nx) + (n / ny) % nx := (Nat.div_add_mod _ _).symm
  have e2 : n = ny * (n / ny) + n % ny := (Nat.div_add_mod _ _).symm
  calc (n / ny) % nx * ny + n % ny + (n / ny) / nx * nx * ny
      = ny * (nx * ((n / ny) / nx) + (n / ny) % nx) + n % ny := by ring
    _ = ny * (n / ny) + n % ny := by rw [← e1]
    _ = n := e2.symm

/-- C18: for every grid shape whose axis order chosen by
`selectDimensionsForFastestProcessing` is its own inverse (the identity or a swap
of two axes), the flat index written for grid point `(x[i], y[j], z[k])` is
`i*ny + j + k*nx*ny`, and this map is a bijection from the grid onto the indices
`0 .. nx*ny*nz - 1`: it stays below `nx*ny*nz`, is injective on the grid, and
reaches every index below `nx*ny*nz`. -/
theorem meshgrid_layout_bijective (nx ny nz : ℕ) (h : SelfInverseOrder nx ny nz) :
    (∀ i j k, pointIndex nx ny nz i j k = i * ny + j + k * nx * ny) ∧
    (∀ i j k, i < nx → j < ny → k < nz → pointIndex nx ny nz i j k < nx * ny * nz) ∧
    (∀ i j k i' j' k', i < nx → j < ny → k < nz → i' < nx → j' < ny → k' < nz →
      pointIndex nx ny nz i j k = pointIndex nx ny nz i' j' k' → i = i' ∧ j = j' ∧ k = k') ∧
    (∀ n, n < nx * ny * nz →
      ∃ i j k, i < nx ∧ j < ny ∧ k < nz ∧ pointIndex nx ny nz i j k = n) := by
  have hp := fun i j k => pointIndex_eq_of_selfInverse nx ny nz i j k h
  refine ⟨hp, ?_, ?_, ?_⟩
  · intro i j k hi hj hk
    rw [hp]
    exact meshgrid_index_lt nx ny nz i j k hi hj hk
  · intro i j k i' j' k' hi hj _ hi' hj' _ he
    rw [hp, hp] at he
    exact mixedRadix_inj nx ny i j k i' j' k' hi hj hi' hj' (by linarith)
  · intro n hn
    obtain ⟨i, j, k, hi, hj, hk, e⟩ := meshgrid_index_surj nx ny nz n hn
    exact ⟨i, j, k, hi, hj, hk, (hp i j k).trans e⟩

/-- Instance of `meshgrid_layout_bijective` on the shape `(2, 4, 3)`, whose order
swaps the y and z axes. -/
theorem meshgrid_layout_bijective_witness :
    SelfInverseOrder 2 4 3 ∧ (gridDims 2 4 3).dimOrder = ![0, 2, 1] ∧
    pointIndex 2 4 3 1 3 2 = 1 * 4 + 3 + 2 * 2 * 4 :=
  ⟨by decide, by decide, (meshgrid_layout_bijective 2 4 3 (by decide)).1 1 3 2⟩

/-! ## End-to-end characterisation in the natural order -/

theorem rayFaces_eq_filter (faces : nBy3By3Array) (x y z : List ℚ) (i j : ℕ) :
    rayFaces faces x y z i j =
      (faces.filter (faceStraddles (rayCoords x y z i j 0)
        ((gridDims x.length y.length z.length).dimOrder 0))).filter
        (faceStraddles (rayCoords x y z i j 1)
          ((gridDims x.length y.length z.length).dimOrder 1)) := by
  unfold rayFaces
  rw [selectFaces_secondFilter, selectFaces_firstFilter]

/-- The value left for an in-range loop position when the array starts all
`false`, for a self-inverse order and ascending ray coordinates. -/
theorem run_value_from_false [Rounding] (s : DiagState) (faces : nBy3By3Array) (x y z : List ℚ)
    (i j k : ℕ) (hord : SelfInverseOrder x.length y.length z.length)
    (hs : (![x, y, z] ((gridDims x.length y.length z.length).dimOrder 2)).Sorted (· ≤ ·))
    (hlen : (gridDims x.length y.length z.length).dimSize 2 ≤
      (![x, y, z] ((gridDims x.length y.length z.length).dimOrder 2)).length)
    (hi : i < (gridDims x.length y.length z.length).dimSize 0)
    (hj : j < (gridDims x.length y.length z.length).dimSize 1)
    (hk : k < (gridDims x.length y.length z.length).dimSize 2) :
    (insidePolyhedron s (fun _ => false) faces x y z).2
        (writeIndex (gridDims x.length y.length z.length).dimStep i j k) =
      isOdd (passedCount ((![x, y, z]
        ((gridDims x.length y.length z.length).dimOrder 2)).getD k 0)
        (rayCrossings faces x y z i j)) := by
  have hinj := fun i' j' k' hi' hj' hk' he =>
    writeIndex_inj x.length y.length z.length hord i' j' k' i j k hi' hj' hk' hi hj hk he
  by_cases hC : rayCrossings faces x y z i j = []
  · rw [run_value_no_crossings s _ faces x y z i j k hinj hC, hC]
    rfl
  · exact run_value_crossings s _ faces x y z i j k hs hlen hi hj hk hinj hC

theorem perm3_cases (σ : Equiv.Perm (Fin 3)) :
    (σ 0 = 0 ∧ σ 1 = 1 ∧ σ 2 = 2) ∨ (σ 0 = 0 ∧ σ 1 = 2 ∧ σ 2 = 1) ∨
    (σ 0 = 1 ∧ σ 1 = 0 ∧ σ 2 = 2) ∨ (σ 0 = 1 ∧ σ 1 = 2 ∧ σ 2 = 0) ∨
    (σ 0 = 2 ∧ σ 1 = 0 ∧ σ 2 = 1) ∨ (σ 0 = 2 ∧ σ 1 = 1 ∧ σ 2 = 0) := by
  have key : ∀ a b c : Fin 3, a ≠ b → a ≠ c → b ≠ c →
      (a = 0 ∧ b = 1 ∧ c = 2) ∨ (a = 0 ∧ b = 2 ∧ c = 1) ∨
      (a = 1 ∧ b = 0 ∧ c = 2) ∨ (a = 1 ∧ b = 2 ∧ c = 0) ∨
      (a = 2 ∧ b = 0 ∧ c = 1) ∨ (a = 2 ∧ b = 1 ∧ c = 0) := by decide
  exact key (σ 0) (σ 1) (σ 2) (σ.injective.ne (by decide)) (σ.injective.ne (by decide))
    (σ.injective.ne (by decide))

theorem faceMin_permuteVertices (σ : Equiv.Perm (Fin 3)) (f : Face) :
    faceMin (permuteVertices σ f) = faceMin f := by
  funext dim
  rw [faceMin_eq_min, faceMin_eq_min]
  unfold permuteVertices
  rcases perm3_cases σ with ⟨a, b, c⟩ | ⟨a, b, c⟩ | ⟨a, b, c⟩ | ⟨a, b, c⟩ | ⟨a, b, c⟩ |
    ⟨a, b, c⟩ <;> rw [a, b, c] <;> simp only [min_comm, min_left_comm, min_assoc]

theorem faceMax_permuteVertices (σ : Equiv.Perm (Fin 3)) (f : Face) :
    faceMax (permuteVertices σ f) = faceMax f := by
  funext dim
  rw [faceMax_eq_max, faceMax_eq_max]
  unfold permuteVertices
  rcases perm3_cases σ with ⟨a, b, c⟩ | ⟨a, b, c⟩ | ⟨a, b, c⟩ | ⟨a, b, c⟩ | ⟨a, b, c⟩ |
    ⟨a, b, c⟩ <;> rw [a, b, c] <;> simp only [max_comm, max_left_comm, max_assoc]

/-- Permuting the vertices multiplies the determinant and every weight numerator
by the sign of the permutation, and permutes the numerators. -/
theorem weightNum_permuteVertices (σ : Equiv.Perm (Fin 3)) (f : Face) (coords : Fin 2 → ℚ)
    (dimOrder : Fin 3 → Fin 3) :
    ∃ ε : ℚ, ε ≠ 0 ∧
      det2 (crossingMatrix (permuteVertices σ f) dimOrder) =
        ε * det2 (crossingMatrix f dimOrder) ∧
      ∀ v, weightNum (permuteVertices σ f) coords dimOrder v =
        ε * weightNum f coords dimOrder (σ v) := by
  rcases perm3_cases σ with ⟨a, b, c⟩ | ⟨a, b, c⟩ | ⟨a, b, c⟩ | ⟨a, b, c⟩ | ⟨a, b, c⟩ |
    ⟨a, b, c⟩
  · refine ⟨1, by norm_num, ?_, ?_⟩
    · simp only [det2, crossingMatrix, fsub_exact, permuteVertices, a, b, c, Matrix.cons_val_zero,
        Matrix.cons_val_one, Matrix.head_cons]; ring
    · intro v
      fin_cases v <;>
      simp [det2, weightNum, crossingMatrix, crossingRhs, fsub_exact, permuteVertices, a, b, c]
  · refine ⟨-1, by norm_num, ?_, ?_⟩
    · simp only [det2, crossingMatrix, fsub_exact, permuteVertices, a, b, c, Matrix.cons_val_zero,
        Matrix.cons_val_one, Matrix.head_cons]; ring
    · intro v
      fin_cases v <;>
      simp [det2, weightNum, crossingMatrix, crossingRhs, fsub_exact, permuteVertices, a, b, c] <;> ring
  · refine ⟨-1, by norm_num, ?_, ?_⟩
    · simp only [det2, crossingMatrix, fsub_exact, permuteVertices, a, b, c, Matrix.cons_val_zero,
        Matrix.cons_val_one, Matrix.head_cons]; ring
    · intro v
      fin_cases v <;>
      simp [det2, weightNum, crossingMatrix, crossingRhs, fsub_exact, permuteVertices, a, b, c] <;> ring
  · refine ⟨1, by norm_num, ?_, ?_⟩
    · simp only [det2, crossingMatrix, fsub_exact, permuteVertices, a, b, c, Matrix.cons_val_zero,
        Matrix.cons_val_one, Matrix.head_cons]; ring
    · intro v
      fin_cases v <;>
      simp [det2, weightNum, crossingMatrix, crossingRhs, fsub_exact, permuteVertices, a, b, c] <;> ring
  · refine ⟨1, by norm_num, ?_, ?_⟩
    · simp only [det2, crossingMatrix, fsub_exact, permuteVertices, a, b, c, Matrix.cons_val_zero,
        Matrix.cons_val_one, Matrix.head_cons]; ring
    · intro v
      fin_cases v <;>
      simp [det2, weightNum, crossingMatrix, crossingRhs, fsub_exact, permuteVertices, a, b, c] <;> ring
  · refine ⟨-1, by norm_num, ?_, ?_⟩
    · simp only [det2, crossingMatrix, fsub_exact, permuteVertices, a, b, c, Matrix.cons_val_zero,
        Matrix.cons_val_one, Matrix.head_cons]; ring
    · intro v
      fin_cases v <;>
      simp [det2, weightNum, crossingMatrix, crossingRhs, fsub_exact, permuteVertices, a, b, c] <;> ring

theorem vertexWeight_eq_div (f : Face) (coords : Fin 2 → ℚ) (dimOrder : Fin 3 → Fin 3)
    (hdet : det2 (crossingMatrix f dimOrder) ≠ 0) (v : Fin 3) :
    vertexWeight f coords dimOrder v =
      weightNum f coords dimOrder v / det2 (crossingMatrix f dimOrder) := by
  obtain ⟨e0, e1⟩ := solve2by2_cramer DiagState.initial (crossingMatrix f dimOrder)
    (crossingRhs f coords dimOrder) hdet
  unfold vertexWeight weightNum solveParams
  rw [e0, e1]
  fin_cases v
  · simp only [Fin.zero_eta, Matrix.cons_val_zero]
    field_simp
  · rfl
  · rfl

theorem vertexWeight_permuteVertices (σ : Equiv.Perm (Fin 3)) (f : Face) (coords : Fin 2 → ℚ)
    (dimOrder : Fin 3 → Fin 3) (hdet : det2 (crossingMatrix f dimOrder) ≠ 0) (v : Fin 3) :
    vertexWeight (permuteVertices σ f) coords dimOrder v =
      vertexWeight f coords dimOrder (σ v) := by
  obtain ⟨ε, hε, hD, hN⟩ := weightNum_permuteVertices σ f coords dimOrder
  have hdet' : det2 (crossingMatrix (permuteVertices σ f) dimOrder) ≠ 0 := by
    rw [hD]
    exact mul_ne_zero hε hdet
  rw [vertexWeight_eq_div _ _ _ hdet', vertexWeight_eq_div _ _ _ hdet, hD, hN,
    mul_div_mul_left _ _ hε]

theorem accepts_iff_weights (f : Face) (coords : Fin 2 → ℚ) (dimOrder : Fin 3 → Fin 3) :
    accepts f coords dimOrder = true ↔ ∀ v, vertexWeight f coords dimOrder v > 0 := by
  unfold accepts vertexWeight
  rw [decide_eq_true_eq, fadd_exact]
  constructor
  · rintro ⟨h0, h1, h2⟩ v
    fin_cases v
    · simp only [Fin.zero_eta, Matrix.cons_val_zero]; linarith
    · exact h0
    · exact h1
  · intro h
    have h0 := h 0
    have h1 := h 1
    have h2 := h 2
    simp only [Matrix.cons_val_zero, Matrix.cons_val_one, Matrix.head_cons,
      Matrix.cons_val_two, Matrix.tail_cons] at h0 h1 h2
    exact ⟨h1, h2, by linarith⟩

theorem crossingValue_eq_sum (f : Face) (coords : Fin 2 → ℚ) (dimOrder : Fin 3 → Fin 3)
    (dim2 : Fin 3) :
    crossingValue f (solveParams f coords dimOrder) dim2 =
      ∑ v : Fin 3, vertexWeight f coords dimOrder v * f v dim2 := by
  rw [Fin.sum_univ_three]
  unfold crossingValue vertexWeight
  simp only [fadd_exact, fsub_exact, fmul_exact, Matrix.cons_val_zero, Matrix.cons_val_one, Matrix.head_cons,
    Matrix.cons_val_two, Matrix.tail_cons]
  ring

theorem accepts_permuteVertices (σ : Equiv.Perm (Fin 3)) (f : Face) (coords : Fin 2 → ℚ)
    (dimOrder : Fin 3 → Fin 3) (hdet : det2 (crossingMatrix f dimOrder) ≠ 0) :
    accepts (permuteVertices σ f) coords dimOrder = accepts f coords dimOrder := by
  rw [Bool.eq_iff_iff, accepts_iff_weights, accepts_iff_weights]
  simp only [vertexWeight_permuteVertices σ f coords dimOrder hdet]
  exact ⟨fun h v => by simpa using h (σ.symm v), fun h v => h (σ v)⟩

theorem crossingValue_permuteVertices (σ : Equiv.Perm (Fin 3)) (f : Face)
    (coords : Fin 2 → ℚ) (dimOrder : Fin 3 → Fin 3)
    (hdet : det2 (crossingMatrix f dimOrder) ≠ 0) (dim2 : Fin 3) :
    crossingValue (permuteVertices σ f) (solveParams (permuteVertices σ f) coords dimOrder)
        dim2 =
      crossingValue f (solveParams f coords dimOrder) dim2 := by
  rw [crossingValue_eq_sum, crossingValue_eq_sum]
  simp only [vertexWeight_permuteVertices σ f coords dimOrder hdet]
  exact Equiv.sum_comp σ (fun v => vertexWeight f coords dimOrder v * f v dim2)

theorem acceptedCrossing_permuteVertices (σ : Equiv.Perm (Fin 3)) (f : Face)
    (coords : Fin 2 → ℚ) (dimOrder : Fin 3 → Fin 3)
    (hdet : det2 (crossingMatrix f dimOrder) ≠ 0) :
    acceptedCrossing coords dimOrder (permuteVertices σ f) =
      acceptedCrossing coords dimOrder f := by
  unfold acceptedCrossing
  rw [accepts_permuteVertices σ f coords dimOrder hdet,
    crossingValue_permuteVertices σ f coords dimOrder hdet]

theorem faceStraddles_permuteVertices (value : ℚ) (dim : Fin 3) (σ : Equiv.Perm (Fin 3))
    (f : Face) : faceStraddles value dim (permuteVertices σ f) = faceStraddles value dim f := by
  unfold faceStraddles
  rw [faceMin_permuteVertices, faceMax_permuteVertices]

theorem filter_straddles_reorient (value : ℚ) (dim : Fin 3)
    (ps : List (Face × Equiv.Perm (Fin 3))) :
    (ps.filter (fun p => faceStraddles value dim p.1)).map
        (fun p => permuteVertices p.2 p.1) =
      (ps.map (fun p => permuteVertices p.2 p.1)).filter (faceStraddles value dim) ∧
    (ps.filter (fun p => faceStraddles value dim p.1)).map Prod.fst =
      (ps.map Prod.fst).filter (faceStraddles value dim) := by
  constructor
  · rw [List.filter_map]
    congr 1
    apply List.filter_congr
    intro p _
    exact (faceStraddles_permuteVertices value dim p.2 p.1).symm
  · rw [List.filter_map]
    rfl

/-- Both meshes have the same candidates, up to the vertex order of each. -/
theorem rayFaces_reorient (ps : List (Face × Equiv.Perm (Fin 3))) (x y z : List ℚ)
    (i j : ℕ) :
    ∃ qs : List (Face × Equiv.Perm (Fin 3)),
      rayFaces (reorient ps) x y z i j = qs.map (fun p => permuteVertices p.2 p.1) ∧
      rayFaces (ps.map Prod.fst) x y z i j = qs.map Prod.fst := by
  generalize hc0 : rayCoords x y z i j 0 = c0
  generalize hc1 : rayCoords x y z i j 1 = c1
  generalize hd0 : (gridDims x.length y.length z.length).dimOrder 0 = d0
  generalize hd1 : (gridDims x.length y.length z.length).dimOrder 1 = d1
  have e1 : rayFaces (reorient ps) x y z i j =
      ((reorient ps).filter (faceStraddles c0 d0)).filter (faceStraddles c1 d1) := by
    rw [rayFaces_eq_filter, hc0, hc1, hd0, hd1]
  have e2 : rayFaces (ps.map Prod.fst) x y z i j =
      ((ps.map Prod.fst).filter (faceStraddles c0 d0)).filter (faceStraddles c1 d1) := by
    rw [rayFaces_eq_filter, hc0, hc1, hd0, hd1]
  refine ⟨(ps.filter (fun p => faceStraddles c0 d0 p.1)).filter
      (fun p => faceStraddles c1 d1 p.1), ?_, ?_⟩
  · rw [e1, (filter_straddles_reorient c1 d1 _).1, (filter_straddles_reorient c0 d0 ps).1]
    rfl
  · rw [e2, (filter_straddles_reorient c1 d1 _).2, (filter_straddles_reorient c0 d0 ps).2]

theorem rayCrossings_reorient (ps : List (Face × Equiv.Perm (Fin 3))) (x y z : List ℚ)
    (i j : ℕ)
    (h : ∀ f ∈ rayFaces (ps.map Prod.fst) x y z i j,
      det2 (crossingMatrix f (gridDims x.length y.length z.length).dimOrder) ≠ 0) :
    rayCrossings (reorient ps) x y z i j = rayCrossings (ps.map Prod.fst) x y z i j := by
  obtain ⟨qs, e1, e2⟩ := rayFaces_reorient ps x y z i j
  unfold rayCrossings
  rw [getCrossings_snd, getCrossings_snd, e1, e2]
  rw [e2] at h
  generalize rayCoords x y z i j = c
  generalize (gridDims x.length y.length z.length).dimOrder = o at h ⊢
  have hfm : List.filterMap (acceptedCrossing c o)
        (List.map (fun p => permuteVertices p.2 p.1) qs) =
      List.filterMap (acceptedCrossing c o) (List.map Prod.fst qs) := by
    rw [List.filterMap_map, List.filterMap_map]
    apply List.filterMap_congr
    intro q hq
    have hdet : det2 (crossingMatrix q.1 o) ≠ 0 := h q.1 (List.mem_map_of_mem _ hq)
    show acceptedCrossing c o (permuteVertices q.2 q.1) = acceptedCrossing c o q.1
    exact acceptedCrossing_permuteVertices q.2 q.1 c o hdet
  rw [hfm]

/-- C11: over exact arithmetic, for every mesh and grid in which no candidate
face has a singular projected 2x2 system, replacing faces by any permutation of
their three vertices (for instance reversing the winding) leaves every store and
the whole output array of the core `insidePolyhedron` unchanged; per face, the
bounding box is invariant under the permutation, and so are the acceptance
decision `b0 > 0`, `b1 > 0`, `b0 + b1 < 1` and the crossing coordinate computed
by `getCrossings` when its projected system is not singular. -/
theorem output_independent_of_vertex_order (s : DiagState) (inside : ℕ → Bool)
    (ps : List (Face × Equiv.Perm (Fin 3))) (x y z : List ℚ)
    (hNS : ∀ i, i < (gridDims x.length y.length z.length).dimSize 0 →
      ∀ j, j < (gridDims x.length y.length z.length).dimSize 1 →
      ∀ f ∈ rayFaces (ps.map Prod.fst) x y z i j,
        det2 (crossingMatrix f (gridDims x.length y.length z.length).dimOrder) ≠ 0) :
    (insidePolyhedronRun s (reorient ps) x y z).writes =
      (insidePolyhedronRun s (ps.map Prod.fst) x y z).writes ∧
    (insidePolyhedron s inside (reorient ps) x y z).2 =
      (insidePolyhedron s inside (ps.map Prod.fst) x y z).2 ∧
    (∀ (σ : Equiv.Perm (Fin 3)) (f : Face),
      faceMin (permuteVertices σ f) = faceMin f ∧ faceMax (permuteVertices σ f) = faceMax f) ∧
    (∀ (σ : Equiv.Perm (Fin 3)) (f : Face) (coords : Fin 2 → ℚ) (dimOrder : Fin 3 → Fin 3),
      det2 (crossingMatrix f dimOrder) ≠ 0 →
      (((solve2by2 s (crossingMatrix (permuteVertices σ f) dimOrder)
            (crossingRhs (permuteVertices σ f) coords dimOrder)).2 0 > 0 ∧
          (solve2by2 s (crossingMatrix (permuteVertices σ f) dimOrder)
            (crossingRhs (permuteVertices σ f) coords dimOrder)).2 1 > 0 ∧
          (solve2by2 s (crossingMatrix (permuteVertices σ f) dimOrder)
            (crossingRhs (permuteVertices σ f) coords dimOrder)).2 0 +
          (solve2by2 s (crossingMatrix (permuteVertices σ f) dimOrder)
            (crossingRhs (permuteVertices σ f) coords dimOrder)).2 1 < 1) ↔
        ((solve2by2 s (crossingMatrix f dimOrder) (crossingRhs f coords dimOrder)).2 0 > 0 ∧
          (solve2by2 s (crossingMatrix f dimOrder) (crossingRhs f coords dimOrder)).2 1 > 0 ∧
          (solve2by2 s (crossingMatrix f dimOrder) (crossingRhs f coords dimOrder)).2 0 +
          (solve2by2 s (crossingMatrix f dimOrder) (crossingRhs f coords dimOrder)).2 1 < 1)) ∧
      crossingValue (permuteVertices σ f)
          (solve2by2 s (crossingMatrix (permuteVertices σ f) dimOrder)
            (crossingRhs (permuteVertices σ f) coords dimOrder)).2 (dimOrder 2) =
        crossingValue f
          (solve2by2 s (crossingMatrix f dimOrder) (crossingRhs f coords dimOrder)).2
          (dimOrder 2)) := by
  have hW : (insidePolyhedronRun s (reorient ps) x y z).writes =
      (insidePolyhedronRun s (ps.map Prod.fst) x y z).writes := by
    simp only [insidePolyhedronRun_eq]
    apply List.flatMap_congr
    intro i hi
    apply List.flatMap_congr
    intro j hj
    have hC := rayCrossings_reorient ps x y z i j
      (hNS i (List.mem_range.mp hi) j (List.mem_range.mp hj))
    unfold rayWrites
    rw [hC]
  refine ⟨hW, ?_, ?_, ?_⟩
  · show applyWrites inside (insidePolyhedronRun s (reorient ps) x y z).writes =
      applyWrites inside (insidePolyhedronRun s (ps.map Prod.fst) x y z).writes
    rw [hW]
  · intro σ f
    exact ⟨faceMin_permuteVertices σ f, faceMax_permuteVertices σ f⟩
  · intro σ f coords dimOrder hdet
    have hsolve : ∀ g : Face,
        (solve2by2 s (crossingMatrix g dimOrder) (crossingRhs g coords dimOrder)).2 =
          solveParams g coords dimOrder := fun g => solve2by2_snd s _ _
    simp only [hsolve]
    refine ⟨?_, crossingValue_permuteVertices σ f coords dimOrder hdet (dimOrder 2)⟩
    have ha := accepts_permuteVertices σ f coords dimOrder hdet
    unfold accepts at ha
    rw [Bool.eq_iff_iff, decide_eq_true_eq, decide_eq_true_eq] at ha
    exact ha

/-- Instance of `output_independent_of_vertex_order`: the unit cube with every
winding reversed, on the grid `x = [1/3, 2]`, `y = [1/2, 2]`, `z = [-1, 1/2]`, none
of whose rays meets a singular system. -/
theorem output_independent_of_vertex_order_witness :
    (∀ i, i < (gridDims 2 2 2).dimSize 0 → ∀ j, j < (gridDims 2 2 2).dimSize 1 →
      ∀ f ∈ rayFaces (unitCubeReversed.map Prod.fst) [1/3, 2] [1/2, 2] [-1, 1/2] i j,
        det2 (crossingMatrix f (gridDims 2 2 2).dimOrder) ≠ 0) ∧
    (insidePolyhedronRun DiagState.initial (reorient unitCubeReversed)
      [1/3, 2] [1/2, 2] [-1, 1/2]).writes = [(0, false), (4, true)] :=
  ⟨by decide!,
    (output_independent_of_vertex_order DiagState.initial (fun _ => false) unitCubeReversed
      [1/3, 2] [1/2, 2] [-1, 1/2] (by decide!)).1.trans (by decide!)⟩

/-! ## Grid evaluation against single-point evaluation when the ray axis is z -/

/-- Exchanging the two equations of the system does not change what `solve2by2`
computes, operation for operation, unless the first-column entries tie. -/
theorem solve2by2_swap_rows [Rounding] (s s' : DiagState) (A : Fin 2 → Fin 2 → ℚ)
    (b : Fin 2 → ℚ) (h : |A 0 0| ≠ |A 1 0|) :
    (solve2by2 s ![A 1, A 0] ![b 1, b 0]).2 = (solve2by2 s' A b).2 := by
  unfold solve2by2
  simp only [Matrix.cons_val_zero, Matrix.cons_val_one, Matrix.head_cons]
  by_cases h1 : |A 0 0| > |A 1 0|
  · have h2 : ¬ |A 1 0| > |A 0 0| := not_lt.mpr (le_of_lt h1)
    rw [if_pos h1, if_neg h2]
  · have h2 : |A 1 0| > |A 0 0| := lt_of_le_of_ne (not_lt.mp h1) h
    rw [if_neg h1, if_pos h2]

theorem crossingMatrix_swap_axes [Rounding] (f : Face) :
    crossingMatrix f ![1, 0, 2] =
      ![crossingMatrix f ![0, 1, 2] 1, crossingMatrix f ![0, 1, 2] 0] := by
  funext a c
  fin_cases a <;> fin_cases c <;> rfl

theorem crossingRhs_swap_axes [Rounding] (f : Face) (c0 c1 : ℚ) :
    crossingRhs f ![c1, c0] ![1, 0, 2] =
      ![crossingRhs f ![c0, c1] ![0, 1, 2] 1, crossingRhs f ![c0, c1] ![0, 1, 2] 0] := by
  funext a
  fin_cases a <;> rfl

/-- In exact arithmetic a system with determinant zero yields a parameter that
is zero, so its face fails the test of line 141. -/
theorem solve2by2_singular_zero (s : DiagState) (A : Fin 2 → Fin 2 → ℚ) (b : Fin 2 → ℚ)
    (hdet : det2 A = 0) : (solve2by2 s A b).2 0 = 0 ∨ (solve2by2 s A b).2 1 = 0 := by
  have hd := solveDenominators_singular A hdet
  unfold solveDenominators at hd
  unfold solve2by2
  by_cases h : |A 0 0| > |A 1 0|
  · rw [if_pos h] at hd ⊢
    simp only [Matrix.cons_val_zero, Matrix.cons_val_one, Matrix.head_cons]
    dsimp only at hd
    rcases hd with hd | hd
    · right
      rw [hd, fdiv_exact, div_zero]
    · left
      rw [hd, fdiv_exact, div_zero]
  · rw [if_neg h] at hd ⊢
    simp only [Matrix.cons_val_zero, Matrix.cons_val_one, Matrix.head_cons]
    dsimp only at hd
    rcases hd with hd | hd
    · right
      rw [hd, fdiv_exact, div_zero]
    · left
      rw [hd, fdiv_exact, div_zero]

theorem accepts_of_singular (f : Face) (coords : Fin 2 → ℚ) (dimOrder : Fin 3 → Fin 3)
    (hdet : det2 (crossingMatrix f dimOrder) = 0) : accepts f coords dimOrder = false := by
  unfold accepts solveParams
  rw [decide_eq_false_iff_not]
  rintro ⟨h0, h1, -⟩
  rcases solve2by2_singular_zero DiagState.initial (crossingMatrix f dimOrder)
    (crossingRhs f coords dimOrder) hdet with h | h
  · exact absurd h (ne_of_gt h0)
  · exact absurd h (ne_of_gt h1)

/-- In exact arithmetic the solved parameters do not depend on which of the
two equations comes first. -/
theorem solveParams_swap_axes_exact (f : Face) (c0 c1 : ℚ)
    (hdet : det2 (crossingMatrix f ![0, 1, 2]) ≠ 0) :
    solveParams f ![c1, c0] ![1, 0, 2] = solveParams f ![c0, c1] ![0, 1, 2] := by
  have hdet' : det2 (crossingMatrix f ![1, 0, 2]) ≠ 0 := by
    intro h
    apply hdet
    rw [crossingMatrix_swap_axes] at h
    unfold det2 at h ⊢
    simp only [Matrix.cons_val_zero, Matrix.cons_val_one, Matrix.head_cons] at h
    linarith
  obtain ⟨e0, e1⟩ := solve2by2_cramer DiagState.initial (crossingMatrix f ![0, 1, 2])
    (crossingRhs f ![c0, c1] ![0, 1, 2]) hdet
  obtain ⟨e0', e1'⟩ := solve2by2_cramer DiagState.initial (crossingMatrix f ![1, 0, 2])
    (crossingRhs f ![c1, c0] ![1, 0, 2]) hdet'
  unfold solveParams
  funext a
  fin_cases a
  · show (solve2by2 _ _ _).2 0 = (solve2by2 _ _ _).2 0
    rw [e0, e0', div_eq_div_iff hdet' hdet, crossingMatrix_swap_axes, crossingRhs_swap_axes]
    unfold det2
    simp only [Matrix.cons_val_zero, Matrix.cons_val_one, Matrix.head_cons]
    ring
  · show (solve2by2 _ _ _).2 1 = (solve2by2 _ _ _).2 1
    rw [e1, e1', div_eq_div_iff hdet' hdet, crossingMatrix_swap_axes, crossingRhs_swap_axes]
    unfold det2
    simp only [Matrix.cons_val_zero, Matrix.cons_val_one, Matrix.head_cons]
    ring

theorem acceptedCrossing_of_solveParams [Rounding] (f : Face) (c c' : Fin 2 → ℚ)
    (o o' : Fin 3 → Fin 3) (h : solveParams f c o = solveParams f c' o') (h2 : o 2 = o' 2) :
    acceptedCrossing c o f = acceptedCrossing c' o' f := by
  unfold acceptedCrossing accepts
  rw [h, h2]

theorem acceptedCrossing_swap_axes_exact (f : Face) (c0 c1 : ℚ) :
    acceptedCrossing ![c1, c0] ![1, 0, 2] f = acceptedCrossing ![c0, c1] ![0, 1, 2] f := by
  by_cases hdet : det2 (crossingMatrix f ![0, 1, 2]) = 0
  · have hdet' : det2 (crossingMatrix f ![1, 0, 2]) = 0 := by
      rw [crossingMatrix_swap_axes]
      unfold det2 at hdet ⊢
      simp only [Matrix.cons_val_zero, Matrix.cons_val_one, Matrix.head_cons]
      linarith
    unfold acceptedCrossing
    rw [accepts_of_singular f _ _ hdet, accepts_of_singular f _ _ hdet']
    simp
  · exact acceptedCrossing_of_solveParams f ![c1, c0] ![c0, c1] ![1, 0, 2] ![0, 1, 2]
      (solveParams_swap_axes_exact f c0 c1 hdet) rfl

theorem rounding_eq_exact (R : Rounding) (h : ∀ q, R.rnd q = q) : R = exactArithmetic := by
  cases R with
  | mk r =>
    have hr : r = fun q => q := funext h
    subst hr
    rfl

/-- The crossing a face contributes to the ray through `(c0, c1)` along z is the
same whether the scheduler puts x or y first, in exact arithmetic and, under
any rounding, when the first-column entries of its system do not tie. -/
theorem acceptedCrossing_swap_axes [R : Rounding] (f : Face) (c0 c1 : ℚ)
    (h : (∀ q, Rounding.rnd q = q) ∨ |fsub (f 1 0) (f 0 0)| ≠ |fsub (f 1 1) (f 0 1)|) :
    acceptedCrossing ![c1, c0] ![1, 0, 2] f = acceptedCrossing ![c0, c1] ![0, 1, 2] f := by
  rcases h with h | h
  · have hR := rounding_eq_exact R h
    subst hR
    exact acceptedCrossing_swap_axes_exact f c0 c1
  · refine acceptedCrossing_of_solveParams f ![c1, c0] ![c0, c1] ![1, 0, 2] ![0, 1, 2] ?_ rfl
    have h' : |crossingMatrix f ![0, 1, 2] 0 0| ≠ |crossingMatrix f ![0, 1, 2] 1 0| := h
    have hs := solve2by2_swap_rows DiagState.initial DiagState.initial
      (crossingMatrix f ![0, 1, 2]) (crossingRhs f ![c0, c1] ![0, 1, 2]) h'
    unfold solveParams
    rw [crossingMatrix_swap_axes, crossingRhs_swap_axes]
    exact hs

theorem gridDims_swapped (nx ny nz : ℕ) (h1 : ny < nx) (h2 : nx ≤ nz) :
    (gridDims nx ny nz).dimOrder = ![1, 0, 2] ∧ (gridDims nx ny nz).dimSize = ![ny, nx, nz] ∧
    (gridDims nx ny nz).dimStep = ![1, ny, ny * nx] := by
  rcases gridDims_cases nx ny nz with ⟨a, b, -⟩ | ⟨-, -, c, e, f⟩ | ⟨a, b, -⟩ |
    ⟨a, b, -⟩ | ⟨a, b, -⟩ | ⟨a, b, -⟩
  · exfalso; omega
  · exact ⟨c, e, f⟩
  all_goals exfalso; omega

/-- The value left for a grid point when the ray axis is z and the array starts
all `false`: the parity of the crossings below the point, the crossings being
computed as the natural order computes them. -/
theorem value_of_ray_along_z [Rounding] (s : DiagState) (faces : nBy3By3Array)
    (x y z : List ℚ) (i j k : ℕ) (hxz : x.length ≤ z.length) (hyz : y.length ≤ z.length)
    (hz : z.Sorted (· ≤ ·)) (hi : i < x.length) (hj : j < y.length) (hk : k < z.length)
    (hpivot : y.length < x.length → (∀ q, Rounding.rnd q = q) ∨
      pivotTieFree faces (x.getD i 0) (y.getD j 0)) :
    (insidePolyhedron s (fun _ => false) faces x y z).2
        (i * y.length + j + k * x.length * y.length) =
      isOdd (passedCount (z.getD k 0)
        ((((faces.filter (faceStraddles (x.getD i 0) 0)).filter
          (faceStraddles (y.getD j 0) 1)).filterMap
          (acceptedCrossing ![x.getD i 0, y.getD j 0] ![0, 1, 2])).insertionSort (· ≤ ·))) := by
  rcases le_or_lt x.length y.length with hxy | hyx
  · obtain ⟨hO, hS, hT⟩ := gridDims_natural x.length y.length z.length hxy hyz
    have hord := selfInverse_of_natural x.length y.length z.length hxy hyz
    have hidx : i * y.length + j + k * x.length * y.length =
        writeIndex (gridDims x.length y.length z.length).dimStep i j k := by
      rw [hT]; simp [writeIndex]; ring
    have hi' : i < (gridDims x.length y.length z.length).dimSize 0 := by
      rw [hS]; simpa using hi
    have hj' : j < (gridDims x.length y.length z.length).dimSize 1 := by
      rw [hS]; simpa using hj
    have hk' : k < (gridDims x.length y.length z.length).dimSize 2 := by
      rw [hS]; simpa using hk
    have hc : rayCoords x y z i j = ![x.getD i 0, y.getD j 0] := by
      unfold rayCoords
      rw [hO]
      rfl
    rw [hidx, run_value_from_false s faces x y z i j k hord (by rw [hO]; simpa using hz)
      (by rw [hO, hS]; simp) hi' hj' hk']
    unfold rayCrossings
    rw [getCrossings_snd, rayFaces_eq_filter, hc, hO]
    rfl
  · obtain ⟨hO, hS, hT⟩ := gridDims_swapped x.length y.length z.length hyx hxz
    have hord : SelfInverseOrder x.length y.length z.length := by
      intro p
      rw [hO]
      fin_cases p <;> rfl
    have hidx : i * y.length + j + k * x.length * y.length =
        writeIndex (gridDims x.length y.length z.length).dimStep j i k := by
      rw [hT]; simp [writeIndex]; ring
    have hi' : j < (gridDims x.length y.length z.length).dimSize 0 := by
      rw [hS]; simpa using hj
    have hj' : i < (gridDims x.length y.length z.length).dimSize 1 := by
      rw [hS]; simpa using hi
    have hk' : k < (gridDims x.length y.length z.length).dimSize 2 := by
      rw [hS]; simpa using hk
    have hc : rayCoords x y z j i = ![y.getD j 0, x.getD i 0] := by
      unfold rayCoords
      rw [hO]
      rfl
    rw [hidx, run_value_from_false s faces x y z j i k hord (by rw [hO]; simpa using hz)
      (by rw [hO, hS]; simp) hi' hj' hk']
    unfold rayCrossings
    rw [getCrossings_snd, rayFaces_eq_filter, hc, hO]
    have hf : (faces.filter (faceStraddles (y.getD j 0) 1)).filter
        (faceStraddles (x.getD i 0) 0) =
        (faces.filter (faceStraddles (x.getD i 0) 0)).filter
          (faceStraddles (y.getD j 0) 1) := List.filter_comm _ _ _
    have hm : ((faces.filter (faceStraddles (x.getD i 0) 0)).filter
          (faceStraddles (y.getD j 0) 1)).filterMap
          (acceptedCrossing ![y.getD j 0, x.getD i 0] ![1, 0, 2]) =
        ((faces.filter (faceStraddles (x.getD i 0) 0)).filter
          (faceStraddles (y.getD j 0) 1)).filterMap
          (acceptedCrossing ![x.getD i 0, y.getD j 0] ![0, 1, 2]) := by
      refine List.filterMap_congr fun f hf' => ?_
      rw [List.mem_filter, List.mem_filter] at hf'
      refine acceptedCrossing_swap_axes f _ _ ?_
      rcases hpivot hyx with h | h
      · exact Or.inl h
      · exact Or.inr (h f hf'.1.1 hf'.1.2 hf'.2)
    show isOdd (passedCount _ (List.insertionSort _ (List.filterMap _
      ((faces.filter (faceStraddles (y.getD j 0) 1)).filter
        (faceStraddles (x.getD i 0) 0))))) = _
    rw [hf, hm]
    rfl

/-- C3 (as stated) fails, for two reasons.  First, the ray axis: for one
triangle in the plane `z = 0` and the point `(0, 0, 1)`, the single-point call
casts its ray along z, finds one crossing below the point and records `true`,
whereas in the grid `x = [0]`, `y = [0, 5]`, `z = [1]` the ray axis is y, and in
the grid `x = [0, 5, 6]`, `y = [0, 5]`, `z = [1]` the ray axis is x; in both no
face straddles `z = 1`, and the element of the same point keeps `false`.
Second, the order of the two filter axes, in binary64 arithmetic: for the triangle
`(0,0,0), (1,1,0), (0,1,0)` and the point `(2^-70, 1/2, 1)` above it, the
single-point call pivots on the y equation, computes `b0 = 0.5 - 0.5 = 0` and
rejects the face, so it records nothing, whereas in the grid `x = [2^-70, 5]`,
`y = [1/2]`, `z = [1, 2]` the scheduler puts y first (the ray axis is still z),
`solve2by2` pivots on the x equation, computes `b0 = 2^-70 > 0`, accepts the
face and records `true`. -/
theorem axis_order_counterexample :
    ((insidePolyhedron DiagState.initial (fun _ => false) triangleAcrossZ [0] [0] [1]).2 0
        = true ∧
      (gridDims 1 2 1).dimOrder = ![0, 2, 1] ∧
      pointIndex 1 2 1 0 0 0 = 0 ∧
      (insidePolyhedron DiagState.initial (fun _ => false) triangleAcrossZ [0] [0, 5] [1]).2
        (pointIndex 1 2 1 0 0 0) = false ∧
      (gridDims 3 2 1).dimOrder = ![2, 1, 0] ∧
      pointIndex 3 2 1 0 0 0 = 0 ∧
      (insidePolyhedron DiagState.initial (fun _ => false) triangleAcrossZ
        [0, 5, 6] [0, 5] [1]).2 (pointIndex 3 2 1 0 0 0) = false) ∧
    ((@insidePolyhedron binary64 DiagState.initial (fun _ => false) diagonalTriangle
        [1 / 2 ^ 70] [1 / 2] [1]).2 0 = false ∧
      (gridDims 2 1 2).dimOrder = ![1, 0, 2] ∧
      pointIndex 2 1 2 0 0 0 = 0 ∧
      (@insidePolyhedron binary64 DiagState.initial (fun _ => false) diagonalTriangle
        [1 / 2 ^ 70, 5] [1 / 2] [1, 2]).2 (pointIndex 2 1 2 0 0 0) = true) := by
  decide!

/-- C3 (amended): for any mesh and any grid whose ray axis is z (`nx ≤ nz` and
`ny ≤ nz`), with `z` ascending and the output array all `false` on entry, the
value left at the element `i*ny + j + k*nx*ny` of grid point `(x[i], y[j], z[k])`
equals the value the single-point call on `x = [x[i]]`, `y = [y[j]]`,
`z = [z[k]]` leaves at element `0`: for `nx ≤ ny` under every rounding of the
arithmetic, and for `ny < nx`, where the scheduler exchanges the two filter
axes and with them the two equations of every 2x2 system, provided the
arithmetic is exact or no candidate face of the ray has
`|P1x - P0x| = |P1y - P0y|`.  Consequently two such grids over the same mesh
leave the same value for every grid point they share. -/
theorem grid_matches_single_point [Rounding] (s s' s'' : DiagState) (faces : nBy3By3Array)
    (x y z : List ℚ) (i j k : ℕ) (hxz : x.length ≤ z.length) (hyz : y.length ≤ z.length)
    (hz : z.Sorted (· ≤ ·)) (hi : i < x.length) (hj : j < y.length) (hk : k < z.length)
    (hpivot : y.length < x.length → (∀ q, Rounding.rnd q = q) ∨
      pivotTieFree faces (x.getD i 0) (y.getD j 0)) :
    (insidePolyhedron s (fun _ => false) faces x y z).2
        (i * y.length + j + k * x.length * y.length) =
      (insidePolyhedron s' (fun _ => false) faces
        [x.getD i 0] [y.getD j 0] [z.getD k 0]).2 0 ∧
    ∀ (x' y' z' : List ℚ) (i' j' k' : ℕ), x'.length ≤ z'.length → y'.length ≤ z'.length →
      z'.Sorted (· ≤ ·) → i' < x'.length → j' < y'.length → k' < z'.length →
      (y'.length < x'.length → (∀ q, Rounding.rnd q = q) ∨
        pivotTieFree faces (x'.getD i' 0) (y'.getD j' 0)) →
      x'.getD i' 0 = x.getD i 0 → y'.getD j' 0 = y.getD j 0 → z'.getD k' 0 = z.getD k 0 →
      (insidePolyhedron s'' (fun _ => false) faces x' y' z').2
          (i' * y'.length + j' + k' * x'.length * y'.length) =
        (insidePolyhedron s (fun _ => false) faces x y z).2
          (i * y.length + j + k * x.length * y.length) := by
  have hgrid := value_of_ray_along_z s faces x y z i j k hxz hyz hz hi hj hk hpivot
  have hone := value_of_ray_along_z s' faces [x.getD i 0] [y.getD j 0] [z.getD k 0] 0 0 0
    (le_refl _) (le_refl _) (List.sorted_singleton _) (by simp) (by simp) (by simp)
    (fun h => absurd h (by simp))
  simp only [List.length_singleton, List.getD_cons_zero, zero_mul, add_zero, mul_one]
    at hone
  refine ⟨hgrid.trans hone.symm, ?_⟩
  intro x' y' z' i' j' k' hxz' hyz' hz' hi' hj' hk' hpivot' ex ey ez
  rw [value_of_ray_along_z s'' faces x' y' z' i' j' k' hxz' hyz' hz' hi' hj' hk' hpivot',
    hgrid, ex, ey, ez]

/-- Instances of `grid_matches_single_point` with `ny < nx ≤ nz`, where the
scheduler exchanges x and y: in exact arithmetic the tetrahedron, the grid
`x = [1, 5]`, `y = [1]`, `z = [-1, 1, 3]` and its point `(1, 1, 1)`; in binary64
arithmetic the sloped triangle, which has no pivot tie, the grid `x = [0.5, 5]`,
`y = [0.25]`, `z = [0.25, 0.30000000000000004, 1]` and its point
`(0.5, 0.25, 0.30000000000000004)`. -/
theorem grid_matches_single_point_witness :
    ([(1 : ℚ), 5].length ≤ [(-1 : ℚ), 1, 3].length ∧
      [(1 : ℚ)].length ≤ [(-1 : ℚ), 1, 3].length ∧
      [(-1 : ℚ), 1, 3].Sorted (· ≤ ·) ∧
      (gridDims 2 1 3).dimOrder = ![1, 0, 2] ∧
      (insidePolyhedron DiagState.initial (fun _ => false) tetrahedron
          [1, 5] [1] [-1, 1, 3]).2 2 =
        (insidePolyhedron DiagState.initial (fun _ => false) tetrahedron [1] [1] [1]).2 0) ∧
    (@pivotTieFree binary64 slopedTriangle (1 / 2) (1 / 4) ∧
      (@insidePolyhedron binary64 DiagState.initial (fun _ => false) slopedTriangle
          [1 / 2, 5] [1 / 4] [1 / 4, 5404319552844596 / 18014398509481984, 1]).2 2 =
        (@insidePolyhedron binary64 DiagState.initial (fun _ => false) slopedTriangle
          [1 / 2] [1 / 4] [5404319552844596 / 18014398509481984]).2 0) :=
  ⟨⟨by decide, by decide, by decide!, by decide,
    (grid_matches_single_point DiagState.initial DiagState.initial DiagState.initial
      tetrahedron [1, 5] [1] [-1, 1, 3] 0 0 1 (by decide) (by decide) (by decide!)
      (by decide) (by decide) (by decide) (fun _ => Or.inl (fun _ => rfl))).1⟩,
    by unfold pivotTieFree; decide!,
    (@grid_matches_single_point binary64 DiagState.initial DiagState.initial
      DiagState.initial slopedTriangle [1 / 2, 5] [1 / 4]
      [1 / 4, 5404319552844596 / 18014398509481984, 1] 0 0 1 (by decide) (by decide)
      (by decide!) (by decide) (by decide) (by decide)
      (fun _ => Or.inr (by unfold pivotTieFree; decide!))).1⟩

/-! ## The diagnostics and the failing runs under rounding -/

/-- The diagnostics of one invocation, for every rounding of the arithmetic:
the odd-crossing diagnostic is printed exactly once if its latch is clear on
entry and some ray has an odd number of crossings, and not at all otherwise;
the near-singular diagnostic is printed exactly once if its latch is clear on
entry and some 2x2 solve has a denominator of magnitude below `1e-14`, and not
at all otherwise; each latch on return is its value on entry or-ed with its
condition. -/
theorem diagnostics_for_every_rounding [Rounding] (s : DiagState) (inside : ℕ → Bool)
    (faces : nBy3By3Array) (x y z : List ℚ) :
    ∃ new : List Warning,
      (insidePolyhedron s inside faces x y z).1.emitted = s.emitted ++ new ∧
      new.count Warning.oddCrossings =
        (if s.hasWarned = false ∧ hasOddRay faces x y z = true then 1 else 0) ∧
      new.count Warning.singular =
        (if s.hasAlreadyWarned = false ∧ hasSingularSolve faces x y z = true then 1 else 0) ∧
      (insidePolyhedron s inside faces x y z).1.hasWarned =
        (s.hasWarned || hasOddRay faces x y z) ∧
      (insidePolyhedron s inside faces x y z).1.hasAlreadyWarned =
        (s.hasAlreadyWarned || hasSingularSolve faces x y z) := by
  obtain ⟨e1, e2, new, e3, e4, e5⟩ := insidePolyhedron_emits s inside faces x y z
  refine ⟨new, e3, ?_, ?_, e2, e1⟩
  · rw [e5]
    cases s.hasWarned <;> cases hasOddRay faces x y z <;> rfl
  · rw [e4]
    cases s.hasAlreadyWarned <;> cases hasSingularSolve faces x y z <;> rfl

/-- The runs that show the out-of-range store, the index collision, the cube
centre reported outside and the skipped ray give the same stores in binary64
arithmetic as in exact arithmetic: their coordinates are small multiples of
`1/2`, on which no operation rounds. -/
theorem failing_runs_in_binary64 :
    (@insidePolyhedronRun binary64 DiagState.initial triangleAcrossY [0, 1] [-1, 1] [0]).writes =
      [(0, false), (2, true), (4, false), (6, true)] ∧
    (@insidePolyhedronRun binary64 DiagState.initial triangleAcrossX
      [-1, 1, 2] [0] [0, 1]).writes =
      [(0, false), (1, true), (2, true), (1, false), (2, true), (3, true)] ∧
    (@insidePolyhedronRun binary64 DiagState.initial unitCube [1/2] [1/2] [1/2]).writes = [] ∧
    (@insidePolyhedronRun binary64 DiagState.initial unitCube
      [0, 1/2, 1, 2] [0, 1/2, 1, 2] [0, 1/2, 1, 2]).writes = [] ∧
    (@insidePolyhedronRun binary64 DiagState.initial unitCube [2] [2] [2]).writes = [] ∧
    (@insidePolyhedron binary64 DiagState.initial (fun _ => true) unitCube [2] [2] [2]).2 0 =
      true := by
  decide!

end InsidePolyhedron
